import Mathlib

/-!
Verification development for the chess client/server repository
(server.py, client_updated_fixed.py, chess_ai.py).

The development shallowly embeds the parts of the code the claims are
about:

* the client's incremental message decoder `ChessClient.receive_data`
  (client_updated_fixed.py, lines 571-629): brace-depth scanning with
  quote and escape tracking, extraction of complete spans, the
  post-extraction `strip()` of the remaining buffer, and the
  JSONDecodeError recovery path with its 1000-byte ceiling;
* the server's per-connection read loop (server.py, lines 201-209) and
  its exception handling (lines 448-534);
* `GameSession` and its mutations (`next_turn`, the move handler in
  `handle_client`, lines 301-366, and the watchdog body of
  `check_move_timers`, lines 561-639);
* the process-wide registries `lobby`, `games`, `waiting_games`,
  `spectators` and the operations of `handle_client` that mutate them;
* `ChessAI.get_move` and its move-selection helpers (chess_ai.py).

The external rules engine (the python-chess library) and the JSON
codec (`json.loads` / `json.dumps`) are out-of-scope collaborators per
the specification; they are modelled as parameters (a `Rules`
structure, respectively abstract parse functions), and concrete toy
instances are used to evaluate closed statements.
-/

namespace ChessServer

/-! ## Part 1: the client message decoder (client_updated_fixed.py 571-629)

The scanner walks the accumulated buffer character by character
maintaining `json_depth`, `in_string` and `escape_next` exactly as the
Python loop does (lines 589-610). -/

structure ScanSt where
  depth : Int
  inStr : Bool
  esc : Bool
deriving DecidableEq, Repr

def scanStart : ScanSt := ⟨0, false, false⟩

/-- One iteration of the `for i, char in enumerate(buffer)` loop
(lines 594-610), as a state transformer: the `escape_next` early
`continue`, the backslash case, the quote toggle, and the brace-depth
updates outside strings. -/
def scanStep (st : ScanSt) (c : Char) : ScanSt :=
  if st.esc then { st with esc := false }
  else if c = '\\' then { st with esc := true }
  else if c = '"' then { st with inStr := !st.inStr }
  else if st.inStr then st
  else if c = '\x7b' then { st with depth := st.depth + 1 }
  else if c = '\x7d' then { st with depth := st.depth - 1 }
  else st

/-- The character `c`, read in state `st`, is the closing brace at which
`json_depth` returns to zero (lines 606-610): not escaped, outside a
string, a `\x7d`, and the depth before consuming it is 1. -/
def completes (st : ScanSt) (c : Char) : Bool :=
  !st.esc && !st.inStr && c = '\x7d' && st.depth = 1

/-- Index of the first character at which the scan completes a message
(the `i` with `msg_end = i + 1` in line 609), or `none` when the loop
runs off the end without completing (`msg_end == 0`, line 612). -/
def scanFrom (st : ScanSt) : List Char → Option Nat
  | [] => none
  | c :: cs =>
    if completes st c then some 0
    else (scanFrom (scanStep st c) cs).map (· + 1)

def scanFolds (st : ScanSt) (l : List Char) : ScanSt := l.foldl scanStep st

/-- Python `str.isspace` characters: the set stripped by `str.strip()`
(line 618 applies `.strip()` to the remaining buffer). -/
def isPySpace (c : Char) : Bool :=
  let n := c.toNat
  (0x09 ≤ n && n ≤ 0x0d) || n = 0x20 || (0x1c ≤ n && n ≤ 0x1f) ||
    n = 0x85 || n = 0xa0 || n = 0x1680 || (0x2000 ≤ n && n ≤ 0x200a) ||
    n = 0x2028 || n = 0x2029 || n = 0x202f || n = 0x205f || n = 0x3000

/-- Python `buffer.strip()`: drop leading and trailing whitespace. -/
def pstrip (l : List Char) : List Char :=
  ((l.dropWhile isPySpace).reverse.dropWhile isPySpace).reverse

def noWS (l : List Char) : Bool := l.all fun c => !isPySpace c

/-- The inner `while buffer:` loop of `receive_data` (lines 586-629),
with explicit fuel (the fuel never runs out when it is at least the
buffer length; see `procBufF_fuel_irrel`).  `ok` abstracts whether
`json.loads` succeeds on an extracted span.  Returns the list of spans
handed to `json.loads` successfully (dispatched messages, line 619-621)
and the final buffer.  On a decode failure the span has already been
removed from the buffer (line 618 runs before line 619); the remaining
buffer is reset when longer than 1000 (lines 626-628), otherwise kept,
and the loop breaks either way (line 629). -/
def procBufF (ok : List Char → Bool) : Nat → List Char → List (List Char) × List Char
  | 0, buf => ([], buf)
  | fuel + 1, buf =>
    match scanFrom scanStart buf with
    | none => ([], buf)
    | some i =>
      let msg := buf.take (i + 1)
      let rest := pstrip (buf.drop (i + 1))
      if ok msg then
        let r := procBufF ok fuel rest
        (msg :: r.1, r.2)
      else if rest.length > 1000 then ([], [])
      else ([], rest)

def procBuf (ok : List Char → Bool) (buf : List Char) : List (List Char) × List Char :=
  procBufF ok buf.length buf

/-- The outer `while self.connected:` read loop (lines 575-583): each
received chunk is appended to the buffer and the inner loop is run. -/
def feedChunks (ok : List Char → Bool) : List Char → List (List Char) → List (List Char) × List Char
  | buf, [] => ([], buf)
  | buf, ch :: chs =>
    let r := procBuf ok (buf ++ ch)
    let r2 := feedChunks ok r.2 chs
    (r.1 ++ r2.1, r2.2)

/-- A complete framed message: nonempty, and the scan started from the
initial state completes exactly at its last character. -/
def Framed (m : List Char) : Prop :=
  m ≠ [] ∧ scanFrom scanStart m = some (m.length - 1)

instance (m : List Char) : Decidable (Framed m) := by unfold Framed; infer_instance

/-- A message is good (for a given parse oracle) when it is framed,
whitespace-free and parses. -/
def Good (ok : List Char → Bool) (m : List Char) : Prop :=
  Framed m ∧ noWS m = true ∧ ok m = true

instance (ok : List Char → Bool) (m : List Char) : Decidable (Good ok m) := by
  unfold Good; infer_instance

/-! ## Part 2: the server read loop (server.py 201-209, 448-534)

The server main per-connection loop reads one chunk per iteration and
parses it directly with `json.loads` (lines 203-209).  There is no
framing and the parse is not guarded by a try inside the loop, so a
parse failure propagates to the handler-level `except` (line 448) and
the `finally` block (lines 450-534) runs the disconnect cleanup and
closes the socket. -/

/-- The read loop of `handle_client` after the initial join, viewed as
a consumer of the sequence of `recv` results.  `parse` abstracts
`json.loads` (`none` models a raise).  Returns the successfully parsed
messages, in order, and whether the loop ended by an exception (in
which case the remaining reads are never processed and the connection
is closed by the `finally` block; an empty read is the normal
end-of-stream `break` of line 204-206). -/
def serverConsume {J : Type} (parse : String → Option J) : List String → List J × Bool
  | [] => ([], false)
  | d :: ds =>
    if d = "" then ([], false)
    else
      match parse d with
      | none => ([], true)
      | some j =>
        let r := serverConsume parse ds
        (j :: r.1, r.2)

/-- A concrete stand-in for `json.loads` on a two-string universe, for
closed statements: the literal text `\x7b\x7d` (an empty JSON object)
parses, anything else raises — consistent with the real decoder, which
raises on the word `oops`. -/
def jsonToy : String → Option Unit :=
  fun d => if d = "\x7b\x7d" then some () else none

/-! ## Part 3: colors, the rules-engine interface, wire messages -/

abbrev Conn := Nat
abbrev Addr := Nat

/-- MOVE_TIMEOUT_SECONDS (server.py line 12). -/
def moveTimeoutSeconds : Int := 60

inductive Color where
  | white
  | black
deriving DecidableEq, Repr

def Color.other : Color → Color
  | .white => .black
  | .black => .white

/-- Interface of the external Rules Engine (python-chess), which the
specification places out of scope (§1): `B` stands for `chess.Board`,
`M` for `chess.Move`.  `parseUci` returning `none` models
`chess.Move.from_uci` raising on malformed text. -/
structure Rules (B M : Type) where
  init : B
  sideToMove : B → Color
  legal : B → M → Bool
  push : B → M → B
  isCheckmate : B → Bool
  isStalemate : B → Bool
  insufficient : B → Bool
  fen : B → String
  parseUci : String → Option M

/-- Laws of the real engine that the turn-synchronisation claims rest
on: `board.push` always flips `board.turn`, and a fresh `chess.Board()`
has White to move. -/
def Rules.Flips {B M : Type} (R : Rules B M) : Prop :=
  (∀ b m, R.sideToMove (R.push b m) = (R.sideToMove b).other) ∧
    R.sideToMove R.init = Color.white

/-- Wire messages sent by the server (§6).  Free-text `info` notices
whose wording carries semantic content get dedicated constructors; the
code text is noted next to each. -/
inductive Msg where
  | joinedLobby                                         -- "Joined lobby. ..."
  | gameCreated (gid : Nat) (priv : Bool)               -- "Game #id ... created. You are White. ..."
  | startedAs (c : Color) (gid : Nat)                   -- "Game #id started. You are White/Black."
  | lobbyUpdate (players : List Addr) (avail : List (Nat × Addr × Bool))
  | info (tag : String)                                 -- other info texts
  | err (tag : String)                                  -- error messages, by code text
  | boardMsg (fen : String)                             -- board {board}
  | turnFull (t : Color) (status : String) (timeLimit : Int)  -- turn {turn, status, time_limit}
  | turnOnly (t : Color)                                -- turn {turn}
  | moveBcast (mv : String) (fen : String)              -- move {move, board}
  | checkmateNotice (winner : Color)                    -- "Checkmate! X wins!"
  | stalemateNotice                                     -- "Stalemate! Game ends in a draw."
  | insufficientNotice                                  -- "Draw due to insufficient material."
  | timeoutNotice (c : Color)                           -- "X took too long. Turn passes to opponent."
  | timeoutSync (timedOut : Color) (fen : String) (next : Color)
  | gameOver (result : String) (reason : String)
  | chatMsg (text : String)
  | returnedToLobby                                     -- "Game ended. You have been returned to the lobby."
  | spectatingInfo (gid : Nat)                          -- "You are now spectating Game #id"
  | notFoundInfo                                        -- "Game #id not found. Active games: ..."
  | oppQuitLobby                                        -- "Your opponent has quit ... returned to the lobby."
  | youQuit                                             -- "You have quit the game. Returning to lobby."
  | oppDisconnected                                     -- "Opponent disconnected. Game ended."
  | endedByDisconnect                                   -- "Game ended due to player disconnection."
deriving DecidableEq, Repr

/-! ## Part 4: the game session (server.py 48-143) -/

structure Session (B : Type) where
  board : B
  whiteConn : Option Conn
  blackConn : Option Conn
  playersW : Option Conn        -- players[chess.WHITE]
  playersB : Option Conn        -- players[chess.BLACK]
  turn : Color
  specs : List Conn             -- self.spectators
  gameId : Nat
  lastMove : Int                -- last_move_time
  creatorConn : Option Conn
  creatorAddr : Option Addr
  password : Option String
  isPrivate : Bool
  blackAddr : Option Addr       -- set by join_game; getattr default models absence
deriving DecidableEq, Repr

/-- GameSession.__init__ as called with `white_conn=conn, creator_conn=conn,
creator_addr=addr, password=password` (server.py 49-67, 219).  The id is
supplied by the caller (the uuid is modelled by a fresh counter). -/
def mkSession {B M : Type} (R : Rules B M) (c : Conn) (a : Addr) (pw : Option String)
    (gid : Nat) (now : Int) : Session B :=
  { board := R.init
    whiteConn := some c
    blackConn := none
    playersW := some c
    playersB := none
    turn := Color.white
    specs := []
    gameId := gid
    lastMove := now
    creatorConn := some c
    creatorAddr := some a
    password := pw
    isPrivate := pw.isSome
    blackAddr := none }

/-- GameSession.opponent (lines 69-71). -/
def Session.opponent {B : Type} (s : Session B) (c : Conn) : Option Conn :=
  if some c = s.whiteConn then s.blackConn else s.whiteConn

/-- The players dict lookup `game.players.get(color)`. -/
def Session.playersGet {B : Type} (s : Session B) : Color → Option Conn
  | .white => s.playersW
  | .black => s.playersB

/-- Recipients of GameSession.broadcast (lines 73-93): both seated
players then every spectator; a send failure (including a missing
seat) is swallowed and skips only that recipient. -/
def Session.recipients {B : Type} (s : Session B) : List Conn :=
  s.whiteConn.toList ++ s.blackConn.toList ++ s.specs

def Session.broadcast {B : Type} (s : Session B) (m : Msg) : List (Conn × Msg) :=
  s.recipients.map fun c => (c, m)

/-- GameSession.next_turn (lines 115-143): flip the turn, reset the
move timer, detect terminal positions, and broadcast (in order) the
optional end notice, the turn message and the board message.  Returns
the updated session, the broadcast payloads in order, and the status
string. -/
def nextTurn {B M : Type} (R : Rules B M) (now : Int) (s : Session B) :
    Session B × List Msg × String :=
  let s1 : Session B := { s with turn := s.turn.other, lastMove := now }
  let endPart : List Msg × String :=
    if R.isCheckmate s1.board then ([Msg.checkmateNotice s1.turn.other], "ended")
    else if R.isStalemate s1.board then ([Msg.stalemateNotice], "ended")
    else if R.insufficient s1.board then ([Msg.insufficientNotice], "ended")
    else ([], "active")
  (s1, endPart.1 ++ [Msg.turnFull s1.turn endPart.2 moveTimeoutSeconds,
        Msg.boardMsg (R.fen s1.board)], endPart.2)

/-- The move branch of `handle_client` (server.py 301-366) restricted
to one session: returns the updated session, the messages sent
(recipient, message) in order, the status string from `next_turn`
("active" when the move is rejected), and whether the move was
accepted (the `game.board.push` branch, line 318-319).  The winner in
the checkmate notice is the side that just moved. -/
def handleMove {B M : Type} (R : Rules B M) (now : Int) (s : Session B)
    (c : Conn) (mv : String) : Session B × List (Conn × Msg) × String × Bool :=
  let playerColor : Color := if some c = s.whiteConn then .white else .black
  if s.turn ≠ playerColor then
    (s, [(c, Msg.err "Not your turn")], "active", false)
  else
    match R.parseUci mv with
    | none => (s, [(c, Msg.err "Invalid move format")], "active", false)
    | some m =>
      if R.legal s.board m then
        let s1 : Session B := { s with board := R.push s.board m }
        let moveOut := s1.broadcast (Msg.moveBcast mv (R.fen s1.board))
        let r := nextTurn R now s1
        (r.1, moveOut ++ (r.2.1.map fun pm => r.1.broadcast pm).flatten, r.2.2, true)
      else
        (s, [(c, Msg.err "Illegal move")], "active", false)

/-- The per-session body of one watchdog pass (server.py 572-639):
fires when the elapsed time strictly exceeds the limit and the
side-to-move still has a connection in the players dict; then the
notice is broadcast, the timer is reset and the turn flipped with the
board untouched (lines 614-616), and timeout_sync, board and turn are
broadcast (lines 620-639).  Returns the updated session and the
broadcast payloads in order. -/
def scanGame {B M : Type} (R : Rules B M) (now : Int) (s : Session B) :
    Session B × List Msg :=
  if now - s.lastMove > moveTimeoutSeconds then
    match s.playersGet s.turn with
    | none => (s, [])
    | some _ =>
      let opponentColor := s.turn.other
      let s1 : Session B := { s with lastMove := now, turn := opponentColor }
      (s1, [Msg.timeoutNotice s.turn,
            Msg.timeoutSync s.turn (R.fen s.board) opponentColor,
            Msg.boardMsg (R.fen s.board),
            Msg.turnFull opponentColor "active" moveTimeoutSeconds])
  else (s, [])

/-! ## Part 5: the session registry and its operations
(server.py globals 14-18 and `handle_client`, 146-534)

Python dicts with Nat keys are modelled as association lists with
pairwise-distinct keys: assignment replaces in place or appends,
deletion removes the entry. -/

def dlookup {β : Type} : List (Nat × β) → Nat → Option β
  | [], _ => none
  | p :: l, k => if p.1 = k then some p.2 else dlookup l k

def dinsert {β : Type} : List (Nat × β) → Nat → β → List (Nat × β)
  | [], k, v => [(k, v)]
  | p :: l, k, v => if p.1 = k then (k, v) :: l else p :: dinsert l k v

def derase {β : Type} : List (Nat × β) → Nat → List (Nat × β)
  | [], _ => []
  | p :: l, k => if p.1 = k then l else p :: derase l k

inductive Role where
  | player
  | spectator
deriving DecidableEq, Repr

/-- The process-wide registries (server.py 14-18), plus bookkeeping the
code keeps per connection handler (`assigned_role`, closed sockets), a
fresh-id counter standing for the uuid generator, and the log of sent
messages.  `games` is the activeGames map conn → session id, `waiting`
the ids of waiting_games (the session id doubles as the game id),
`specMap` the spectators dict, `sessions` the object store. -/
structure Srv (B : Type) where
  lobby : List (Conn × Addr)
  games : List (Conn × Nat)
  waiting : List Nat
  specMap : List (Conn × Nat)
  sessions : List (Nat × Session B)
  roles : List (Conn × Role)
  closed : List Conn
  nextId : Nat
  out : List (Conn × Msg)
deriving DecidableEq, Repr

def initSrv {B : Type} : Srv B :=
  { lobby := [], games := [], waiting := [], specMap := [], sessions := []
    roles := [], closed := [], nextId := 0, out := [] }

def sendTo {B : Type} (s : Srv B) (c : Conn) (m : Msg) : Srv B :=
  { s with out := s.out ++ [(c, m)] }

def sendAll {B : Type} (s : Srv B) (ms : List (Conn × Msg)) : Srv B :=
  { s with out := s.out ++ ms }

/-- The lobby_update payload assembled by broadcast_lobby
(server.py 30-39). -/
def lobbySnapshot {B : Type} (s : Srv B) : Msg :=
  Msg.lobbyUpdate (s.lobby.map Prod.snd)
    (s.waiting.filterMap fun gid =>
      match dlookup s.sessions gid with
      | some g => some (gid, g.creatorAddr.getD 0, g.isPrivate)
      | none => none)

/-- broadcast_lobby (server.py 30-45): send the snapshot to every
lobby member. -/
def broadcastLobby {B : Type} (s : Srv B) : Srv B :=
  sendAll s (s.lobby.map fun p => (p.1, lobbySnapshot s))

/-- The lobby re-add used by the quit path (server.py 402-407) and the
disconnect path (477-482): the opponent and the address under which to
re-add it, when both are known.  Note `opponent == game.white_conn`
compares option values, so two absent values also match. -/
def quitReadd {B : Type} (g : Session B) (c : Conn) : Option (Conn × Addr) :=
  let opp := g.opponent c
  let oppAddr : Option Addr :=
    if opp = g.whiteConn then g.creatorAddr
    else if opp.isSome && g.blackAddr.isSome then g.blackAddr
    else none
  match opp, oppAddr with
  | some o, some oa => some (o, oa)
  | _, _ => none

/-- Client-visible operations (message kinds of §6 that mutate the
registries) plus disconnect and one watchdog pass.  `chat` and
`lobby_request` are omitted: they only send messages and mutate no
registry or session state.  Operations carry the wall-clock instants
the code reads with time.time(). -/
inductive Op where
  | joinPlayer (c : Conn) (a : Addr)
  | joinSpectator (c : Conn) (gid : Nat)
  | createGame (c : Conn) (a : Addr) (pw : Option String) (now : Int)
  | joinGame (c : Conn) (a : Addr) (gid : Nat) (pw : Option String) (now : Int)
  | moveOp (c : Conn) (a : Addr) (mv : String) (now : Int)
  | quitOp (c : Conn) (a : Addr)
  | disconnect (c : Conn) (a : Addr)
  | watchdog (now : Int)
deriving DecidableEq, Repr

/-- The create_game branch (server.py 212-232): requires lobby
membership and player role; creates the waiting session, seats the
creator as White, and — note — also inserts the creator into the
activeGames dict (line 222) while the session sits in waiting_games. -/
def createStep {B M : Type} (R : Rules B M) (s : Srv B) (c : Conn) (a : Addr)
    (pw : Option String) (now : Int) : Srv B :=
  if dlookup s.roles c = some Role.player ∧ (c, a) ∈ s.lobby ∧ c ∉ s.closed then
    broadcastLobby
      { s with
        waiting := s.waiting ++ [s.nextId]
        lobby := s.lobby.erase (c, a)
        games := dinsert s.games c s.nextId
        sessions := dinsert s.sessions s.nextId (mkSession R c a pw s.nextId now)
        nextId := s.nextId + 1
        out := s.out ++ [(c, Msg.gameCreated s.nextId pw.isSome)] }
  else s

/-- The join_game branch (server.py 234-289).  On a private game with a
password mismatch only the error is sent (line 243-248); on success the
joiner is seated as Black, inserted into activeGames, the session
leaves waiting_games, the joiner leaves the lobby, both players are
told their colors, the initial turn/board are broadcast (the turn
payload is the literal White, line 275), and the move timer resets.
`joinCore` is the success branch; `seatBlack` is the seat assignment of
lines 249-251. -/
def seatBlack {B : Type} (g : Session B) (c : Conn) (a : Addr) : Session B :=
  { g with
    blackConn := some c
    playersB := some c
    blackAddr := some a }

def joinCore {B M : Type} (R : Rules B M) (s : Srv B) (c : Conn) (a : Addr)
    (gid : Nat) (g : Session B) (now : Int) : Srv B :=
  broadcastLobby
    { s with
      sessions := dinsert s.sessions gid { seatBlack g c a with lastMove := now }
      games := dinsert s.games c gid
      waiting := s.waiting.erase gid
      lobby := s.lobby.erase (c, a)
      out := s.out ++
        ((match g.whiteConn with
          | some w => [(w, Msg.startedAs Color.white g.gameId)]
          | none => []) ++
         ([(c, Msg.startedAs Color.black g.gameId)] ++
          ((seatBlack g c a).broadcast (Msg.turnOnly Color.white) ++
           (seatBlack g c a).broadcast (Msg.boardMsg (R.fen g.board))))) }

def joinStep {B M : Type} (R : Rules B M) (s : Srv B) (c : Conn) (a : Addr)
    (gid : Nat) (pw : Option String) (now : Int) : Srv B :=
  if dlookup s.roles c = some Role.player ∧ (c, a) ∈ s.lobby ∧ c ∉ s.closed then
    if gid ∈ s.waiting then
      match dlookup s.sessions gid with
      | none => s
      | some g =>
        if g.isPrivate ∧ pw.getD "" ≠ g.password.getD "" then
          sendTo s c (Msg.err "Incorrect password for private game.")
        else
          joinCore R s c a gid g now
    else
      sendTo s c (Msg.err "Game not found or already full.")
  else s

/-- The ended-game cleanup after a move (server.py 322-354): delete
both seat entries from activeGames, then re-add each seated side whose
connection and address are known to the lobby (the White address read
from creator_address, line 329), notify them, and refresh the lobby.
waiting_games and the spectators dict are not touched here;
`eraseSeats` is the games-dict deletion part (lines 333-336). -/
def eraseSeats {B : Type} (games : List (Conn × Nat)) (g : Session B) :
    List (Conn × Nat) :=
  match g.blackConn with
  | some b =>
    derase (match g.whiteConn with
            | some w => derase games w
            | none => games) b
  | none =>
    match g.whiteConn with
    | some w => derase games w
    | none => games

/-- The lobby re-adds of the cleanup (server.py 339-351): a seated side
is re-added when its connection and address are known (White address
read from creator_address, line 329). -/
def seatReadd (oc : Option Conn) (oa : Option Addr) : List (Conn × Addr) :=
  match oc, oa with
  | some x, some xa => [(x, xa)]
  | _, _ => []

def moveCleanup {B : Type} (s : Srv B) (g : Session B) : Srv B :=
  broadcastLobby
    { s with
      games := eraseSeats s.games g
      lobby := (s.lobby ++ seatReadd g.whiteConn g.creatorAddr) ++
        seatReadd g.blackConn g.blackAddr
      out := s.out ++
        ((seatReadd g.whiteConn g.creatorAddr).map fun p => (p.1, Msg.returnedToLobby)) ++
        ((seatReadd g.blackConn g.blackAddr).map fun p => (p.1, Msg.returnedToLobby)) }

/-- The move branch at registry level (server.py 298-366): look up the
session of the sender, run the session-level move handler, store the
updated session, and on an ended status run the cleanup. -/
def moveStep {B M : Type} (R : Rules B M) (s : Srv B) (c : Conn) (mv : String)
    (now : Int) : Srv B :=
  if dlookup s.roles c = some Role.player ∧ c ∉ s.closed then
    match dlookup s.games c with
    | none => s
    | some sid =>
      match dlookup s.sessions sid with
      | none => s
      | some g =>
        let r := handleMove R now g c mv
        let s1 : Srv B :=
          { s with sessions := dinsert s.sessions sid r.1, out := s.out ++ r.2.1 }
        if r.2.2.1 = "ended" then moveCleanup s1 g else s1
  else s

/-- The quit_game branch (server.py 374-436): notify the opponent and
the spectators, delete both activeGames entries, re-add the quitter,
then the opponent when `quitReadd` yields one (no membership check,
line 418-419), notify, and refresh the lobby.  waiting_games and the
spectators dict are not touched.  `quitText` is the game_over payload
of lines 383-396. -/
def quitText {B : Type} (g : Session B) (c : Conn) : Msg :=
  Msg.gameOver
    (if (if some c = g.whiteConn then Color.white else Color.black) = Color.white
     then "White player has quit the game."
     else "Black player has quit the game.") "quit"

/-- The games-dict result of the quit path (server.py 410-412): delete
the quitter, then the opponent if still registered. -/
def eraseQuit {B : Type} (games : List (Conn × Nat)) (g : Session B) (c : Conn) :
    List (Conn × Nat) :=
  match g.opponent c with
  | some o =>
    if (dlookup (derase games c) o).isSome then derase (derase games c) o
    else derase games c
  | none => derase games c

def quitStep {B : Type} (s : Srv B) (c : Conn) (a : Addr) : Srv B :=
  if dlookup s.roles c = some Role.player ∧ c ∉ s.closed then
    match dlookup s.games c with
    | none => s
    | some sid =>
      match dlookup s.sessions sid with
      | none => s
      | some g =>
        broadcastLobby
          { s with
            games := eraseQuit s.games g c
            lobby := (s.lobby ++ [(c, a)]) ++
              (match quitReadd g c with
               | some p => [p]
               | none => [])
            out := s.out ++
              ((match g.opponent c with
                | some o => [(o, quitText g c)]
                | none => []) ++
               ((g.specs.map fun sp => (sp, quitText g c)) ++
                ((match quitReadd g c with
                  | some p => [(p.1, Msg.oppQuitLobby)]
                  | none => []) ++ [(c, Msg.youQuit)]))) }
  else s

/-- The disconnect cleanup in the finally block (server.py 450-534):
for a player, leave the lobby if present, drop a waiting game created
by this connection, and when seated run the teardown — notify the
opponent, delete both activeGames entries, re-add the opponent via the
same address logic as quit (no membership check, line 507-508), notify
the spectators of the session and delete their bindings (lines
512-521), refresh the lobby.  For a spectator, drop the binding.  The
socket is closed in every case.  `discLobby` is the lobby removal of
lines 457-460. -/
def discLobby {B : Type} (s : Srv B) (c : Conn) (a : Addr) : Srv B :=
  if (c, a) ∈ s.lobby then broadcastLobby { s with lobby := s.lobby.erase (c, a) }
  else s

/-- Removal of a waiting game created by the leaving connection
(server.py 462-471). -/
def discWaiting {B : Type} (s : Srv B) (c : Conn) : Srv B :=
  match s.waiting.find? fun gid =>
    match dlookup s.sessions gid with
    | some g => g.creatorConn = some c
    | none => false with
  | some gid => broadcastLobby { s with waiting := s.waiting.erase gid }
  | none => s

/-- The seated-game teardown of the disconnect path (server.py
473-524), given the session: notify the opponent, delete both seat
entries, re-add the opponent via the quit address logic, notify the
spectators of the session and delete their bindings. -/
def discGame {B : Type} (s : Srv B) (c : Conn) (g : Session B) : Srv B :=
  broadcastLobby
    { s with
      games := eraseQuit s.games g c
      lobby := s.lobby ++
        (match quitReadd g c with
         | some p => [p]
         | none => [])
      specMap := g.specs.foldl (fun acc sp => derase acc sp) s.specMap
      out := s.out ++
        ((match g.opponent c with
          | some o => [(o, Msg.oppDisconnected),
              (o, Msg.gameOver "Opponent disconnected." "disconnection")]
          | none => []) ++
         (g.specs.map fun sp => (sp, Msg.endedByDisconnect))) }

def discPlayer {B : Type} (s : Srv B) (c : Conn) : Srv B :=
  match dlookup s.games c with
  | none => s
  | some sid =>
    match dlookup s.sessions sid with
    | none => s
    | some g => discGame s c g

def disconnectStep {B : Type} (s : Srv B) (c : Conn) (a : Addr) : Srv B :=
  if c ∈ s.closed then s
  else
    match dlookup s.roles c with
    | some Role.player =>
      { discPlayer (discWaiting (discLobby s c a) c) c with
        closed := (discPlayer (discWaiting (discLobby s c a) c) c).closed ++ [c] }
    | some Role.spectator =>
      { s with specMap := derase s.specMap c, closed := s.closed ++ [c] }
    | none => { s with closed := s.closed ++ [c] }

/-- One watchdog pass over `list(set(games.values()))`
(server.py 565-639): every session referenced from activeGames is
scanned once (duplicates removed), in some order; each scanned session
is updated by `scanGame` and its payloads are broadcast to its
recipients. -/
def watchdogBody {B M : Type} (R : Rules B M) (now : Int) (acc : Srv B) (sid : Nat) :
    Srv B :=
  match dlookup acc.sessions sid with
  | none => acc
  | some g =>
    let r := scanGame R now g
    { acc with
      sessions := dinsert acc.sessions sid r.1
      out := acc.out ++ (r.2.map fun pm => g.broadcast pm).flatten }

def watchdogStep {B M : Type} (R : Rules B M) (s : Srv B) (now : Int) : Srv B :=
  ((s.games.map Prod.snd).dedup).foldl (watchdogBody R now) s

/-- The first-message join handling (server.py 153-199): a fresh
connection declares its role; players enter the lobby, spectators are
bound to the requested game when one with that id is referenced from
activeGames (line 182), receiving the initial sync (lines 95-113). -/
def joinPlayerStep {B : Type} (s : Srv B) (c : Conn) (a : Addr) : Srv B :=
  if (dlookup s.roles c).isSome then s
  else
    broadcastLobby
      { s with
        roles := dinsert s.roles c Role.player
        lobby := s.lobby ++ [(c, a)]
        out := s.out ++ [(c, Msg.joinedLobby)] }

/-- The spectator attach of lines 170-193, after the role is recorded:
find a session with the requested id among those referenced from
activeGames, append the spectator to it and bind it in the spectators
dict, sending the initial sync. -/
def specFind {B M : Type} (R : Rules B M) (s : Srv B) (c : Conn) (gid : Nat) :
    Srv B :=
  match ((s.games.map Prod.snd).dedup).find? fun sid =>
      match dlookup s.sessions sid with
      | some g => g.gameId = gid
      | none => false with
  | some sid =>
    match dlookup s.sessions sid with
    | none => s
    | some g =>
      { s with
        sessions := dinsert s.sessions sid { g with specs := g.specs ++ [c] }
        specMap := dinsert s.specMap c sid
        out := s.out ++ [(c, Msg.spectatingInfo g.gameId),
          (c, Msg.boardMsg (R.fen g.board)), (c, Msg.turnOnly g.turn)] }
  | none => sendTo s c Msg.notFoundInfo

def joinSpectatorStep {B M : Type} (R : Rules B M) (s : Srv B) (c : Conn) (gid : Nat) :
    Srv B :=
  if (dlookup s.roles c).isSome then s
  else specFind R { s with roles := dinsert s.roles c Role.spectator } c gid

def applyOp {B M : Type} (R : Rules B M) (s : Srv B) : Op → Srv B
  | .joinPlayer c a => joinPlayerStep s c a
  | .joinSpectator c gid => joinSpectatorStep R s c gid
  | .createGame c a pw now => createStep R s c a pw now
  | .joinGame c a gid pw now => joinStep R s c a gid pw now
  | .moveOp c _ mv now => moveStep R s c mv now
  | .quitOp c a => quitStep s c a
  | .disconnect c a => disconnectStep s c a
  | .watchdog now => watchdogStep R s now

def runOps {B M : Type} (R : Rules B M) : Srv B → List Op → Srv B
  | s, [] => s
  | s, op :: ops => runOps R (applyOp R s op) ops

/-- Reachability from the empty server state by some operation trace. -/
def Reachable {B M : Type} (R : Rules B M) (s : Srv B) : Prop :=
  ∃ ops, s = runOps R initSrv ops

/-- Toy rules engine used to evaluate closed statements: the board is
a ply counter, the side to move alternates starting from White (as
python-chess push flips turn), every move parses and is legal, and
checkmate is declared exactly at ply `mateAt`. -/
def toyRules (mateAt : Int) : Rules Int String :=
  { init := 0
    sideToMove := fun b => if b % 2 = 0 then Color.white else Color.black
    legal := fun _ _ => true
    push := fun b _ => b + 1
    isCheckmate := fun b => b = mateAt
    isStalemate := fun _ => false
    insufficient := fun _ => false
    fen := fun _ => ""
    parseUci := fun mv => some mv }

/-! ## Part 6: ChessAI (chess_ai.py) -/

/-- Board operations ChessAI uses, from the out-of-scope rules engine:
the legal move list, the capture test, and the gives-check test (push,
is_check, pop — chess_ai.py lines 60-73). -/
structure AiBoard (B M : Type) where
  legalMoves : B → List M
  isCapture : B → M → Bool
  givesCheck : B → M → Bool

/-- random.choice picks some element of a nonempty list; the random
index is supplied as a parameter, reduced modulo the length. -/
def choiceAt {α : Type} (l : List α) (i : Nat) : Option α :=
  l.get? (i % l.length)

/-- ChessAI._get_random_move (chess_ai.py 51-81).  The loop
categorizes legal moves into captures, non-captures giving check, and
the rest; `flipCap` is the outcome of the draw `random.random() < 0.7`
and `flipChk` of `random.random() < 0.5`; `iCap`, `iChk`, `iAll` are
the random.choice draws. -/
def getRandomMove {B M : Type} (A : AiBoard B M) (b : B)
    (flipCap flipChk : Bool) (iCap iChk iAll : Nat) : Option M :=
  let legal := A.legalMoves b
  let captures := legal.filter fun m => A.isCapture b m
  let checks := legal.filter fun m => !A.isCapture b m && A.givesCheck b m
  if !captures.isEmpty && flipCap then choiceAt captures iCap
  else if !checks.isEmpty && flipChk then choiceAt checks iChk
  else choiceAt legal iAll

/-- The comparison `value > best_value` of chess_ai.py line 101, with
`none` standing for the initial float -inf (the recursive search
always returns a finite evaluation, so any value beats -inf). -/
def minimaxBetter {M : Type} (val : M → Option Int → Int)
    (acc : M × Option Int × Option Int) (m : M) : Bool :=
  match acc.2.1 with
  | none => true
  | some bv => val m acc.2.2 > bv

/-- One iteration of the best-move loop of ChessAI._minimax_root
(chess_ai.py 96-105).  The value the inner alpha-beta search returns
for a candidate move is abstracted as `val move alpha` (the root
passes `-beta, -alpha` downward; beta stays infinite at the root).
Which move wins depends on `val`; membership in the legal list does
not. -/
def minimaxStep {M : Type} (val : M → Option Int → Int)
    (acc : M × Option Int × Option Int) (m : M) : M × Option Int × Option Int :=
  (if minimaxBetter val acc m then m else acc.1,
   if minimaxBetter val acc m then some (val m acc.2.2) else acc.2.1,
   match acc.2.2 with
   | none => some (val m acc.2.2)
   | some al => some (max al (val m acc.2.2)))

def minimaxRoot {B M : Type} (A : AiBoard B M) (b : B)
    (val : M → Option Int → Int) : Option M :=
  match A.legalMoves b with
  | [] => none
  | m0 :: _ =>
    some ((A.legalMoves b).foldl (minimaxStep val) (m0, none, none)).1

/-- ChessAI.__init__ (chess_ai.py 11-29): lowercase the difficulty and
map it to a depth, defaulting to medium. -/
structure ChessAI where
  difficulty : String
  depth : Nat
deriving DecidableEq, Repr

def chessAIMk (difficulty : String) : ChessAI :=
  let d := difficulty.toLower
  if d = "easy" then { difficulty := d, depth := 1 }
  else if d = "medium" then { difficulty := d, depth := 2 }
  else if d = "hard" then { difficulty := d, depth := 3 }
  else { difficulty := "medium", depth := 2 }

/-- ChessAI.get_move (chess_ai.py 31-49): random for easy, minimax
otherwise. -/
def ChessAI.getMove {B M : Type} (ai : ChessAI) (A : AiBoard B M) (b : B)
    (flipCap flipChk : Bool) (iCap iChk iAll : Nat)
    (val : M → Option Int → Int) : Option M :=
  if ai.difficulty = "easy" then getRandomMove A b flipCap flipChk iCap iChk iAll
  else minimaxRoot A b val

/-! ## Part 7: invariants, trace guards and concrete traces -/

/-- Connections referencing a session id from the activeGames dict. -/
def gamesRefs {B : Type} (s : Srv B) (sid : Nat) : List Conn :=
  (s.games.filter fun p => p.2 == sid).map Prod.fst

/-- Registry facts about session references that hold at every
reachable state (used for claims about the session side of the
registry): dict keys are pairwise distinct, ids are below the fresh
counter, every activeGames reference points at a stored session that
seats the referencing connection, and a waiting session has no Black
seat and is referenced at most by its creator. -/
structure RefInv {B : Type} (s : Srv B) : Prop where
  gamesKeysNodup : (s.games.map Prod.fst).Nodup
  sessionsKeysNodup : (s.sessions.map Prod.fst).Nodup
  waitingNodup : s.waiting.Nodup
  idBoundSessions : ∀ sid ∈ s.sessions.map Prod.fst, sid < s.nextId
  idBoundGames : ∀ p ∈ s.games, p.2 < s.nextId
  idBoundWaiting : ∀ gid ∈ s.waiting, gid < s.nextId
  refsSeats : ∀ c sid, dlookup s.games c = some sid →
    ∃ g, dlookup s.sessions sid = some g ∧
      (g.whiteConn = some c ∨ g.blackConn = some c)
  waitingSession : ∀ gid ∈ s.waiting,
    ∃ g, dlookup s.sessions gid = some g ∧ g.blackConn = none ∧
      ∀ c, dlookup s.games c = some gid → g.creatorConn = some c

/-- Connection-exclusivity facts (the claim of §8 line 98 of the
specification): lobby entries have pairwise distinct connections, the
three connection registries are mutually exclusive, and roles separate
players from spectators. -/
structure ExcInv {B : Type} (s : Srv B) : Prop where
  lobbyKeysNodup : (s.lobby.map Prod.fst).Nodup
  lobbyNotGames : ∀ p ∈ s.lobby, dlookup s.games p.1 = none
  lobbyNotSpecs : ∀ p ∈ s.lobby, dlookup s.specMap p.1 = none
  gamesNotSpecs : ∀ c sid, dlookup s.games c = some sid → dlookup s.specMap c = none
  lobbyPlayer : ∀ p ∈ s.lobby, dlookup s.roles p.1 = some Role.player
  gamesPlayer : ∀ c sid, dlookup s.games c = some sid → dlookup s.roles c = some Role.player
  specsSpectator : ∀ c sid, dlookup s.specMap c = some sid →
    dlookup s.roles c = some Role.spectator
  seatsPlayer : ∀ sid g, dlookup s.sessions sid = some g → ∀ c,
    g.whiteConn = some c ∨ g.blackConn = some c → dlookup s.roles c = some Role.player
  specsKeysNodup : (s.specMap.map Prod.fst).Nodup

/-- An operation is safe in a state when the lobby re-adds it performs
target connections that are not already lobby members (and, for quit,
not the quitter, who is re-added first).  Every step of a normal
create/join/play/leave history is safe; the unsafe steps are exactly
the anomalies exhibited in the counterexamples, where a stale seat
reference re-adds a connection that already returned to the lobby. -/
def safeOp {B : Type} (s : Srv B) : Op → Bool
  | .quitOp c _ =>
    (match dlookup s.games c with
     | none => true
     | some sid =>
       match dlookup s.sessions sid with
       | none => true
       | some g =>
         match quitReadd g c with
         | none => true
         | some p => (p.1 != c) && s.lobby.all fun q => q.1 != p.1)
  | .disconnect c _ =>
    (match dlookup s.games c with
     | none => true
     | some sid =>
       match dlookup s.sessions sid with
       | none => true
       | some g =>
         match quitReadd g c with
         | none => true
         | some p => s.lobby.all fun q => q.1 != p.1)
  | .moveOp c _ _ _ =>
    (match dlookup s.games c with
     | none => true
     | some sid =>
       match dlookup s.sessions sid with
       | none => true
       | some g =>
         (match g.whiteConn, g.creatorAddr with
          | some w, some _ => s.lobby.all fun q => q.1 != w
          | _, _ => true) &&
         (match g.blackConn, g.blackAddr with
          | some b, some _ => s.lobby.all fun q => q.1 != b
          | _, _ => true) &&
         (match g.whiteConn, g.blackConn with
          | some w, some b => w != b
          | _, _ => true))
  | _ => true

/-- A trace is safe when every step is safe in the state it runs in. -/
def safeRun {B M : Type} (R : Rules B M) : Srv B → List Op → Bool
  | _, [] => true
  | s, op :: ops => safeOp s op && safeRun R (applyOp R s op) ops

/-- Parse oracle that accepts every span, as `json.loads` does on the
concrete messages of the codec statements. -/
def okTrue : List Char → Bool := fun _ => true

/-- Counterexample messages for the re-chunking claim: an empty object
followed by an object whose string value contains a space. -/
def cexMsgA : List Char := "\x7b\x7d".toList

def cexMsgB : List Char := "\x7b\"m\": \"a b\"\x7d".toList

/-- The same bytes re-chunked so that the second read starts inside
the quoted string, right after its space. -/
def cexChunkA : List Char := "\x7b\x7d\x7b\"m\": \"a ".toList

def cexChunkB : List Char := "b\"\x7d".toList

/-- The span the chunked run actually hands to `json.loads`: the space
inside the quoted string has been eaten by the buffer `strip()`. -/
def cexMangled : List Char := "\x7b\"m\": \"ab\"\x7d".toList

/-- Trace reaching a state where the watchdog has rotated a turn:
two players, a created and joined game, then one watchdog pass 100
time units later. -/
def divergeTrace : List Op :=
  [Op.joinPlayer 0 0, Op.joinPlayer 1 1, Op.createGame 0 0 none 0,
   Op.joinGame 1 1 0 none 0, Op.watchdog 100]

def divergeState : Srv Int := runOps (toyRules 99) initSrv divergeTrace

/-- Trace reaching a state directly after create_game. -/
def waitingActiveTrace : List Op := [Op.joinPlayer 0 0, Op.createGame 0 0 none 0]

def waitingActiveState : Srv Int := runOps (toyRules 99) initSrv waitingActiveTrace

/-- Trace exercising the quit-path lobby re-add anomaly: player 10
creates and quits (leaving the session in waiting_games), player 20
joins the orphaned session and quits, re-adding 10 — already a lobby
member — a second time; 10 then creates another game while one of its
two lobby entries survives the removal. -/
def lobbyGamesTrace : List Op :=
  [Op.joinPlayer 10 10, Op.createGame 10 10 none 0, Op.quitOp 10 10,
   Op.joinPlayer 20 20, Op.joinGame 20 20 0 none 0, Op.quitOp 20 20,
   Op.createGame 10 10 none 0]

def lobbyGamesState : Srv Int := runOps (toyRules 99) initSrv lobbyGamesTrace

/-- Trace in which a spectated game ends by a terminal move (the toy
engine declares checkmate at ply 2): the cleanup returns both players
to the lobby but never touches the spectators dict. -/
def spectatorLeakTrace : List Op :=
  [Op.joinPlayer 0 0, Op.joinPlayer 1 1, Op.createGame 0 0 none 0,
   Op.joinSpectator 5 0, Op.joinGame 1 1 0 none 0,
   Op.moveOp 0 0 "e2e4" 0, Op.moveOp 1 1 "e7e5" 0]

def spectatorLeakState : Srv Int := runOps (toyRules 2) initSrv spectatorLeakTrace

/-- A normal create/join/play/quit history: every step is safe because
no quit or cleanup re-adds a connection already in the lobby. -/
def safeTrace : List Op :=
  [Op.joinPlayer 0 10, Op.joinPlayer 1 11, Op.createGame 0 10 none 0,
   Op.joinGame 1 11 0 none 0, Op.quitOp 1 11]

/-- Toy board interface for the ChessAI statements: two legal moves,
the first a capture. -/
def toyAiBoard : AiBoard Unit Nat :=
  { legalMoves := fun _ => [1, 2]
    isCapture := fun _ m => m = 1
    givesCheck := fun _ _ => false }

/-! ### Scanner lemmas -/

theorem scanFrom_lt_length {st : ScanSt} {l : List Char} {k : Nat}
    (h : scanFrom st l = some k) : k < l.length := by
  induction l generalizing st k with
  | nil => simp [scanFrom] at h
  | cons c cs ih =>
    simp only [scanFrom] at h
    by_cases hc : completes st c = true
    · rw [if_pos hc] at h
      injection h with h
      simp only [List.length_cons]
      omega
    · rw [if_neg hc] at h
      simp only [Option.map_eq_some'] at h
      obtain ⟨j, hj, rfl⟩ := h
      have := ih hj
      simp only [List.length_cons]
      omega

theorem scanFrom_append (st : ScanSt) (xs ys : List Char) :
    scanFrom st (xs ++ ys) =
      (match scanFrom st xs with
       | some k => some k
       | none => (scanFrom (scanFolds st xs) ys).map (· + xs.length)) := by
  induction xs generalizing st with
  | nil =>
    simp only [List.nil_append, scanFrom, scanFolds, List.foldl_nil, List.length_nil]
    cases scanFrom st ys <;> simp
  | cons c cs ih =>
    by_cases hc : completes st c = true
    · simp [scanFrom, hc]
    · simp only [List.cons_append, scanFrom, if_neg hc, List.append_eq]
      rw [ih]
      cases hcs : scanFrom (scanStep st c) cs with
      | some k => simp
      | none =>
        simp only [Option.map_none, scanFolds, List.foldl_cons, Option.map_map,
          List.length_cons]
        cases hys : scanFrom (List.foldl scanStep (scanStep st c) cs) ys with
        | none => simp
        | some j =>
          simp only [Option.map_some', Function.comp_apply]
          congr 1

theorem scanFrom_framed_append {m : List Char} (hm : Framed m) (rest : List Char) :
    scanFrom scanStart (m ++ rest) = some (m.length - 1) := by
  rw [scanFrom_append, hm.2]

theorem scanFrom_prefix_none {p m : List Char} (hm : Framed m)
    (hp : p <+: m) (hlt : p.length < m.length) :
    scanFrom scanStart p = none := by
  obtain ⟨s, rfl⟩ := hp
  cases hsc : scanFrom scanStart p with
  | none => rfl
  | some k =>
    exfalso
    have hk := scanFrom_lt_length hsc
    have h2 := hm.2
    rw [scanFrom_append] at h2
    simp only [hsc, Option.some.injEq] at h2
    simp only [List.length_append] at hlt h2
    omega

/-! ### Strip lemmas -/

theorem dropWhile_eq_self_of_none {p : Char → Bool} {l : List Char}
    (h : ∀ c ∈ l, p c = false) : l.dropWhile p = l := by
  cases l with
  | nil => rfl
  | cons c cs =>
    have := h c (by simp)
    simp [List.dropWhile, this]

theorem pstrip_eq_self {l : List Char} (h : noWS l = true) : pstrip l = l := by
  unfold pstrip
  have h1 : ∀ c ∈ l, isPySpace c = false := by
    intro c hc
    have := List.all_eq_true.mp h c hc
    simpa using this
  rw [dropWhile_eq_self_of_none h1,
      dropWhile_eq_self_of_none (by intro c hc; exact h1 c (List.mem_reverse.mp hc)),
      List.reverse_reverse]

theorem pstrip_length_le (l : List Char) : (pstrip l).length ≤ l.length := by
  unfold pstrip
  calc ((l.dropWhile isPySpace).reverse.dropWhile isPySpace).reverse.length
      = ((l.dropWhile isPySpace).reverse.dropWhile isPySpace).length := by
        rw [List.length_reverse]
    _ ≤ (l.dropWhile isPySpace).reverse.length :=
        (List.dropWhile_sublist _).length_le
    _ = (l.dropWhile isPySpace).length := by rw [List.length_reverse]
    _ ≤ l.length := (List.dropWhile_sublist _).length_le

theorem noWS_append {a b : List Char} (ha : noWS a = true) (hb : noWS b = true) :
    noWS (a ++ b) = true := by
  simp only [noWS, List.all_append, Bool.and_eq_true] at *
  exact ⟨ha, hb⟩

theorem noWS_of_append_left {a b : List Char} (h : noWS (a ++ b) = true) : noWS a = true := by
  simp only [noWS, List.all_append, Bool.and_eq_true] at h
  exact h.1

theorem noWS_of_append_right {a b : List Char} (h : noWS (a ++ b) = true) : noWS b = true := by
  simp only [noWS, List.all_append, Bool.and_eq_true] at h
  exact h.2

theorem noWS_of_prefix {p m : List Char} (hm : noWS m = true) (hp : p <+: m) :
    noWS p = true := by
  obtain ⟨s, rfl⟩ := hp
  exact noWS_of_append_left hm

theorem noWS_flatten {ms : List (List Char)} (h : ∀ m ∈ ms, noWS m = true) :
    noWS ms.flatten = true := by
  induction ms with
  | nil => rfl
  | cons m tl ih =>
    simp only [List.flatten_cons]
    exact noWS_append (h m (by simp)) (ih fun x hx => h x (by simp [hx]))

/-! ### Unfolding lemmas for the fueled processor -/

theorem procBufF_fuel_irrel (ok : List Char → Bool) :
    ∀ (f g : Nat) (buf : List Char), buf.length ≤ f → buf.length ≤ g →
      procBufF ok f buf = procBufF ok g buf := by
  intro f
  induction f with
  | zero =>
    intro g buf hf _
    have : buf = [] := List.length_eq_zero.mp (Nat.le_zero.mp hf)
    subst this
    cases g <;> simp [procBufF, scanFrom]
  | succ f ih =>
    intro g buf hf hg
    cases g with
    | zero =>
      have : buf = [] := List.length_eq_zero.mp (Nat.le_zero.mp hg)
      subst this
      simp [procBufF, scanFrom]
    | succ g =>
      simp only [procBufF]
      cases hsc : scanFrom scanStart buf with
      | none => rfl
      | some i =>
        have hi := scanFrom_lt_length hsc
        have hrest : (pstrip (buf.drop (i + 1))).length ≤ f ∧
            (pstrip (buf.drop (i + 1))).length ≤ g := by
          have h1 := pstrip_length_le (buf.drop (i + 1))
          have h2 : (buf.drop (i + 1)).length = buf.length - (i + 1) := by
            simp [List.length_drop]
          omega
        simp only []
        rw [ih g (pstrip (buf.drop (i + 1))) hrest.1 hrest.2]

theorem procBuf_none {ok : List Char → Bool} {buf : List Char}
    (hsc : scanFrom scanStart buf = none) : procBuf ok buf = ([], buf) := by
  unfold procBuf
  cases hb : buf.length with
  | zero => simp [procBufF]
  | succ n => simp [procBufF, hsc]

theorem procBuf_some {ok : List Char → Bool} {buf : List Char} {i : Nat}
    (hsc : scanFrom scanStart buf = some i) :
    procBuf ok buf =
      (let msg := buf.take (i + 1)
       let rest := pstrip (buf.drop (i + 1))
       if ok msg then
         let r := procBuf ok rest
         (msg :: r.1, r.2)
       else if rest.length > 1000 then ([], [])
       else ([], rest)) := by
  have hi := scanFrom_lt_length hsc
  have hlen : buf.length = (buf.length - 1) + 1 := by omega
  conv_lhs => rw [procBuf, hlen]
  simp only [procBufF, hsc]
  have hrest : (pstrip (buf.drop (i + 1))).length ≤ buf.length - 1 := by
    have h1 := pstrip_length_le (buf.drop (i + 1))
    have h2 : (buf.drop (i + 1)).length = buf.length - (i + 1) := by
      simp [List.length_drop]
    omega
  rw [procBufF_fuel_irrel ok (buf.length - 1) (pstrip (buf.drop (i + 1))).length
      (pstrip (buf.drop (i + 1))) hrest (le_refl _)]
  rfl

/-! ### The well-formed-stream lemma -/

theorem procBuf_stream (ok : List Char → Bool) (ms : List (List Char)) (p : List Char)
    (hms : ∀ m ∈ ms, Good ok m)
    (hp : scanFrom scanStart p = none) (hpw : noWS p = true) :
    procBuf ok (ms.flatten ++ p) = (ms, p) := by
  induction ms with
  | nil => simpa using procBuf_none hp
  | cons m tl ih =>
    have hm := hms m (by simp)
    have hmlen : 1 ≤ m.length := by
      cases m with
      | nil => exact absurd rfl hm.1.1
      | cons _ _ => simp
    have hassoc : (m :: tl).flatten ++ p = m ++ (tl.flatten ++ p) := by
      simp [List.flatten_cons, List.append_assoc]
    rw [hassoc]
    have hsc : scanFrom scanStart (m ++ (tl.flatten ++ p)) = some (m.length - 1) :=
      scanFrom_framed_append hm.1 _
    rw [procBuf_some hsc]
    have hidx : m.length - 1 + 1 = m.length := by omega
    have htake : (m ++ (tl.flatten ++ p)).take (m.length - 1 + 1) = m := by
      rw [hidx]; exact List.take_left m _
    have hdrop : (m ++ (tl.flatten ++ p)).drop (m.length - 1 + 1) = tl.flatten ++ p := by
      rw [hidx]; exact List.drop_left m _
    have hws : noWS (tl.flatten ++ p) = true :=
      noWS_append (noWS_flatten fun x hx => (hms x (by simp [hx])).2.1) hpw
    simp only [htake, hdrop, pstrip_eq_self hws, hm.2.2, if_true]
    rw [ih fun x hx => hms x (by simp [hx])]

/-! ### Prefix decomposition along message boundaries -/

theorem prefix_flatten_decomp (ms : List (List Char)) (q : List Char)
    (hq : q <+: ms.flatten) :
    ∃ ms₁ ms₂ p, ms = ms₁ ++ ms₂ ∧ q = ms₁.flatten ++ p ∧
      ((ms₂ = [] ∧ p = []) ∨
       ∃ m t, ms₂ = m :: t ∧ p <+: m ∧ p.length < m.length) := by
  induction ms generalizing q with
  | nil =>
    refine ⟨[], [], [], rfl, ?_, Or.inl ⟨rfl, rfl⟩⟩
    simpa using List.prefix_nil.mp (by simpa using hq)
  | cons m tl ih =>
    simp only [List.flatten_cons] at hq
    by_cases hlen : q.length < m.length
    · exact ⟨[], m :: tl, q, rfl, by simp, Or.inr ⟨m, tl, rfl,
        List.prefix_of_prefix_length_le hq (List.prefix_append m tl.flatten)
          (Nat.le_of_lt hlen), hlen⟩⟩
    · have hm : m <+: q :=
        List.prefix_of_prefix_length_le (List.prefix_append m tl.flatten) hq
          (Nat.le_of_not_lt hlen)
      obtain ⟨q2, rfl⟩ := hm
      have hq2 : q2 <+: tl.flatten := by
        obtain ⟨s, hs⟩ := hq
        rw [List.append_assoc] at hs
        exact ⟨s, List.append_cancel_left hs⟩
      obtain ⟨ms₁, ms₂, p, h1, h2, h3⟩ := ih q2 hq2
      exact ⟨m :: ms₁, ms₂, p, by simp [h1], by simp [h2], h3⟩

/-! ### The re-chunking theorem kernel -/

theorem feedChunks_stream (ok : List Char → Bool) :
    ∀ (chunks : List (List Char)) (p : List Char) (ms₂ : List (List Char)),
      (∀ m ∈ ms₂, Good ok m) →
      p ++ chunks.flatten = ms₂.flatten →
      ((p = [] ∧ (ms₂ = [] ∨ ∃ m t, ms₂ = m :: t)) ∨
        ∃ m t, ms₂ = m :: t ∧ p <+: m ∧ p.length < m.length) →
      feedChunks ok p chunks = (ms₂, []) := by
  intro chunks
  induction chunks with
  | nil =>
    intro p ms₂ hgood hpre hp
    simp only [List.flatten_nil, List.append_nil] at hpre
    have hms : ms₂ = [] ∧ p = [] := by
      rcases hp with ⟨rfl, _⟩ | ⟨m, t, rfl, _, hlt⟩
      · constructor
        · cases ms₂ with
          | nil => rfl
          | cons m t =>
            exfalso
            have hm := (hgood m (by simp)).1.1
            have : m.length = 0 := by
              have := congrArg List.length hpre
              simp only [List.length_nil, List.flatten_cons, List.length_append] at this
              omega
            exact hm (List.length_eq_zero.mp this)
        · rfl
      · exfalso
        have := congrArg List.length hpre
        simp only [List.flatten_cons, List.length_append] at this
        omega
    rw [hms.1, hms.2]
    rfl
  | cons ch chs ih =>
    intro p ms₂ hgood hpre hp
    simp only [List.flatten_cons] at hpre
    have hqpre : (p ++ ch) <+: ms₂.flatten := by
      refine ⟨chs.flatten, ?_⟩
      rw [List.append_assoc]
      exact hpre
    obtain ⟨ms₁, ms₂b, pb, hsplit, hq, hpart⟩ := prefix_flatten_decomp ms₂ (p ++ ch) hqpre
    have hgood1 : ∀ m ∈ ms₁, Good ok m := fun m hm => hgood m (by simp [hsplit, hm])
    have hgood2 : ∀ m ∈ ms₂b, Good ok m := fun m hm => hgood m (by simp [hsplit, hm])
    have hpbscan : scanFrom scanStart pb = none := by
      rcases hpart with ⟨_, rfl⟩ | ⟨m, t, hm, hpfx, hlt⟩
      · rfl
      · exact scanFrom_prefix_none (hgood2 m (by simp [hm])).1 hpfx hlt
    have hpbws : noWS pb = true := by
      rcases hpart with ⟨_, rfl⟩ | ⟨m, t, hm, hpfx, _⟩
      · rfl
      · exact noWS_of_prefix (hgood2 m (by simp [hm])).2.1 hpfx
    simp only [feedChunks]
    rw [hq, procBuf_stream ok ms₁ pb hgood1 hpbscan hpbws]
    have hpre2 : pb ++ chs.flatten = ms₂b.flatten := by
      have h1 : (p ++ ch) ++ chs.flatten = ms₂.flatten := by
        rw [List.append_assoc]; exact hpre
      rw [hq, hsplit] at h1
      simp only [List.flatten_append] at h1
      rw [List.append_assoc] at h1
      exact List.append_cancel_left h1
    have hp2 : ((pb = [] ∧ (ms₂b = [] ∨ ∃ m t, ms₂b = m :: t)) ∨
        ∃ m t, ms₂b = m :: t ∧ pb <+: m ∧ pb.length < m.length) := by
      rcases hpart with ⟨h1, rfl⟩ | ⟨m, t, hm, hpfx, hlt⟩
      · left
        refine ⟨rfl, ?_⟩
        cases ms₂b with
        | nil => exact Or.inl rfl
        | cons a b => exact Or.inr ⟨a, b, rfl⟩
      · exact Or.inr ⟨m, t, hm, hpfx, hlt⟩
    rw [ih pb ms₂b hgood2 hpre2 hp2]
    simp [hsplit]

/-- C3 (amended): re-chunking invariance holds for streams of framed
messages that contain no whitespace characters — feeding ANY chunking
of their concatenation through the incremental decoder, starting from
an empty buffer, yields exactly those message spans, in order, with an
empty final buffer; a chunk boundary inside a message retains the
partial bytes and the message is produced once the remainder arrives.
The whitespace restriction is forced by the counterexample: the
post-extraction `strip()` of the remaining buffer can delete
whitespace belonging to the not-yet-complete next message, even inside
its quoted strings, changing what `json.loads` later decodes. -/
theorem rechunk_invariance (ok : List Char → Bool) (ms chunks : List (List Char))
    (hgood : ∀ m ∈ ms, Good ok m)
    (hc : chunks.flatten = ms.flatten) :
    feedChunks ok [] chunks = (ms, []) := by
  apply feedChunks_stream ok chunks [] ms hgood (by simpa using hc)
  left
  refine ⟨rfl, ?_⟩
  cases ms with
  | nil => exact Or.inl rfl
  | cons a b => exact Or.inr ⟨a, b, rfl⟩

/-! ### Association-list (dict) lemmas -/

theorem dlookup_dinsert_self {β : Type} (l : List (Nat × β)) (k : Nat) (v : β) :
    dlookup (dinsert l k v) k = some v := by
  induction l with
  | nil => simp [dinsert, dlookup]
  | cons p t ih =>
    by_cases h : p.1 = k
    · simp [dinsert, dlookup, h]
    · simp [dinsert, dlookup, h, ih]

theorem dlookup_dinsert_ne {β : Type} (l : List (Nat × β)) {k k' : Nat} (v : β)
    (h : k' ≠ k) : dlookup (dinsert l k v) k' = dlookup l k' := by
  have hkk : ¬(k = k') := fun hh => h hh.symm
  induction l with
  | nil => simp [dinsert, dlookup, hkk]
  | cons p t ih =>
    by_cases hp : p.1 = k
    · have hpk : ¬(p.1 = k') := by rw [hp]; exact hkk
      simp only [dinsert, if_pos hp, dlookup, if_neg hkk, if_neg hpk]
    · simp only [dinsert, if_neg hp, dlookup]
      by_cases hp' : p.1 = k'
      · simp [hp']
      · simp [hp', ih]

theorem dlookup_derase_ne {β : Type} (l : List (Nat × β)) {k k' : Nat}
    (h : k' ≠ k) : dlookup (derase l k) k' = dlookup l k' := by
  induction l with
  | nil => simp [derase]
  | cons p t ih =>
    by_cases hp : p.1 = k
    · have hpk : ¬(p.1 = k') := by rw [hp]; exact fun hh => h hh.symm
      simp only [derase, if_pos hp, dlookup, if_neg hpk]
    · simp only [derase, if_neg hp, dlookup]
      by_cases hp' : p.1 = k'
      · simp [hp']
      · simp [hp', ih]

theorem map_fst_derase {β : Type} (l : List (Nat × β)) (k : Nat) :
    (derase l k).map Prod.fst = (l.map Prod.fst).erase k := by
  induction l with
  | nil => simp [derase]
  | cons p t ih =>
    by_cases hp : p.1 = k
    · simp [derase, hp, List.erase_cons_head]
    · simp only [derase, if_neg hp, List.map_cons, ih]
      rw [List.erase_cons_tail (by simpa using hp)]

theorem dlookup_eq_none_iff {β : Type} (l : List (Nat × β)) (k : Nat) :
    dlookup l k = none ↔ k ∉ l.map Prod.fst := by
  induction l with
  | nil => simp [dlookup]
  | cons p t ih =>
    simp only [dlookup, List.map_cons, List.mem_cons]
    by_cases hp : p.1 = k
    · simp [hp]
    · rw [if_neg hp, ih]
      constructor
      · intro hk hor
        rcases hor with h1 | h2
        · exact hp h1.symm
        · exact hk h2
      · intro hk hm
        exact hk (Or.inr hm)

theorem dlookup_isSome_mem {β : Type} {l : List (Nat × β)} {k : Nat} {v : β}
    (h : dlookup l k = some v) : k ∈ l.map Prod.fst := by
  by_contra hk
  rw [← dlookup_eq_none_iff] at hk
  rw [h] at hk
  exact Option.noConfusion hk

theorem dlookup_derase_self {β : Type} {l : List (Nat × β)} (k : Nat)
    (h : (l.map Prod.fst).Nodup) : dlookup (derase l k) k = none := by
  induction l with
  | nil => simp [derase, dlookup]
  | cons p t ih =>
    simp only [List.map_cons, List.nodup_cons] at h
    by_cases hp : p.1 = k
    · simp only [derase, if_pos hp]
      rw [dlookup_eq_none_iff]
      rw [← hp]
      exact h.1
    · simp only [derase, if_neg hp, dlookup, if_neg hp]
      exact ih h.2

theorem keys_dinsert_of_mem {β : Type} {l : List (Nat × β)} {k : Nat} (v : β)
    (h : k ∈ l.map Prod.fst) :
    (dinsert l k v).map Prod.fst = l.map Prod.fst := by
  induction l with
  | nil => simp at h
  | cons p t ih =>
    by_cases hp : p.1 = k
    · simp [dinsert, hp]
    · simp only [List.map_cons] at h
      rcases List.mem_cons.mp h with h1 | h2
      · exact absurd h1.symm hp
      · simp [dinsert, hp, ih h2]

theorem keys_dinsert_of_not_mem {β : Type} {l : List (Nat × β)} {k : Nat} (v : β)
    (h : k ∉ l.map Prod.fst) :
    (dinsert l k v).map Prod.fst = l.map Prod.fst ++ [k] := by
  induction l with
  | nil => simp [dinsert]
  | cons p t ih =>
    simp only [List.map_cons, List.mem_cons] at h
    push_neg at h
    have hp : ¬(p.1 = k) := fun hh => h.1 hh.symm
    simp [dinsert, hp, ih h.2]

theorem nodup_keys_dinsert {β : Type} {l : List (Nat × β)} (k : Nat) (v : β)
    (h : (l.map Prod.fst).Nodup) : ((dinsert l k v).map Prod.fst).Nodup := by
  by_cases hm : k ∈ l.map Prod.fst
  · rw [keys_dinsert_of_mem v hm]
    exact h
  · rw [keys_dinsert_of_not_mem v hm]
    simp [List.nodup_append, h, hm]

theorem nodup_keys_derase {β : Type} {l : List (Nat × β)} (k : Nat)
    (h : (l.map Prod.fst).Nodup) : ((derase l k).map Prod.fst).Nodup := by
  rw [map_fst_derase]
  exact h.erase k

theorem dlookup_derase_of_some {β : Type} {l : List (Nat × β)} {k k' : Nat} {v : β}
    (hn : (l.map Prod.fst).Nodup)
    (h : dlookup (derase l k) k' = some v) : dlookup l k' = some v := by
  by_cases hk : k' = k
  · rw [hk, dlookup_derase_self k hn] at h
    exact Option.noConfusion h
  · rw [dlookup_derase_ne _ hk] at h
    exact h

/-! ### Toy-engine laws and AI helper lemmas -/

theorem toyRules_flips (k : Int) : (toyRules k).Flips := by
  constructor
  · intro b m
    show (if (b + 1) % 2 = 0 then Color.white else Color.black) =
      (if b % 2 = 0 then Color.white else Color.black).other
    by_cases hb : b % 2 = 0
    · have h1 : (b + 1) % 2 = 1 := by omega
      simp [hb, h1, Color.other]
    · have h1 : (b + 1) % 2 = 0 := by omega
      simp [hb, h1, Color.other]
  · rfl

theorem choiceAt_mem {α : Type} (l : List α) (i : Nat) (h : l ≠ []) :
    ∃ x, choiceAt l i = some x ∧ x ∈ l := by
  have hlen : 0 < l.length := List.length_pos.mpr h
  have hi : i % l.length < l.length := Nat.mod_lt _ hlen
  unfold choiceAt
  rw [List.get?_eq_get hi]
  exact ⟨_, rfl, List.get_mem _ _ _⟩

theorem minimaxStep_fst {M : Type} (val : M → Option Int → Int)
    (acc : M × Option Int × Option Int) (m : M) :
    (minimaxStep val acc m).1 = m ∨ (minimaxStep val acc m).1 = acc.1 := by
  unfold minimaxStep
  by_cases hb : minimaxBetter val acc m = true
  · rw [if_pos hb]
    exact Or.inl rfl
  · rw [if_neg hb]
    exact Or.inr rfl

theorem minimax_foldl_mem {M : Type} (val : M → Option Int → Int) (all : List M) :
    ∀ (l : List M) (acc : M × Option Int × Option Int),
      acc.1 ∈ all → (∀ x ∈ l, x ∈ all) → (l.foldl (minimaxStep val) acc).1 ∈ all := by
  intro l
  induction l with
  | nil => intro acc ha _; exact ha
  | cons m t ih =>
    intro acc ha hl
    simp only [List.foldl_cons]
    apply ih
    · rcases minimaxStep_fst val acc m with h1 | h1
      · rw [h1]; exact hl m (by simp)
      · rw [h1]; exact ha
    · intro x hx
      exact hl x (by simp [hx])

theorem minimaxRoot_mem {B M : Type} (A : AiBoard B M) (b : B)
    (val : M → Option Int → Int) (h : A.legalMoves b ≠ []) :
    ∃ m, minimaxRoot A b val = some m ∧ m ∈ A.legalMoves b := by
  unfold minimaxRoot
  cases hl : A.legalMoves b with
  | nil => exact absurd hl h
  | cons m0 rest =>
    refine ⟨_, rfl, ?_⟩
    rw [← hl]
    apply minimax_foldl_mem
    · rw [hl]; simp
    · intro x hx; exact hx

theorem getRandomMove_mem {B M : Type} (A : AiBoard B M) (b : B)
    (flipCap flipChk : Bool) (iCap iChk iAll : Nat) (h : A.legalMoves b ≠ []) :
    ∃ m, getRandomMove A b flipCap flipChk iCap iChk iAll = some m ∧
      m ∈ A.legalMoves b := by
  unfold getRandomMove
  by_cases h1 : (!((A.legalMoves b).filter fun m => A.isCapture b m).isEmpty && flipCap) = true
  · rw [if_pos h1]
    have hne : ((A.legalMoves b).filter fun m => A.isCapture b m) ≠ [] := by
      intro hc
      rw [hc] at h1
      simp at h1
    obtain ⟨x, hx, hm⟩ := choiceAt_mem _ iCap hne
    exact ⟨x, hx, List.mem_of_mem_filter hm⟩
  · rw [if_neg h1]
    by_cases h2 : (!((A.legalMoves b).filter fun m =>
        !A.isCapture b m && A.givesCheck b m).isEmpty && flipChk) = true
    · rw [if_pos h2]
      have hne : ((A.legalMoves b).filter fun m =>
          !A.isCapture b m && A.givesCheck b m) ≠ [] := by
        intro hc
        rw [hc] at h2
        simp at h2
      obtain ⟨x, hx, hm⟩ := choiceAt_mem _ iChk hne
      exact ⟨x, hx, List.mem_of_mem_filter hm⟩
    · rw [if_neg h2]
      exact choiceAt_mem _ iAll h

/-! ### Unfolding lemmas for the move handler -/

theorem handleMove_turn_rejected {B M : Type} (R : Rules B M) (now : Int)
    (s : Session B) (c : Conn) (mv : String)
    (ht : s.turn ≠ (if some c = s.whiteConn then Color.white else Color.black)) :
    handleMove R now s c mv = (s, [(c, Msg.err "Not your turn")], "active", false) := by
  unfold handleMove
  rw [if_pos ht]

theorem handleMove_parse_rejected {B M : Type} (R : Rules B M) (now : Int)
    (s : Session B) (c : Conn) (mv : String)
    (ht : s.turn = (if some c = s.whiteConn then Color.white else Color.black))
    (hp : R.parseUci mv = none) :
    handleMove R now s c mv =
      (s, [(c, Msg.err "Invalid move format")], "active", false) := by
  unfold handleMove
  rw [if_neg (not_ne_iff.mpr ht), hp]

theorem handleMove_illegal_rejected {B M : Type} (R : Rules B M) (now : Int)
    (s : Session B) (c : Conn) (mv : String) {m : M}
    (ht : s.turn = (if some c = s.whiteConn then Color.white else Color.black))
    (hp : R.parseUci mv = some m) (hl : R.legal s.board m = false) :
    handleMove R now s c mv = (s, [(c, Msg.err "Illegal move")], "active", false) := by
  unfold handleMove
  rw [if_neg (not_ne_iff.mpr ht), hp]
  show (if R.legal s.board m = true then _ else _) = _
  rw [hl]
  simp

theorem handleMove_accepted {B M : Type} (R : Rules B M) (now : Int)
    (s : Session B) (c : Conn) (mv : String) {m : M}
    (ht : s.turn = (if some c = s.whiteConn then Color.white else Color.black))
    (hp : R.parseUci mv = some m) (hl : R.legal s.board m = true) :
    handleMove R now s c mv =
      (let s1 : Session B := { s with board := R.push s.board m }
       let r := nextTurn R now s1
       (r.1, s1.broadcast (Msg.moveBcast mv (R.fen s1.board)) ++
         (r.2.1.map fun pm => r.1.broadcast pm).flatten, r.2.2, true)) := by
  unfold handleMove
  rw [if_neg (not_ne_iff.mpr ht), hp]
  show (if R.legal s.board m = true then _ else _) = _
  rw [hl]
  simp

theorem nextTurn_state {B M : Type} (R : Rules B M) (now : Int) (s : Session B) :
    (nextTurn R now s).1 = { s with turn := s.turn.other, lastMove := now } := rfl

/-! ### Claim theorems: functional correctness of moves and the AI -/

/-- C2: for every session and sender, a move request is accepted
exactly when the sender holds the color whose turn it is AND the Rules
Engine parses the move text and judges the move legal on the current
board; every rejected move (out of turn, malformed, or illegal) leaves
the session — board, turn color and last-move timestamp — entirely
unchanged and sends exactly one error message, to the sender only. -/
theorem c2_move_accept_iff {B M : Type} (R : Rules B M) (now : Int) (s : Session B)
    (c : Conn) (mv : String) :
    ((handleMove R now s c mv).2.2.2 = true ↔
      (s.turn = (if some c = s.whiteConn then Color.white else Color.black) ∧
        ∃ m, R.parseUci mv = some m ∧ R.legal s.board m = true)) ∧
    ((handleMove R now s c mv).2.2.2 = false →
      (handleMove R now s c mv).1 = s ∧
        ∃ e, (handleMove R now s c mv).2.1 = [(c, Msg.err e)]) := by
  by_cases ht : s.turn = (if some c = s.whiteConn then Color.white else Color.black)
  · cases hp : R.parseUci mv with
    | none =>
      rw [handleMove_parse_rejected R now s c mv ht hp]
      refine ⟨⟨fun hf => by simp at hf, ?_⟩, fun _ => ⟨rfl, "Invalid move format", rfl⟩⟩
      rintro ⟨-, m, hm, -⟩
      exact Option.noConfusion hm
    | some m =>
      cases hl : R.legal s.board m with
      | false =>
        rw [handleMove_illegal_rejected R now s c mv ht hp hl]
        refine ⟨⟨fun hf => by simp at hf, ?_⟩, fun _ => ⟨rfl, "Illegal move", rfl⟩⟩
        rintro ⟨-, m2, hm2, hl2⟩
        rw [Option.some.injEq] at hm2
        subst hm2
        rw [hl] at hl2
        exact Bool.noConfusion hl2
      | true =>
        rw [handleMove_accepted R now s c mv ht hp hl]
        exact ⟨⟨fun _ => ⟨ht, m, rfl, hl⟩, fun _ => rfl⟩, fun hf => by simp at hf⟩
  · rw [handleMove_turn_rejected R now s c mv ht]
    exact ⟨⟨fun hf => by simp at hf, fun hc => absurd hc.1 ht⟩,
      fun _ => ⟨rfl, "Not your turn", rfl⟩⟩

/-- C10: for every position with at least one legal move and every
difficulty string, the move returned by ChessAI.get_move is a legal
move of that position (the easy path picks among capture, check and
other legal moves; the minimax path only ever replaces its running
best move by a member of the legal-move list). -/
theorem c10_ai_move_legal {B M : Type} (difficulty : String) (A : AiBoard B M) (b : B)
    (flipCap flipChk : Bool) (iCap iChk iAll : Nat) (val : M → Option Int → Int)
    (h : A.legalMoves b ≠ []) :
    ∃ m, (chessAIMk difficulty).getMove A b flipCap flipChk iCap iChk iAll val =
        some m ∧ m ∈ A.legalMoves b := by
  unfold ChessAI.getMove
  by_cases hd : (chessAIMk difficulty).difficulty = "easy"
  · rw [if_pos hd]
    exact getRandomMove_mem A b flipCap flipChk iCap iChk iAll h
  · rw [if_neg hd]
    exact minimaxRoot_mem A b val h

/-- Witness for c10_ai_move_legal at a concrete two-move position and
the hard difficulty. -/
theorem c10_ai_move_legal_witness :
    toyAiBoard.legalMoves () ≠ [] ∧
      ∃ m, (chessAIMk "hard").getMove toyAiBoard () true true 0 0 0
          (fun _ _ => 0) = some m ∧ m ∈ toyAiBoard.legalMoves () :=
  ⟨by decide, c10_ai_move_legal "hard" toyAiBoard () true true 0 0 0
    (fun _ _ => 0) (by decide)⟩

/-! ### Watchdog and join lemmas -/

theorem exists_cons_rest {α : Type} (pre bc lob : List α) (x y : α) :
    ∃ rest, (pre ++ ([x] ++ ([y] ++ bc))) ++ lob = pre ++ x :: y :: rest :=
  ⟨bc ++ lob, by simp⟩

theorem scanGame_fires {B M : Type} (R : Rules B M) {now : Int} {s : Session B} {p : Conn}
    (h1 : now - s.lastMove > moveTimeoutSeconds) (h2 : s.playersGet s.turn = some p) :
    scanGame R now s =
      ({ s with lastMove := now, turn := s.turn.other },
       [Msg.timeoutNotice s.turn, Msg.timeoutSync s.turn (R.fen s.board) s.turn.other,
        Msg.boardMsg (R.fen s.board),
        Msg.turnFull s.turn.other "active" moveTimeoutSeconds]) := by
  unfold scanGame
  rw [if_pos h1, h2]

theorem watchdogBody_regs {B M : Type} (R : Rules B M) (now : Int) (acc : Srv B)
    (sid : Nat) :
    (watchdogBody R now acc sid).games = acc.games ∧
    (watchdogBody R now acc sid).waiting = acc.waiting ∧
    (watchdogBody R now acc sid).lobby = acc.lobby ∧
    (watchdogBody R now acc sid).specMap = acc.specMap := by
  unfold watchdogBody
  cases dlookup acc.sessions sid <;> exact ⟨rfl, rfl, rfl, rfl⟩

theorem watchdog_foldl_regs {B M : Type} (R : Rules B M) (now : Int) :
    ∀ (l : List Nat) (acc : Srv B),
      (l.foldl (watchdogBody R now) acc).games = acc.games ∧
      (l.foldl (watchdogBody R now) acc).waiting = acc.waiting ∧
      (l.foldl (watchdogBody R now) acc).lobby = acc.lobby ∧
      (l.foldl (watchdogBody R now) acc).specMap = acc.specMap := by
  intro l
  induction l with
  | nil => intro acc; exact ⟨rfl, rfl, rfl, rfl⟩
  | cons sid t ih =>
    intro acc
    simp only [List.foldl_cons]
    obtain ⟨h1, h2, h3, h4⟩ := ih (watchdogBody R now acc sid)
    obtain ⟨g1, g2, g3, g4⟩ := watchdogBody_regs R now acc sid
    exact ⟨h1.trans g1, h2.trans g2, h3.trans g3, h4.trans g4⟩

/-! ### Claim theorems: watchdog, join, turn synchronisation, decode errors -/

/-- C5: an Active session whose elapsed time exceeds the per-move
limit and whose side to move still has a connection is, in one
watchdog pass: timer reset, turn flipped to the opponent, board and
memberships untouched, and the broadcast sequence is exactly the
timeout notice naming the timed-out side, the timeout_sync message
carrying the full board with the timed-out side and the new side to
move, and then the routine board and turn updates (the board/turn pair
that follows any ordinary move).  Moreover a watchdog pass never
removes any session from any registry — games, waiting, lobby and
spectator maps are left exactly as they were, for every server state
and instant, so arbitrarily many consecutive timeouts leave the match
running. -/
theorem c5_watchdog_timeout {B M : Type} (R : Rules B M) (now : Int) (s : Session B)
    (p : Conn) (h1 : now - s.lastMove > moveTimeoutSeconds)
    (h2 : s.playersGet s.turn = some p) :
    ((scanGame R now s).1.board = s.board ∧
     (scanGame R now s).1.turn = s.turn.other ∧
     (scanGame R now s).1.lastMove = now ∧
     (scanGame R now s).1.whiteConn = s.whiteConn ∧
     (scanGame R now s).1.blackConn = s.blackConn ∧
     (scanGame R now s).1.specs = s.specs ∧
     (scanGame R now s).2 =
       [Msg.timeoutNotice s.turn, Msg.timeoutSync s.turn (R.fen s.board) s.turn.other,
        Msg.boardMsg (R.fen s.board),
        Msg.turnFull s.turn.other "active" moveTimeoutSeconds]) ∧
    (∀ (srv : Srv B) (t : Int),
      (watchdogStep R srv t).games = srv.games ∧
      (watchdogStep R srv t).waiting = srv.waiting ∧
      (watchdogStep R srv t).lobby = srv.lobby ∧
      (watchdogStep R srv t).specMap = srv.specMap) := by
  constructor
  · rw [scanGame_fires R h1 h2]
    exact ⟨rfl, rfl, rfl, rfl, rfl, rfl, rfl⟩
  · intro srv t
    exact watchdog_foldl_regs R t _ srv

/-- Witness for c5_watchdog_timeout on a fresh toy session scanned 100
time units after creation. -/
theorem c5_watchdog_timeout_witness :
    (100 - (mkSession (toyRules 99) 0 0 none 0 0).lastMove > moveTimeoutSeconds) ∧
    ((mkSession (toyRules 99) 0 0 none 0 0).playersGet
        (mkSession (toyRules 99) 0 0 none 0 0).turn = some 0) ∧
    (((scanGame (toyRules 99) 100 (mkSession (toyRules 99) 0 0 none 0 0)).1.board =
        (mkSession (toyRules 99) 0 0 none 0 0).board ∧
      (scanGame (toyRules 99) 100 (mkSession (toyRules 99) 0 0 none 0 0)).1.turn =
        (mkSession (toyRules 99) 0 0 none 0 0).turn.other ∧
      (scanGame (toyRules 99) 100 (mkSession (toyRules 99) 0 0 none 0 0)).1.lastMove = 100 ∧
      (scanGame (toyRules 99) 100 (mkSession (toyRules 99) 0 0 none 0 0)).1.whiteConn =
        (mkSession (toyRules 99) 0 0 none 0 0).whiteConn ∧
      (scanGame (toyRules 99) 100 (mkSession (toyRules 99) 0 0 none 0 0)).1.blackConn =
        (mkSession (toyRules 99) 0 0 none 0 0).blackConn ∧
      (scanGame (toyRules 99) 100 (mkSession (toyRules 99) 0 0 none 0 0)).1.specs =
        (mkSession (toyRules 99) 0 0 none 0 0).specs ∧
      (scanGame (toyRules 99) 100 (mkSession (toyRules 99) 0 0 none 0 0)).2 =
        [Msg.timeoutNotice (mkSession (toyRules 99) 0 0 none 0 0).turn,
         Msg.timeoutSync (mkSession (toyRules 99) 0 0 none 0 0).turn
           ((toyRules 99).fen (mkSession (toyRules 99) 0 0 none 0 0).board)
           (mkSession (toyRules 99) 0 0 none 0 0).turn.other,
         Msg.boardMsg ((toyRules 99).fen (mkSession (toyRules 99) 0 0 none 0 0).board),
         Msg.turnFull (mkSession (toyRules 99) 0 0 none 0 0).turn.other "active"
           moveTimeoutSeconds]) ∧
     (∀ (srv : Srv Int) (t : Int),
       (watchdogStep (toyRules 99) srv t).games = srv.games ∧
       (watchdogStep (toyRules 99) srv t).waiting = srv.waiting ∧
       (watchdogStep (toyRules 99) srv t).lobby = srv.lobby ∧
       (watchdogStep (toyRules 99) srv t).specMap = srv.specMap)) :=
  ⟨by decide, by decide,
    c5_watchdog_timeout (toyRules 99) 100 (mkSession (toyRules 99) 0 0 none 0 0) 0
      (by decide) (by decide)⟩

/-- C6: joining a waiting session bounces off a wrong password with a
distinct error and zero mutation — the session stays in waiting_games,
the joiner stays in the lobby and is not seated — while a matching
password (or a public game) removes the session from waiting_games,
seats the joiner as Black, registers it in activeGames, resets the
move clock, and notifies both players of their colors, in that
order. -/
theorem c6_join_password {B M : Type} (R : Rules B M) (s : Srv B) (c : Conn) (a : Addr)
    (gid : Nat) (pw : Option String) (now : Int) (g : Session B) (w : Conn)
    (hrole : dlookup s.roles c = some Role.player)
    (hlobby : (c, a) ∈ s.lobby)
    (hclosed : c ∉ s.closed)
    (hwait : gid ∈ s.waiting)
    (hsess : dlookup s.sessions gid = some g)
    (hwhite : g.whiteConn = some w) :
    (g.isPrivate = true → pw.getD "" ≠ g.password.getD "" →
      joinStep R s c a gid pw now =
        sendTo s c (Msg.err "Incorrect password for private game.") ∧
      (joinStep R s c a gid pw now).games = s.games ∧
      (joinStep R s c a gid pw now).waiting = s.waiting ∧
      (joinStep R s c a gid pw now).lobby = s.lobby ∧
      (joinStep R s c a gid pw now).sessions = s.sessions) ∧
    (¬(g.isPrivate = true ∧ pw.getD "" ≠ g.password.getD "") →
      dlookup (joinStep R s c a gid pw now).sessions gid =
        some { g with
                blackConn := some c
                playersB := some c
                blackAddr := some a
                lastMove := now } ∧
      dlookup (joinStep R s c a gid pw now).games c = some gid ∧
      (joinStep R s c a gid pw now).waiting = s.waiting.erase gid ∧
      (joinStep R s c a gid pw now).lobby = s.lobby.erase (c, a) ∧
      ∃ rest, (joinStep R s c a gid pw now).out =
        s.out ++ (w, Msg.startedAs Color.white g.gameId) ::
          (c, Msg.startedAs Color.black g.gameId) :: rest) := by
  have hguard : dlookup s.roles c = some Role.player ∧ (c, a) ∈ s.lobby ∧ c ∉ s.closed :=
    ⟨hrole, hlobby, hclosed⟩
  constructor
  · intro hpriv hmm
    unfold joinStep
    rw [if_pos hguard, if_pos hwait]
    simp only [hsess]
    rw [if_pos ⟨hpriv, hmm⟩]
    exact ⟨rfl, rfl, rfl, rfl, rfl⟩
  · intro hno
    unfold joinStep
    rw [if_pos hguard, if_pos hwait]
    simp only [hsess]
    rw [if_neg hno]
    refine ⟨dlookup_dinsert_self _ _ _, dlookup_dinsert_self _ _ _, rfl, rfl, ?_⟩
    unfold joinCore
    rw [hwhite]
    exact exists_cons_rest _ _ _ _ _

/-- Witness for c6_join_password: player 1 joins the freshly created
waiting game of waitingActiveState; the stored session afterwards has
Black seated and the clock reset. -/
theorem c6_join_password_witness :
    (dlookup (joinStep (toyRules 99) (joinPlayerStep waitingActiveState 1 1) 1 1 0
        none 5).sessions 0).map (fun g2 => (g2.blackConn, g2.lastMove)) =
      some (some 1, 5) := by
  have h := c6_join_password (toyRules 99) (joinPlayerStep waitingActiveState 1 1)
    1 1 0 none 5 (mkSession (toyRules 99) 0 0 none 0 0) 0
    (by decide) (by decide) (by decide) (by decide) (by decide) (by decide)
  have h2 := h.2 (by decide)
  rw [h2.1]
  rfl

/-- C1 (amended): the stored turn color and the Rules Engine side to
move agree on a fresh session and stay equal across every ACCEPTED
move — but a watchdog-forced rotation breaks the invariant: it leaves
the board (hence the engine side to move) untouched while flipping the
stored turn, which afterwards is the OPPONENT of the engine side to
move. -/
theorem c1_turn_sync_amended {B M : Type} (R : Rules B M) (hR : R.Flips)
    (now : Int) (s : Session B) (c : Conn) (mv : String) (p : Conn)
    (hsync : s.turn = R.sideToMove s.board) :
    (∀ (c2 : Conn) (a : Addr) (pw : Option String) (gid : Nat) (t : Int),
      (mkSession R c2 a pw gid t).turn = R.sideToMove (mkSession R c2 a pw gid t).board) ∧
    ((handleMove R now s c mv).2.2.2 = true →
      (handleMove R now s c mv).1.turn =
        R.sideToMove (handleMove R now s c mv).1.board) ∧
    (now - s.lastMove > moveTimeoutSeconds → s.playersGet s.turn = some p →
      (scanGame R now s).1.board = s.board ∧
      (scanGame R now s).1.turn = (R.sideToMove (scanGame R now s).1.board).other) := by
  refine ⟨?_, ?_, ?_⟩
  · intro c2 a pw gid t
    show Color.white = R.sideToMove R.init
    exact hR.2.symm
  · intro hacc
    by_cases ht : s.turn = (if some c = s.whiteConn then Color.white else Color.black)
    · cases hp : R.parseUci mv with
      | none =>
        rw [handleMove_parse_rejected R now s c mv ht hp] at hacc
        simp at hacc
      | some m =>
        cases hl : R.legal s.board m with
        | false =>
          rw [handleMove_illegal_rejected R now s c mv ht hp hl] at hacc
          simp at hacc
        | true =>
          rw [handleMove_accepted R now s c mv ht hp hl]
          show s.turn.other = R.sideToMove (R.push s.board m)
          rw [hR.1 s.board m, ← hsync]
    · rw [handleMove_turn_rejected R now s c mv ht] at hacc
      simp at hacc
  · intro h1 h2
    rw [scanGame_fires R h1 h2]
    refine ⟨rfl, ?_⟩
    show s.turn.other = (R.sideToMove s.board).other
    rw [hsync]

/-- Witness for c1_turn_sync_amended on a fresh toy session, an
accepted move, and a timed-out scan. -/
theorem c1_turn_sync_amended_witness :
    (toyRules 99).Flips ∧
    ((mkSession (toyRules 99) 0 0 none 0 0).turn =
      (toyRules 99).sideToMove (mkSession (toyRules 99) 0 0 none 0 0).board) ∧
    (((handleMove (toyRules 99) 100 (mkSession (toyRules 99) 0 0 none 0 0) 0
        "e2e4").2.2.2 = true →
      (handleMove (toyRules 99) 100 (mkSession (toyRules 99) 0 0 none 0 0) 0
          "e2e4").1.turn =
        (toyRules 99).sideToMove
          (handleMove (toyRules 99) 100 (mkSession (toyRules 99) 0 0 none 0 0) 0
            "e2e4").1.board) ∧
    (100 - (mkSession (toyRules 99) 0 0 none 0 0).lastMove > moveTimeoutSeconds →
      (mkSession (toyRules 99) 0 0 none 0 0).playersGet
          (mkSession (toyRules 99) 0 0 none 0 0).turn = some 0 →
      (scanGame (toyRules 99) 100 (mkSession (toyRules 99) 0 0 none 0 0)).1.board =
        (mkSession (toyRules 99) 0 0 none 0 0).board ∧
      (scanGame (toyRules 99) 100 (mkSession (toyRules 99) 0 0 none 0 0)).1.turn =
        ((toyRules 99).sideToMove
          (scanGame (toyRules 99) 100
            (mkSession (toyRules 99) 0 0 none 0 0)).1.board).other)) :=
  ⟨toyRules_flips 99, by decide,
    ((c1_turn_sync_amended (toyRules 99) (toyRules_flips 99) 100
      (mkSession (toyRules 99) 0 0 none 0 0) 0 "e2e4" 0 (by decide)).2 : _)⟩

/-- C4 (amended): the client recovers from an undecodable span — the
offending span has already been removed from the buffer before the
parse runs (the buffer advance of line 618 precedes json.loads of line
619), the remainder is retained (reset only past the 1000-character
ceiling), and well-formed messages arriving afterwards are processed;
the server, by contrast, parses each read with no per-message guard,
so an undecodable read terminates the handler loop exceptionally, the
connection closes, and later reads are never processed. -/
theorem c4_decode_error_paths {J : Type} (ok : List Char → Bool)
    (bad m1 m2 : List Char)
    (hbad : Framed bad) (hbo : ok bad = false)
    (hm1 : Good ok m1) (hm2 : Good ok m2) (hlen : m1.length ≤ 1000)
    (parse : String → Option J) (d : String) (ds : List String)
    (hd : d ≠ "") (hp : parse d = none) :
    feedChunks ok [] [bad ++ m1, m2] = ([m1, m2], []) ∧
    serverConsume parse (d :: ds) = ([], true) := by
  constructor
  · have hblen : 1 ≤ bad.length := by
      cases hb : bad with
      | nil => exact absurd hb hbad.1
      | cons x xs => simp [hb]
    have hidx : bad.length - 1 + 1 = bad.length := by omega
    have hsc : scanFrom scanStart (bad ++ m1) = some (bad.length - 1) :=
      scanFrom_framed_append hbad m1
    have hproc1 : procBuf ok (bad ++ m1) = ([], m1) := by
      rw [procBuf_some hsc]
      simp only [hidx, List.take_left, List.drop_left, pstrip_eq_self hm1.2.1, hbo]
      rw [if_neg (by simp)]
      rw [if_neg (by omega)]
    have hproc2 : procBuf ok (m1 ++ m2) = ([m1, m2], []) := by
      have := procBuf_stream ok [m1, m2] [] (by
        intro x hx
        rcases List.mem_cons.mp hx with h1 | h2
        · exact h1 ▸ hm1
        · rcases List.mem_cons.mp h2 with h3 | h4
          · exact h3 ▸ hm2
          · simp at h4) rfl rfl
      simpa using this
    show (let r := procBuf ok ([] ++ (bad ++ m1))
          let r2 := feedChunks ok r.2 [m2]
          (r.1 ++ r2.1, r2.2)) = ([m1, m2], [])
    rw [List.nil_append, hproc1]
    show (let r2 := (let r := procBuf ok (m1 ++ m2)
                     let r3 := feedChunks ok r.2 []
                     (r.1 ++ r3.1, r3.2))
          (([] : List (List Char)) ++ r2.1, r2.2)) = ([m1, m2], [])
    rw [hproc2]
    rfl
  · unfold serverConsume
    rw [if_neg hd, hp]

/-- Witness for c4_decode_error_paths: a framed but unparseable span
directly followed by an empty object, then another empty object in a
second read; and the toy server decoder fed the word oops. -/
theorem c4_decode_error_paths_witness :
    (Framed ("\x7bx\x7d".toList) ∧
      (fun l => decide (l ≠ "\x7bx\x7d".toList)) "\x7bx\x7d".toList = false ∧
      Good (fun l => decide (l ≠ "\x7bx\x7d".toList)) ("\x7b\x7d".toList) ∧
      ("\x7b\x7d".toList).length ≤ 1000 ∧ "oops" ≠ "" ∧ jsonToy "oops" = none) ∧
    (feedChunks (fun l => decide (l ≠ "\x7bx\x7d".toList)) []
        ["\x7bx\x7d".toList ++ "\x7b\x7d".toList, "\x7b\x7d".toList] =
      (["\x7b\x7d".toList, "\x7b\x7d".toList], []) ∧
     serverConsume jsonToy ["oops"] = ([], true)) :=
  ⟨⟨by decide, by decide, by decide, by decide, by decide, by decide⟩,
    c4_decode_error_paths (fun l => decide (l ≠ "\x7bx\x7d".toList))
      ("\x7bx\x7d".toList) ("\x7b\x7d".toList) ("\x7b\x7d".toList)
      (by decide) (by decide) (by decide) (by decide) (by decide)
      jsonToy "oops" [] (by decide) (by decide)⟩

/-- Witness for rechunk_invariance: two whitespace-free messages fed
in three chunks, the middle one straddling the message boundary. -/
theorem rechunk_invariance_witness :
    ((∀ m ∈ ["\x7b\"a\":1\x7d".toList, "\x7b\x7d".toList], Good okTrue m) ∧
      (["\x7b\"a\"".toList, ":1\x7d\x7b".toList, "\x7d".toList] :
          List (List Char)).flatten =
        (["\x7b\"a\":1\x7d".toList, "\x7b\x7d".toList] : List (List Char)).flatten) ∧
    feedChunks okTrue [] ["\x7b\"a\"".toList, ":1\x7d\x7b".toList, "\x7d".toList] =
      (["\x7b\"a\":1\x7d".toList, "\x7b\x7d".toList], []) :=
  ⟨⟨by decide, by decide⟩,
    rechunk_invariance okTrue ["\x7b\"a\":1\x7d".toList, "\x7b\x7d".toList]
      ["\x7b\"a\"".toList, ":1\x7d\x7b".toList, "\x7d".toList]
      (by decide) (by decide)⟩

/-- Witness for c2_move_accept_iff at a fresh toy session (an accepted
first move by White). -/
theorem c2_move_accept_iff_witness :
    ((handleMove (toyRules 99) 5 (mkSession (toyRules 99) 0 0 none 0 0) 0
        "e2e4").2.2.2 = true ↔
      ((mkSession (toyRules 99) 0 0 none 0 0).turn =
        (if some 0 = (mkSession (toyRules 99) 0 0 none 0 0).whiteConn then Color.white
         else Color.black) ∧
        ∃ m, (toyRules 99).parseUci "e2e4" = some m ∧
          (toyRules 99).legal (mkSession (toyRules 99) 0 0 none 0 0).board m = true)) ∧
    ((handleMove (toyRules 99) 5 (mkSession (toyRules 99) 0 0 none 0 0) 0
        "e2e4").2.2.2 = false →
      (handleMove (toyRules 99) 5 (mkSession (toyRules 99) 0 0 none 0 0) 0
          "e2e4").1 = mkSession (toyRules 99) 0 0 none 0 0 ∧
        ∃ e, (handleMove (toyRules 99) 5 (mkSession (toyRules 99) 0 0 none 0 0) 0
          "e2e4").2.1 = [(0, Msg.err e)]) :=
  c2_move_accept_iff (toyRules 99) 5 (mkSession (toyRules 99) 0 0 none 0 0) 0 "e2e4"

/-! ### More association-list lemmas -/

theorem mem_dinsert {β : Type} {l : List (Nat × β)} {k : Nat} {v : β} {p : Nat × β}
    (h : p ∈ dinsert l k v) : p ∈ l ∨ p = (k, v) := by
  induction l with
  | nil => simpa [dinsert] using h
  | cons q t ih =>
    by_cases hq : q.1 = k
    · simp only [dinsert, if_pos hq, List.mem_cons] at h
      rcases h with h1 | h2
      · exact Or.inr h1
      · exact Or.inl (by simp [h2])
    · simp only [dinsert, if_neg hq, List.mem_cons] at h
      rcases h with h1 | h2
      · exact Or.inl (by simp [h1])
      · rcases ih h2 with h3 | h3
        · exact Or.inl (by simp [h3])
        · exact Or.inr h3

theorem mem_of_mem_derase {β : Type} {l : List (Nat × β)} {k : Nat} {p : Nat × β}
    (h : p ∈ derase l k) : p ∈ l := by
  induction l with
  | nil => exact h
  | cons q t ih =>
    by_cases hq : q.1 = k
    · simp only [derase, if_pos hq] at h
      exact List.mem_cons_of_mem q h
    · simp only [derase, if_neg hq, List.mem_cons] at h
      rcases h with h1 | h2
      · exact by simp [h1]
      · exact List.mem_cons_of_mem q (ih h2)

/-! ### Field-preservation lemmas for session mutations -/

theorem handleMove_fields {B M : Type} (R : Rules B M) (now : Int) (s : Session B)
    (c : Conn) (mv : String) :
    (handleMove R now s c mv).1.whiteConn = s.whiteConn ∧
    (handleMove R now s c mv).1.blackConn = s.blackConn ∧
    (handleMove R now s c mv).1.creatorConn = s.creatorConn := by
  by_cases ht : s.turn = (if some c = s.whiteConn then Color.white else Color.black)
  · cases hp : R.parseUci mv with
    | none =>
      rw [handleMove_parse_rejected R now s c mv ht hp]
      exact ⟨rfl, rfl, rfl⟩
    | some m =>
      cases hl : R.legal s.board m with
      | false =>
        rw [handleMove_illegal_rejected R now s c mv ht hp hl]
        exact ⟨rfl, rfl, rfl⟩
      | true =>
        rw [handleMove_accepted R now s c mv ht hp hl]
        exact ⟨rfl, rfl, rfl⟩
  · rw [handleMove_turn_rejected R now s c mv ht]
    exact ⟨rfl, rfl, rfl⟩

theorem scanGame_fields {B M : Type} (R : Rules B M) (now : Int) (s : Session B) :
    (scanGame R now s).1.whiteConn = s.whiteConn ∧
    (scanGame R now s).1.blackConn = s.blackConn ∧
    (scanGame R now s).1.creatorConn = s.creatorConn := by
  unfold scanGame
  by_cases h1 : now - s.lastMove > moveTimeoutSeconds
  · rw [if_pos h1]
    cases s.playersGet s.turn with
    | none => exact ⟨rfl, rfl, rfl⟩
    | some p => exact ⟨rfl, rfl, rfl⟩
  · rw [if_neg h1]
    exact ⟨rfl, rfl, rfl⟩

/-! ### Lemmas about the seat-deletion helpers -/

theorem eraseSeats_nodup {B : Type} {games : List (Conn × Nat)} (g : Session B)
    (h : (games.map Prod.fst).Nodup) : ((eraseSeats games g).map Prod.fst).Nodup := by
  unfold eraseSeats
  cases g.blackConn with
  | some b =>
    cases g.whiteConn with
    | some w => exact nodup_keys_derase b (nodup_keys_derase w h)
    | none => exact nodup_keys_derase b h
  | none =>
    cases g.whiteConn with
    | some w => exact nodup_keys_derase w h
    | none => exact h

theorem dlookup_eraseSeats_some {B : Type} {games : List (Conn × Nat)} {g : Session B}
    {k : Conn} {v : Nat} (hn : (games.map Prod.fst).Nodup)
    (h : dlookup (eraseSeats games g) k = some v) : dlookup games k = some v := by
  unfold eraseSeats at h
  cases hb : g.blackConn with
  | some b =>
    rw [hb] at h
    cases hw : g.whiteConn with
    | some w =>
      rw [hw] at h
      exact dlookup_derase_of_some hn
        (dlookup_derase_of_some (nodup_keys_derase w hn) h)
    | none =>
      rw [hw] at h
      exact dlookup_derase_of_some hn h
  | none =>
    rw [hb] at h
    cases hw : g.whiteConn with
    | some w =>
      rw [hw] at h
      exact dlookup_derase_of_some hn h
    | none =>
      rw [hw] at h
      exact h

theorem eraseQuit_eq {B : Type} (games : List (Conn × Nat)) (g : Session B)
    (c : Conn) :
    eraseQuit games g c = derase (derase games c) (match g.opponent c with
      | some o => if (dlookup (derase games c) o).isSome then o else c
      | none => c) ∨
    eraseQuit games g c = derase games c := by
  cases ho : g.opponent c with
  | some o =>
    by_cases hi : (dlookup (derase games c) o).isSome = true
    · left
      simp only [eraseQuit, ho, hi, if_true]
    · right
      simp only [eraseQuit, ho]
      rw [if_neg hi]
  | none =>
    right
    simp only [eraseQuit, ho]

theorem eraseQuit_nodup {B : Type} {games : List (Conn × Nat)} (g : Session B)
    (c : Conn) (h : (games.map Prod.fst).Nodup) :
    ((eraseQuit games g c).map Prod.fst).Nodup := by
  rcases eraseQuit_eq games g c with heq | heq <;> rw [heq]
  · exact nodup_keys_derase _ (nodup_keys_derase c h)
  · exact nodup_keys_derase c h

theorem dlookup_eraseQuit_some {B : Type} {games : List (Conn × Nat)} {g : Session B}
    {c k : Conn} {v : Nat} (hn : (games.map Prod.fst).Nodup)
    (h : dlookup (eraseQuit games g c) k = some v) : dlookup games k = some v := by
  rcases eraseQuit_eq games g c with heq | heq <;> rw [heq] at h
  · exact dlookup_derase_of_some hn
      (dlookup_derase_of_some (nodup_keys_derase c hn) h)
  · exact dlookup_derase_of_some hn h

theorem mem_eraseSeats {B : Type} {games : List (Conn × Nat)} {g : Session B}
    {p : Conn × Nat} (h : p ∈ eraseSeats games g) : p ∈ games := by
  unfold eraseSeats at h
  cases hb : g.blackConn with
  | some b =>
    rw [hb] at h
    cases hw : g.whiteConn with
    | some w =>
      rw [hw] at h
      exact mem_of_mem_derase (mem_of_mem_derase h)
    | none =>
      rw [hw] at h
      exact mem_of_mem_derase h
  | none =>
    rw [hb] at h
    cases hw : g.whiteConn with
    | some w =>
      rw [hw] at h
      exact mem_of_mem_derase h
    | none =>
      rw [hw] at h
      exact h

theorem mem_eraseQuit {B : Type} {games : List (Conn × Nat)} {g : Session B}
    {c : Conn} {p : Conn × Nat} (h : p ∈ eraseQuit games g c) : p ∈ games := by
  rcases eraseQuit_eq games g c with heq | heq <;> rw [heq] at h
  · exact mem_of_mem_derase (mem_of_mem_derase h)
  · exact mem_of_mem_derase h

/-! ### Transport lemmas for the reference invariant -/

theorem refInv_initSrv {B : Type} : RefInv (initSrv (B := B)) := by
  refine ⟨?_, ?_, ?_, ?_, ?_, ?_, ?_, ?_⟩ <;> simp [initSrv, dlookup]

/-- Transport of RefInv to a state whose games entries form a nodup
subset of the old ones (lookup-wise and member-wise) and whose
sessions, waiting and id counter are old ones up to shrinking. -/
theorem refInv_shrink {B : Type} {s t : Srv B} (h : RefInv s)
    (ht1 : ∀ k v, dlookup t.games k = some v → dlookup s.games k = some v)
    (ht1n : (t.games.map Prod.fst).Nodup)
    (ht1m : ∀ p ∈ t.games, p ∈ s.games)
    (ht2 : t.sessions = s.sessions)
    (ht3m : ∀ gid ∈ t.waiting, gid ∈ s.waiting)
    (ht3n : t.waiting.Nodup)
    (ht4 : t.nextId = s.nextId) : RefInv t := by
  refine ⟨ht1n, ?_, ht3n, ?_, ?_, ?_, ?_, ?_⟩
  · rw [ht2]
    exact h.sessionsKeysNodup
  · rw [ht2, ht4]
    exact h.idBoundSessions
  · intro p hp
    rw [ht4]
    exact h.idBoundGames p (ht1m p hp)
  · intro gid hg
    rw [ht4]
    exact h.idBoundWaiting gid (ht3m gid hg)
  · intro c sid hl
    obtain ⟨g, hg, hseat⟩ := h.refsSeats c sid (ht1 c sid hl)
    exact ⟨g, by rw [ht2]; exact hg, hseat⟩
  · intro gid hg
    obtain ⟨g, hgl, hbk, hcr⟩ := h.waitingSession gid (ht3m gid hg)
    exact ⟨g, by rw [ht2]; exact hgl, hbk, fun c hc => hcr c (ht1 c gid hc)⟩

/-- Transport of RefInv across an update of one stored session that
preserves the seat and creator fields, with games, waiting and the id
counter unchanged. -/
theorem refInv_sessions_update {B : Type} {s t : Srv B} (h : RefInv s) (sid : Nat)
    {g g2 : Session B} (hg : dlookup s.sessions sid = some g)
    (hw : g2.whiteConn = g.whiteConn) (hb : g2.blackConn = g.blackConn)
    (hc : g2.creatorConn = g.creatorConn)
    (ht1 : t.games = s.games) (ht2 : t.sessions = dinsert s.sessions sid g2)
    (ht3 : t.waiting = s.waiting) (ht4 : t.nextId = s.nextId) : RefInv t := by
  have hmem : sid ∈ s.sessions.map Prod.fst := dlookup_isSome_mem hg
  refine ⟨?_, ?_, ?_, ?_, ?_, ?_, ?_, ?_⟩
  · rw [ht1]
    exact h.gamesKeysNodup
  · rw [ht2]
    exact nodup_keys_dinsert sid g2 h.sessionsKeysNodup
  · rw [ht3]
    exact h.waitingNodup
  · rw [ht2, ht4, keys_dinsert_of_mem g2 hmem]
    exact h.idBoundSessions
  · intro p hp
    rw [ht4]
    exact h.idBoundGames p (by rw [ht1] at hp; exact hp)
  · intro gid hgw
    rw [ht4]
    exact h.idBoundWaiting gid (by rw [ht3] at hgw; exact hgw)
  · intro c2 sid2 hl
    rw [ht1] at hl
    obtain ⟨g3, hg3, hseat⟩ := h.refsSeats c2 sid2 hl
    rw [ht2]
    by_cases hs : sid2 = sid
    · subst hs
      rw [hg] at hg3
      obtain rfl : g = g3 := by injection hg3
      refine ⟨g2, dlookup_dinsert_self _ _ _, ?_⟩
      rw [hw, hb]
      exact hseat
    · exact ⟨g3, by rw [dlookup_dinsert_ne _ g2 hs]; exact hg3, hseat⟩
  · intro gid hgw
    rw [ht3] at hgw
    obtain ⟨g3, hg3, hbk, hcr⟩ := h.waitingSession gid hgw
    rw [ht2]
    by_cases hs : gid = sid
    · subst hs
      rw [hg] at hg3
      obtain rfl : g = g3 := by injection hg3
      refine ⟨g2, dlookup_dinsert_self _ _ _, by rw [hb]; exact hbk, ?_⟩
      intro c2 hc2
      rw [ht1] at hc2
      rw [hc]
      exact hcr c2 hc2
    · refine ⟨g3, by rw [dlookup_dinsert_ne _ g2 hs]; exact hg3, hbk, ?_⟩
      intro c2 hc2
      rw [ht1] at hc2
      exact hcr c2 hc2

/-- Transport of RefInv across a step that leaves games, sessions,
waiting and the id counter unchanged. -/
theorem refInv_congr {B : Type} {s t : Srv B} (h : RefInv s)
    (ht1 : t.games = s.games) (ht2 : t.sessions = s.sessions)
    (ht3 : t.waiting = s.waiting) (ht4 : t.nextId = s.nextId) : RefInv t :=
  refInv_shrink h (fun k v hv => by rw [ht1] at hv; exact hv)
    (by rw [ht1]; exact h.gamesKeysNodup)
    (fun p hp => by rw [ht1] at hp; exact hp) ht2
    (fun gid hg => by rw [ht3] at hg; exact hg)
    (by rw [ht3]; exact h.waitingNodup) ht4

theorem mem_of_dlookup {β : Type} {l : List (Nat × β)} {k : Nat} {v : β}
    (h : dlookup l k = some v) : (k, v) ∈ l := by
  induction l with
  | nil => simp [dlookup] at h
  | cons p t ih =>
    by_cases hp : p.1 = k
    · simp only [dlookup, if_pos hp] at h
      injection h with h
      have hpe : p = (k, v) := by
        rw [Prod.ext_iff]
        exact ⟨hp, h⟩
      rw [← hpe]
      exact List.mem_cons_self p t
    · simp only [dlookup, if_neg hp] at h
      exact List.mem_cons_of_mem p (ih h)

/-! ### Preservation of the reference invariant by every operation -/

theorem refInv_broadcastLobby {B : Type} {s : Srv B} (h : RefInv s) :
    RefInv (broadcastLobby s) :=
  refInv_congr h rfl rfl rfl rfl

theorem refInv_joinPlayerStep {B : Type} {s : Srv B} (h : RefInv s) (c : Conn)
    (a : Addr) : RefInv (joinPlayerStep s c a) := by
  unfold joinPlayerStep
  split
  · exact h
  · exact refInv_congr h rfl rfl rfl rfl

theorem refInv_specFind {B M : Type} (R : Rules B M) {s : Srv B} (h : RefInv s)
    (c : Conn) (gid : Nat) : RefInv (specFind R s c gid) := by
  unfold specFind
  split
  · split
    · exact h
    · next g hg =>
      refine refInv_sessions_update h _ hg ?_ ?_ ?_ rfl rfl rfl rfl
      · rfl
      · rfl
      · rfl
  · exact refInv_congr h rfl rfl rfl rfl

theorem refInv_joinSpectatorStep {B M : Type} (R : Rules B M) {s : Srv B}
    (h : RefInv s) (c : Conn) (gid : Nat) : RefInv (joinSpectatorStep R s c gid) := by
  unfold joinSpectatorStep
  split
  · exact h
  · apply refInv_specFind
    exact refInv_congr h rfl rfl rfl rfl

theorem refInv_createStep {B M : Type} (R : Rules B M) {s : Srv B} (h : RefInv s)
    (c : Conn) (a : Addr) (pw : Option String) (now : Int) :
    RefInv (createStep R s c a pw now) := by
  unfold createStep
  split
  · have hfreshS : s.nextId ∉ s.sessions.map Prod.fst := fun hm =>
      absurd (h.idBoundSessions s.nextId hm) (lt_irrefl _)
    have hfreshW : s.nextId ∉ s.waiting := fun hm =>
      absurd (h.idBoundWaiting s.nextId hm) (lt_irrefl _)
    apply refInv_broadcastLobby
    refine ⟨?_, ?_, ?_, ?_, ?_, ?_, ?_, ?_⟩
    · show ((dinsert s.games c s.nextId).map Prod.fst).Nodup
      exact nodup_keys_dinsert c s.nextId h.gamesKeysNodup
    · show ((dinsert s.sessions s.nextId (mkSession R c a pw s.nextId now)).map
        Prod.fst).Nodup
      rw [keys_dinsert_of_not_mem _ hfreshS, List.nodup_append]
      refine ⟨h.sessionsKeysNodup, List.nodup_singleton _, ?_⟩
      intro x hx hx2
      simp at hx2
      subst hx2
      exact hfreshS hx
    · show (s.waiting ++ [s.nextId]).Nodup
      rw [List.nodup_append]
      refine ⟨h.waitingNodup, List.nodup_singleton _, ?_⟩
      intro x hx hx2
      simp at hx2
      subst hx2
      exact hfreshW hx
    · show ∀ sid ∈ (dinsert s.sessions s.nextId (mkSession R c a pw s.nextId now)).map
        Prod.fst, sid < s.nextId + 1
      rw [keys_dinsert_of_not_mem _ hfreshS]
      intro sid hsid
      rcases List.mem_append.mp hsid with h1 | h2
      · have := h.idBoundSessions sid h1
        omega
      · simp at h2
        omega
    · show ∀ p ∈ dinsert s.games c s.nextId, p.2 < s.nextId + 1
      intro p hp
      rcases mem_dinsert hp with h1 | h1
      · have := h.idBoundGames p h1
        omega
      · rw [h1]
        show s.nextId < s.nextId + 1
        omega
    · show ∀ gid ∈ s.waiting ++ [s.nextId], gid < s.nextId + 1
      intro gid hg
      rcases List.mem_append.mp hg with h1 | h2
      · have := h.idBoundWaiting gid h1
        omega
      · simp at h2
        omega
    · show ∀ cc sid, dlookup (dinsert s.games c s.nextId) cc = some sid →
        ∃ g, dlookup (dinsert s.sessions s.nextId (mkSession R c a pw s.nextId now)) sid
            = some g ∧ (g.whiteConn = some cc ∨ g.blackConn = some cc)
      intro cc sid hl
      by_cases hcc : cc = c
      · subst hcc
        rw [dlookup_dinsert_self] at hl
        injection hl with hl
        subst hl
        exact ⟨_, dlookup_dinsert_self _ _ _, Or.inl rfl⟩
      · rw [dlookup_dinsert_ne _ _ hcc] at hl
        obtain ⟨g3, hg3, hseat⟩ := h.refsSeats cc sid hl
        have hsidlt : sid < s.nextId := h.idBoundGames (cc, sid) (mem_of_dlookup hl)
        refine ⟨g3, ?_, hseat⟩
        rw [dlookup_dinsert_ne _ _ (by omega)]
        exact hg3
    · show ∀ gid ∈ s.waiting ++ [s.nextId],
        ∃ g, dlookup (dinsert s.sessions s.nextId (mkSession R c a pw s.nextId now)) gid
            = some g ∧ g.blackConn = none ∧
          ∀ cc, dlookup (dinsert s.games c s.nextId) cc = some gid →
            g.creatorConn = some cc
      intro gid hgw
      rcases List.mem_append.mp hgw with h1 | h2
      · obtain ⟨g3, hg3, hbk, hcr⟩ := h.waitingSession gid h1
        have hlt : gid < s.nextId := h.idBoundWaiting gid h1
        refine ⟨g3, by rw [dlookup_dinsert_ne _ _ (by omega)]; exact hg3, hbk, ?_⟩
        intro cc hcl
        by_cases hcc : cc = c
        · subst hcc
          rw [dlookup_dinsert_self] at hcl
          injection hcl with hcl
          omega
        · rw [dlookup_dinsert_ne _ _ hcc] at hcl
          exact hcr cc hcl
      · simp at h2
        subst h2
        refine ⟨_, dlookup_dinsert_self _ _ _, rfl, ?_⟩
        intro cc hcl
        by_cases hcc : cc = c
        · subst hcc
          rfl
        · rw [dlookup_dinsert_ne _ _ hcc] at hcl
          have hx : s.nextId < s.nextId := h.idBoundGames (cc, s.nextId) (mem_of_dlookup hcl)
          omega
  · exact h

theorem refInv_joinCore {B M : Type} (R : Rules B M) {s : Srv B} (h : RefInv s)
    (c : Conn) (a : Addr) (gid : Nat) (g : Session B) (now : Int)
    (hwait : gid ∈ s.waiting) (hsess : dlookup s.sessions gid = some g) :
    RefInv (joinCore R s c a gid g now) := by
  obtain ⟨g0, hg0, hbk, hcr⟩ := h.waitingSession gid hwait
  rw [hsess] at hg0
  injection hg0 with hgg
  subst hgg
  have hglt : gid < s.nextId := h.idBoundWaiting gid hwait
  unfold joinCore
  apply refInv_broadcastLobby
  refine ⟨?_, ?_, ?_, ?_, ?_, ?_, ?_, ?_⟩
  · show ((dinsert s.games c gid).map Prod.fst).Nodup
    exact nodup_keys_dinsert c gid h.gamesKeysNodup
  · show ((dinsert s.sessions gid { seatBlack g c a with lastMove := now }).map
      Prod.fst).Nodup
    exact nodup_keys_dinsert gid _ h.sessionsKeysNodup
  · show (s.waiting.erase gid).Nodup
    exact h.waitingNodup.erase gid
  · show ∀ sid ∈ (dinsert s.sessions gid { seatBlack g c a with lastMove := now }).map
      Prod.fst, sid < s.nextId
    rw [keys_dinsert_of_mem _ (dlookup_isSome_mem hsess)]
    exact h.idBoundSessions
  · show ∀ p ∈ dinsert s.games c gid, p.2 < s.nextId
    intro p hp
    rcases mem_dinsert hp with h1 | h1
    · exact h.idBoundGames p h1
    · rw [h1]
      exact hglt
  · show ∀ gid2 ∈ s.waiting.erase gid, gid2 < s.nextId
    intro gid2 hg2
    exact h.idBoundWaiting gid2 (List.mem_of_mem_erase hg2)
  · show ∀ cc sid2, dlookup (dinsert s.games c gid) cc = some sid2 →
      ∃ g2, dlookup (dinsert s.sessions gid { seatBlack g c a with lastMove := now }) sid2
          = some g2 ∧ (g2.whiteConn = some cc ∨ g2.blackConn = some cc)
    intro cc sid2 hl
    by_cases hcc : cc = c
    · subst hcc
      rw [dlookup_dinsert_self] at hl
      injection hl with hl
      subst hl
      exact ⟨_, dlookup_dinsert_self _ _ _, Or.inr rfl⟩
    · rw [dlookup_dinsert_ne _ _ hcc] at hl
      obtain ⟨g3, hg3, hseat⟩ := h.refsSeats cc sid2 hl
      by_cases hs : sid2 = gid
      · subst hs
        rw [hsess] at hg3
        injection hg3 with hg3e
        subst hg3e
        rcases hseat with hseat | hseat
        · exact ⟨_, dlookup_dinsert_self _ _ _, Or.inl hseat⟩
        · rw [hbk] at hseat
          exact Option.noConfusion hseat
      · exact ⟨g3, by rw [dlookup_dinsert_ne _ _ hs]; exact hg3, hseat⟩
  · show ∀ gid2 ∈ s.waiting.erase gid,
      ∃ g2, dlookup (dinsert s.sessions gid { seatBlack g c a with lastMove := now }) gid2
          = some g2 ∧ g2.blackConn = none ∧
        ∀ cc, dlookup (dinsert s.games c gid) cc = some gid2 → g2.creatorConn = some cc
    intro gid2 hg2
    have hmem := h.waitingNodup.mem_erase_iff.mp hg2
    obtain ⟨g3, hg3, hbk3, hcr3⟩ := h.waitingSession gid2 hmem.2
    refine ⟨g3, by rw [dlookup_dinsert_ne _ _ hmem.1]; exact hg3, hbk3, ?_⟩
    intro cc hcl
    by_cases hcc : cc = c
    · subst hcc
      rw [dlookup_dinsert_self] at hcl
      injection hcl with hcl
      exact absurd hcl.symm hmem.1
    · rw [dlookup_dinsert_ne _ _ hcc] at hcl
      exact hcr3 cc hcl

theorem refInv_joinStep {B M : Type} (R : Rules B M) {s : Srv B} (h : RefInv s)
    (c : Conn) (a : Addr) (gid : Nat) (pw : Option String) (now : Int) :
    RefInv (joinStep R s c a gid pw now) := by
  unfold joinStep
  split
  · split
    · next hwait =>
      split
      · exact h
      · next g hg =>
        split
        · exact refInv_congr h rfl rfl rfl rfl
        · exact refInv_joinCore R h c a gid g now hwait hg
    · exact refInv_congr h rfl rfl rfl rfl
  · exact h

theorem refInv_moveCleanup {B : Type} {s : Srv B} (h : RefInv s) (g : Session B) :
    RefInv (moveCleanup s g) := by
  unfold moveCleanup
  apply refInv_broadcastLobby
  refine ⟨?_, ?_, ?_, ?_, ?_, ?_, ?_, ?_⟩
  · show ((eraseSeats s.games g).map Prod.fst).Nodup
    exact eraseSeats_nodup g h.gamesKeysNodup
  · exact h.sessionsKeysNodup
  · exact h.waitingNodup
  · exact h.idBoundSessions
  · show ∀ p ∈ eraseSeats s.games g, p.2 < s.nextId
    intro p hp
    exact h.idBoundGames p (mem_eraseSeats hp)
  · exact h.idBoundWaiting
  · show ∀ cc sid, dlookup (eraseSeats s.games g) cc = some sid →
      ∃ g2, dlookup s.sessions sid = some g2 ∧
        (g2.whiteConn = some cc ∨ g2.blackConn = some cc)
    intro cc sid hl
    exact h.refsSeats cc sid (dlookup_eraseSeats_some h.gamesKeysNodup hl)
  · show ∀ gid ∈ s.waiting,
      ∃ g2, dlookup s.sessions gid = some g2 ∧ g2.blackConn = none ∧
        ∀ cc, dlookup (eraseSeats s.games g) cc = some gid → g2.creatorConn = some cc
    intro gid hgw
    obtain ⟨g2, hg2, hbk, hcr⟩ := h.waitingSession gid hgw
    exact ⟨g2, hg2, hbk, fun cc hcl =>
      hcr cc (dlookup_eraseSeats_some h.gamesKeysNodup hcl)⟩

theorem refInv_moveStep {B M : Type} (R : Rules B M) {s : Srv B} (h : RefInv s)
    (c : Conn) (mv : String) (now : Int) : RefInv (moveStep R s c mv now) := by
  unfold moveStep
  split
  · split
    · exact h
    · next sid hsid =>
      split
      · exact h
      · next g hg =>
        show RefInv (if (handleMove R now g c mv).2.2.1 = "ended"
            then moveCleanup { s with
                sessions := dinsert s.sessions sid (handleMove R now g c mv).1
                out := s.out ++ (handleMove R now g c mv).2.1 } g
            else { s with
                sessions := dinsert s.sessions sid (handleMove R now g c mv).1
                out := s.out ++ (handleMove R now g c mv).2.1 })
        have hf := handleMove_fields R now g c mv
        have hs1 : RefInv { s with
            sessions := dinsert s.sessions sid (handleMove R now g c mv).1
            out := s.out ++ (handleMove R now g c mv).2.1 } := by
          refine refInv_sessions_update h sid hg ?_ ?_ ?_ rfl rfl rfl rfl
          · exact hf.1
          · exact hf.2.1
          · exact hf.2.2
        split
        · exact refInv_moveCleanup hs1 g
        · exact hs1
  · exact h

theorem refInv_quitStep {B : Type} {s : Srv B} (h : RefInv s) (c : Conn) (a : Addr) :
    RefInv (quitStep s c a) := by
  unfold quitStep
  split
  · split
    · exact h
    · next sid hsid =>
      split
      · exact h
      · next g hg =>
        apply refInv_broadcastLobby
        refine ⟨?_, ?_, ?_, ?_, ?_, ?_, ?_, ?_⟩
        · show ((eraseQuit s.games g c).map Prod.fst).Nodup
          exact eraseQuit_nodup g c h.gamesKeysNodup
        · exact h.sessionsKeysNodup
        · exact h.waitingNodup
        · exact h.idBoundSessions
        · show ∀ p ∈ eraseQuit s.games g c, p.2 < s.nextId
          intro p hp
          exact h.idBoundGames p (mem_eraseQuit hp)
        · exact h.idBoundWaiting
        · show ∀ cc sid2, dlookup (eraseQuit s.games g c) cc = some sid2 →
            ∃ g2, dlookup s.sessions sid2 = some g2 ∧
              (g2.whiteConn = some cc ∨ g2.blackConn = some cc)
          intro cc sid2 hl
          exact h.refsSeats cc sid2 (dlookup_eraseQuit_some h.gamesKeysNodup hl)
        · show ∀ gid ∈ s.waiting,
            ∃ g2, dlookup s.sessions gid = some g2 ∧ g2.blackConn = none ∧
              ∀ cc, dlookup (eraseQuit s.games g c) cc = some gid →
                g2.creatorConn = some cc
          intro gid hgw
          obtain ⟨g2, hg2, hbk, hcr⟩ := h.waitingSession gid hgw
          exact ⟨g2, hg2, hbk, fun cc hcl =>
            hcr cc (dlookup_eraseQuit_some h.gamesKeysNodup hcl)⟩
  · exact h

theorem refInv_discLobby {B : Type} {s : Srv B} (h : RefInv s) (c : Conn) (a : Addr) :
    RefInv (discLobby s c a) := by
  unfold discLobby
  split
  · exact refInv_broadcastLobby (refInv_congr h rfl rfl rfl rfl)
  · exact h

theorem refInv_discWaiting {B : Type} {s : Srv B} (h : RefInv s) (c : Conn) :
    RefInv (discWaiting s c) := by
  unfold discWaiting
  split
  · next gid hfind =>
    apply refInv_broadcastLobby
    refine ⟨?_, ?_, ?_, ?_, ?_, ?_, ?_, ?_⟩
    · exact h.gamesKeysNodup
    · exact h.sessionsKeysNodup
    · show (s.waiting.erase gid).Nodup
      exact h.waitingNodup.erase gid
    · exact h.idBoundSessions
    · exact h.idBoundGames
    · show ∀ gid2 ∈ s.waiting.erase gid, gid2 < s.nextId
      intro gid2 hg2
      exact h.idBoundWaiting gid2 (List.mem_of_mem_erase hg2)
    · exact h.refsSeats
    · show ∀ gid2 ∈ s.waiting.erase gid,
        ∃ g2, dlookup s.sessions gid2 = some g2 ∧ g2.blackConn = none ∧
          ∀ cc, dlookup s.games cc = some gid2 → g2.creatorConn = some cc
      intro gid2 hg2
      exact h.waitingSession gid2 (List.mem_of_mem_erase hg2)
  · exact h

theorem refInv_discGame {B : Type} {s : Srv B} (h : RefInv s) (c : Conn)
    (g : Session B) : RefInv (discGame s c g) := by
  unfold discGame
  apply refInv_broadcastLobby
  refine ⟨?_, ?_, ?_, ?_, ?_, ?_, ?_, ?_⟩
  · show ((eraseQuit s.games g c).map Prod.fst).Nodup
    exact eraseQuit_nodup g c h.gamesKeysNodup
  · exact h.sessionsKeysNodup
  · exact h.waitingNodup
  · exact h.idBoundSessions
  · show ∀ p ∈ eraseQuit s.games g c, p.2 < s.nextId
    intro p hp
    exact h.idBoundGames p (mem_eraseQuit hp)
  · exact h.idBoundWaiting
  · show ∀ cc sid2, dlookup (eraseQuit s.games g c) cc = some sid2 →
      ∃ g2, dlookup s.sessions sid2 = some g2 ∧
        (g2.whiteConn = some cc ∨ g2.blackConn = some cc)
    intro cc sid2 hl
    exact h.refsSeats cc sid2 (dlookup_eraseQuit_some h.gamesKeysNodup hl)
  · show ∀ gid ∈ s.waiting,
      ∃ g2, dlookup s.sessions gid = some g2 ∧ g2.blackConn = none ∧
        ∀ cc, dlookup (eraseQuit s.games g c) cc = some gid → g2.creatorConn = some cc
    intro gid hgw
    obtain ⟨g2, hg2, hbk, hcr⟩ := h.waitingSession gid hgw
    exact ⟨g2, hg2, hbk, fun cc hcl =>
      hcr cc (dlookup_eraseQuit_some h.gamesKeysNodup hcl)⟩

theorem refInv_discPlayer {B : Type} {s : Srv B} (h : RefInv s) (c : Conn) :
    RefInv (discPlayer s c) := by
  unfold discPlayer
  split
  · exact h
  · split
    · exact h
    · next g hg =>
      exact refInv_discGame h c g

theorem refInv_disconnectStep {B : Type} {s : Srv B} (h : RefInv s) (c : Conn)
    (a : Addr) : RefInv (disconnectStep s c a) := by
  unfold disconnectStep
  split
  · exact h
  · split
    · exact refInv_congr
        (refInv_discPlayer (refInv_discWaiting (refInv_discLobby h c a) c) c)
        rfl rfl rfl rfl
    · exact refInv_congr h rfl rfl rfl rfl
    · exact refInv_congr h rfl rfl rfl rfl

theorem refInv_watchdogBody {B M : Type} (R : Rules B M) (now : Int) {acc : Srv B}
    (h : RefInv acc) (sid : Nat) : RefInv (watchdogBody R now acc sid) := by
  unfold watchdogBody
  split
  · exact h
  · next g hg =>
    have hf := scanGame_fields R now g
    refine refInv_sessions_update h sid hg ?_ ?_ ?_ rfl rfl rfl rfl
    · exact hf.1
    · exact hf.2.1
    · exact hf.2.2

theorem refInv_watchdog_foldl {B M : Type} (R : Rules B M) (now : Int) :
    ∀ (l : List Nat) (acc : Srv B), RefInv acc →
      RefInv (l.foldl (watchdogBody R now) acc) := by
  intro l
  induction l with
  | nil =>
    intro acc h
    exact h
  | cons j t ih =>
    intro acc h
    exact ih _ (refInv_watchdogBody R now h j)

theorem refInv_watchdogStep {B M : Type} (R : Rules B M) {s : Srv B} (h : RefInv s)
    (now : Int) : RefInv (watchdogStep R s now) := by
  unfold watchdogStep
  exact refInv_watchdog_foldl R now _ s h

theorem refInv_applyOp {B M : Type} (R : Rules B M) {s : Srv B} (h : RefInv s) :
    ∀ op, RefInv (applyOp R s op)
  | .joinPlayer c a => refInv_joinPlayerStep h c a
  | .joinSpectator c gid => refInv_joinSpectatorStep R h c gid
  | .createGame c a pw now => refInv_createStep R h c a pw now
  | .joinGame c a gid pw now => refInv_joinStep R h c a gid pw now
  | .moveOp c _ mv now => refInv_moveStep R h c mv now
  | .quitOp c a => refInv_quitStep h c a
  | .disconnect c a => refInv_disconnectStep h c a
  | .watchdog now => refInv_watchdogStep R h now

theorem refInv_runOps {B M : Type} (R : Rules B M) :
    ∀ (ops : List Op) (s : Srv B), RefInv s → RefInv (runOps R s ops)
  | [], _, h => h
  | op :: ops, s, h => refInv_runOps R ops (applyOp R s op) (refInv_applyOp R h op)

/-! ### Helper lemmas for the exclusivity invariant -/

theorem dlookup_derase_none {β : Type} {l : List (Nat × β)} {k k' : Nat}
    (hn : (l.map Prod.fst).Nodup) (h : dlookup l k = none) :
    dlookup (derase l k') k = none := by
  by_cases hk : k = k'
  · subst hk
    exact dlookup_derase_self k hn
  · rw [dlookup_derase_ne _ hk]
    exact h

theorem dlookup_eraseQuit_none {B : Type} {games : List (Conn × Nat)} (g : Session B)
    (c : Conn) {k : Conn} (hn : (games.map Prod.fst).Nodup)
    (h : dlookup games k = none) : dlookup (eraseQuit games g c) k = none := by
  rcases eraseQuit_eq games g c with heq | heq <;> rw [heq]
  · exact dlookup_derase_none (nodup_keys_derase c hn) (dlookup_derase_none hn h)
  · exact dlookup_derase_none hn h

theorem dlookup_eraseQuit_self {B : Type} {games : List (Conn × Nat)} (g : Session B)
    {c : Conn} (hn : (games.map Prod.fst).Nodup) :
    dlookup (eraseQuit games g c) c = none := by
  rcases eraseQuit_eq games g c with heq | heq <;> rw [heq]
  · exact dlookup_derase_none (nodup_keys_derase c hn) (dlookup_derase_self c hn)
  · exact dlookup_derase_self c hn

theorem opponent_seat {B : Type} {g : Session B} {c o : Conn}
    (h : g.opponent c = some o) :
    g.whiteConn = some o ∨ g.blackConn = some o := by
  unfold Session.opponent at h
  split at h
  · exact Or.inr h
  · exact Or.inl h

theorem dlookup_eraseQuit_opp {B : Type} {games : List (Conn × Nat)} {g : Session B}
    {c o : Conn} (hn : (games.map Prod.fst).Nodup) (ho : g.opponent c = some o) :
    dlookup (eraseQuit games g c) o = none := by
  unfold eraseQuit
  simp only [ho]
  by_cases hs : (dlookup (derase games c) o).isSome = true
  · rw [if_pos hs]
    exact dlookup_derase_self o (nodup_keys_derase c hn)
  · rw [if_neg hs]
    exact Option.not_isSome_iff_eq_none.mp hs

theorem dlookup_eraseSeats_none {B : Type} {games : List (Conn × Nat)} (g : Session B)
    {k : Conn} (hn : (games.map Prod.fst).Nodup)
    (h : dlookup games k = none) : dlookup (eraseSeats games g) k = none := by
  unfold eraseSeats
  cases hb : g.blackConn with
  | some b =>
    cases hw : g.whiteConn with
    | some w =>
      exact dlookup_derase_none (nodup_keys_derase w hn) (dlookup_derase_none hn h)
    | none => exact dlookup_derase_none hn h
  | none =>
    cases hw : g.whiteConn with
    | some w => exact dlookup_derase_none hn h
    | none => exact h

theorem dlookup_eraseSeats_white {B : Type} {games : List (Conn × Nat)} {g : Session B}
    {w : Conn} (hn : (games.map Prod.fst).Nodup) (hw : g.whiteConn = some w) :
    dlookup (eraseSeats games g) w = none := by
  unfold eraseSeats
  rw [hw]
  cases hb : g.blackConn with
  | some b =>
    exact dlookup_derase_none (nodup_keys_derase w hn) (dlookup_derase_self w hn)
  | none => exact dlookup_derase_self w hn

theorem dlookup_eraseSeats_black {B : Type} {games : List (Conn × Nat)} {g : Session B}
    {b : Conn} (hn : (games.map Prod.fst).Nodup) (hb : g.blackConn = some b) :
    dlookup (eraseSeats games g) b = none := by
  unfold eraseSeats
  rw [hb]
  cases hw : g.whiteConn with
  | some w => exact dlookup_derase_self b (nodup_keys_derase w hn)
  | none => exact dlookup_derase_self b hn

theorem nodup_foldl_derase {β : Type} :
    ∀ (l : List Nat) (m : List (Nat × β)), (m.map Prod.fst).Nodup →
      ((l.foldl (fun acc j => derase acc j) m).map Prod.fst).Nodup := by
  intro l
  induction l with
  | nil =>
    intro m h
    exact h
  | cons j t ih =>
    intro m h
    exact ih _ (nodup_keys_derase j h)

theorem dlookup_foldl_derase_none {β : Type} :
    ∀ (l : List Nat) (m : List (Nat × β)) (k : Nat), (m.map Prod.fst).Nodup →
      dlookup m k = none → dlookup (l.foldl (fun acc j => derase acc j) m) k = none := by
  intro l
  induction l with
  | nil =>
    intro m k _ h
    exact h
  | cons j t ih =>
    intro m k hn h
    simp only [List.foldl_cons]
    apply ih (derase m j) k (nodup_keys_derase j hn)
    by_cases hkj : k = j
    · rw [hkj]
      exact dlookup_derase_self j hn
    · rw [dlookup_derase_ne _ hkj]
      exact h

theorem dlookup_foldl_derase_some {β : Type} :
    ∀ (l : List Nat) (m : List (Nat × β)) (k : Nat) (v : β), (m.map Prod.fst).Nodup →
      dlookup (l.foldl (fun acc j => derase acc j) m) k = some v →
      dlookup m k = some v := by
  intro l
  induction l with
  | nil =>
    intro m k v _ h
    exact h
  | cons j t ih =>
    intro m k v hn h
    exact dlookup_derase_of_some hn (ih _ k v (nodup_keys_derase j hn) h)

theorem keys_nodup_eq {α : Type} {l : List (Nat × α)} {p q : Nat × α}
    (hn : (l.map Prod.fst).Nodup) (hp : p ∈ l) (hq : q ∈ l) (h : p.1 = q.1) :
    p = q := by
  induction l with
  | nil => simp at hp
  | cons x t ih =>
    simp only [List.map_cons, List.nodup_cons] at hn
    rcases List.mem_cons.mp hp with hp1 | hp2 <;> rcases List.mem_cons.mp hq with hq1 | hq2
    · rw [hp1, hq1]
    · subst hp1
      have hqk : q.1 ∈ t.map Prod.fst := List.mem_map_of_mem Prod.fst hq2
      rw [← h] at hqk
      exact absurd hqk hn.1
    · subst hq1
      have hpk : p.1 ∈ t.map Prod.fst := List.mem_map_of_mem Prod.fst hp2
      rw [h] at hpk
      exact absurd hpk hn.1
    · exact ih hn.2 hp2 hq2

theorem lobby_erase_key_ne {l : List (Conn × Addr)} {c : Conn} {a : Addr}
    {p : Conn × Addr} (hn : (l.map Prod.fst).Nodup) (hca : (c, a) ∈ l)
    (hp : p ∈ l.erase (c, a)) : p.1 ≠ c := by
  intro hpc
  have hnl : l.Nodup := List.Nodup.of_map Prod.fst hn
  have hpe : p ≠ (c, a) := (hnl.mem_erase_iff.mp hp).1
  have hpl : p ∈ l := List.mem_of_mem_erase hp
  exact hpe (keys_nodup_eq hn hpl hca hpc)

theorem keys_append_one {α : Type} {l : List (Nat × α)} {p : Nat × α}
    (hn : (l.map Prod.fst).Nodup) (hp : p.1 ∉ l.map Prod.fst) :
    ((l ++ [p]).map Prod.fst).Nodup := by
  rw [List.map_append, List.nodup_append]
  refine ⟨hn, List.nodup_singleton _, ?_⟩
  intro x hx hx2
  simp at hx2
  subst hx2
  exact hp hx

theorem lobby_all_ne {l : List (Conn × Addr)} {w : Conn}
    (h : (l.all fun q => q.1 != w) = true) : w ∉ l.map Prod.fst := by
  intro hm
  obtain ⟨p, hp, hpw⟩ := List.mem_map.mp hm
  have h2 := List.all_eq_true.mp h p hp
  rw [hpw] at h2
  simp at h2

theorem mem_seatReadd {oc : Option Conn} {oa : Option Addr} {p : Conn × Addr}
    (h : p ∈ seatReadd oc oa) : oc = some p.1 ∧ oa = some p.2 := by
  cases oc with
  | none => simp [seatReadd] at h
  | some x =>
    cases oa with
    | none => simp [seatReadd] at h
    | some xa =>
      simp [seatReadd] at h
      rw [h]
      exact ⟨rfl, rfl⟩

theorem seatReadd_keys {oc : Option Conn} {oa : Option Addr} {l : List (Conn × Addr)}
    (hn : (l.map Prod.fst).Nodup)
    (hni : ∀ x, oc = some x → oa.isSome = true → x ∉ l.map Prod.fst) :
    ((l ++ seatReadd oc oa).map Prod.fst).Nodup := by
  cases oc with
  | none => simpa [seatReadd] using hn
  | some x =>
    cases oa with
    | none => simpa [seatReadd] using hn
    | some xa => exact keys_append_one hn (hni x rfl rfl)

theorem seatReadd_keys_mem {oc : Option Conn} {oa : Option Addr}
    {l : List (Conn × Addr)} {x : Conn}
    (h : x ∈ (l ++ seatReadd oc oa).map Prod.fst) :
    x ∈ l.map Prod.fst ∨ oc = some x := by
  rw [List.map_append] at h
  rcases List.mem_append.mp h with h1 | h2
  · exact Or.inl h1
  · right
    obtain ⟨p, hp, hpx⟩ := List.mem_map.mp h2
    have h3 := (mem_seatReadd hp).1
    rw [← hpx]
    exact h3

theorem quitReadd_opp {B : Type} {g : Session B} {c : Conn} {p : Conn × Addr}
    (h : quitReadd g c = some p) : g.opponent c = some p.1 := by
  cases ho : g.opponent c with
  | none => simp [quitReadd, ho] at h
  | some o =>
    simp only [quitReadd, ho] at h
    split at h
    · rename_i o2 oa2 heq1 heq2
      injection h with h2
      injection heq1 with heq1
      rw [← h2, ← heq1]
    · exact Option.noConfusion h

theorem roles_none_not_lobby {B : Type} {s : Srv B} (hE : ExcInv s) {c : Conn}
    (hnone : dlookup s.roles c = none) : c ∉ s.lobby.map Prod.fst := by
  intro hc
  obtain ⟨p, hp, hpc⟩ := List.mem_map.mp hc
  have h2 := hE.lobbyPlayer p hp
  rw [hpc, hnone] at h2
  exact Option.noConfusion h2

theorem roles_none_not_games {B : Type} {s : Srv B} (hE : ExcInv s) {c : Conn}
    (hnone : dlookup s.roles c = none) : dlookup s.games c = none := by
  cases hgc : dlookup s.games c with
  | none => rfl
  | some sid =>
    have h2 := hE.gamesPlayer c sid hgc
    rw [hnone] at h2
    exact Option.noConfusion h2

theorem roles_none_not_specs {B : Type} {s : Srv B} (hE : ExcInv s) {c : Conn}
    (hnone : dlookup s.roles c = none) : dlookup s.specMap c = none := by
  cases hsc : dlookup s.specMap c with
  | none => rfl
  | some sid =>
    have h2 := hE.specsSpectator c sid hsc
    rw [hnone] at h2
    exact Option.noConfusion h2

theorem games_some_not_lobby {B : Type} {s : Srv B} (hE : ExcInv s) {c : Conn}
    {sid : Nat} (hg : dlookup s.games c = some sid) : c ∉ s.lobby.map Prod.fst := by
  intro hc
  obtain ⟨p, hp, hpc⟩ := List.mem_map.mp hc
  have h2 := hE.lobbyNotGames p hp
  rw [hpc, hg] at h2
  exact Option.noConfusion h2

theorem player_not_spec {B : Type} {s : Srv B} (hE : ExcInv s) {c : Conn}
    (hrole : dlookup s.roles c = some Role.player) : dlookup s.specMap c = none := by
  cases hsc : dlookup s.specMap c with
  | none => rfl
  | some sid2 =>
    have h2 := hE.specsSpectator c sid2 hsc
    rw [hrole] at h2
    injection h2 with h2
    exact Role.noConfusion h2

/-! ### Transport lemmas for the exclusivity invariant -/

theorem excInv_congr {B : Type} {s t : Srv B} (h : ExcInv s)
    (h1 : t.lobby = s.lobby) (h2 : t.games = s.games) (h3 : t.specMap = s.specMap)
    (h4 : t.roles = s.roles) (h5 : t.sessions = s.sessions) : ExcInv t := by
  refine ⟨?_, ?_, ?_, ?_, ?_, ?_, ?_, ?_, ?_⟩
  · rw [h1]
    exact h.lobbyKeysNodup
  · rw [h1, h2]
    exact h.lobbyNotGames
  · rw [h1, h3]
    exact h.lobbyNotSpecs
  · rw [h2, h3]
    exact h.gamesNotSpecs
  · rw [h1, h4]
    exact h.lobbyPlayer
  · rw [h2, h4]
    exact h.gamesPlayer
  · rw [h3, h4]
    exact h.specsSpectator
  · rw [h5, h4]
    exact h.seatsPlayer
  · rw [h3]
    exact h.specsKeysNodup

theorem excInv_broadcastLobby {B : Type} {s : Srv B} (h : ExcInv s) :
    ExcInv (broadcastLobby s) :=
  excInv_congr h rfl rfl rfl rfl rfl

theorem excInv_sessions_update {B : Type} {s t : Srv B} (h : ExcInv s) (sid : Nat)
    {g g2 : Session B} (hg : dlookup s.sessions sid = some g)
    (hw : g2.whiteConn = g.whiteConn) (hb : g2.blackConn = g.blackConn)
    (h1 : t.lobby = s.lobby) (h2 : t.games = s.games) (h3 : t.specMap = s.specMap)
    (h4 : t.roles = s.roles) (h5 : t.sessions = dinsert s.sessions sid g2) :
    ExcInv t := by
  refine ⟨?_, ?_, ?_, ?_, ?_, ?_, ?_, ?_, ?_⟩
  · rw [h1]
    exact h.lobbyKeysNodup
  · rw [h1, h2]
    exact h.lobbyNotGames
  · rw [h1, h3]
    exact h.lobbyNotSpecs
  · rw [h2, h3]
    exact h.gamesNotSpecs
  · rw [h1, h4]
    exact h.lobbyPlayer
  · rw [h2, h4]
    exact h.gamesPlayer
  · rw [h3, h4]
    exact h.specsSpectator
  · rw [h5, h4]
    intro sid2 g3 hl cc hseat
    by_cases hs : sid2 = sid
    · subst hs
      rw [dlookup_dinsert_self] at hl
      injection hl with hl
      subst hl
      rw [hw, hb] at hseat
      exact h.seatsPlayer sid2 g hg cc hseat
    · rw [dlookup_dinsert_ne _ _ hs] at hl
      exact h.seatsPlayer sid2 g3 hl cc hseat
  · rw [h3]
    exact h.specsKeysNodup

/-! ### Preservation of the exclusivity invariant by safe operations -/

theorem excInv_joinPlayerStep {B : Type} {s : Srv B} (hE : ExcInv s) (c : Conn)
    (a : Addr) : ExcInv (joinPlayerStep s c a) := by
  unfold joinPlayerStep
  split
  · exact hE
  · next hrole =>
    have hnone : dlookup s.roles c = none := Option.not_isSome_iff_eq_none.mp hrole
    apply excInv_broadcastLobby
    refine ⟨?_, ?_, ?_, ?_, ?_, ?_, ?_, ?_, ?_⟩
    · show ((s.lobby ++ [(c, a)]).map Prod.fst).Nodup
      exact keys_append_one hE.lobbyKeysNodup (roles_none_not_lobby hE hnone)
    · show ∀ p ∈ s.lobby ++ [(c, a)], dlookup s.games p.1 = none
      intro p hp
      rcases List.mem_append.mp hp with h1 | h2
      · exact hE.lobbyNotGames p h1
      · simp at h2
        rw [h2]
        exact roles_none_not_games hE hnone
    · show ∀ p ∈ s.lobby ++ [(c, a)], dlookup s.specMap p.1 = none
      intro p hp
      rcases List.mem_append.mp hp with h1 | h2
      · exact hE.lobbyNotSpecs p h1
      · simp at h2
        rw [h2]
        exact roles_none_not_specs hE hnone
    · exact hE.gamesNotSpecs
    · show ∀ p ∈ s.lobby ++ [(c, a)],
        dlookup (dinsert s.roles c Role.player) p.1 = some Role.player
      intro p hp
      by_cases hpc : p.1 = c
      · rw [hpc, dlookup_dinsert_self]
      · rw [dlookup_dinsert_ne _ _ hpc]
        rcases List.mem_append.mp hp with h1 | h2
        · exact hE.lobbyPlayer p h1
        · simp at h2
          rw [h2] at hpc
          exact absurd rfl hpc
    · show ∀ cc sid, dlookup s.games cc = some sid →
        dlookup (dinsert s.roles c Role.player) cc = some Role.player
      intro cc sid hl
      by_cases hcc : cc = c
      · rw [hcc, dlookup_dinsert_self]
      · rw [dlookup_dinsert_ne _ _ hcc]
        exact hE.gamesPlayer cc sid hl
    · show ∀ cc sid, dlookup s.specMap cc = some sid →
        dlookup (dinsert s.roles c Role.player) cc = some Role.spectator
      intro cc sid hl
      by_cases hcc : cc = c
      · subst hcc
        have h2 := hE.specsSpectator cc sid hl
        rw [hnone] at h2
        exact Option.noConfusion h2
      · rw [dlookup_dinsert_ne _ _ hcc]
        exact hE.specsSpectator cc sid hl
    · show ∀ sid g, dlookup s.sessions sid = some g → ∀ cc,
        g.whiteConn = some cc ∨ g.blackConn = some cc →
        dlookup (dinsert s.roles c Role.player) cc = some Role.player
      intro sid g hgl cc hseat
      by_cases hcc : cc = c
      · rw [hcc, dlookup_dinsert_self]
      · rw [dlookup_dinsert_ne _ _ hcc]
        exact hE.seatsPlayer sid g hgl cc hseat
    · exact hE.specsKeysNodup

theorem excInv_specFind {B M : Type} (R : Rules B M) {s : Srv B} (hE : ExcInv s)
    (c : Conn) (gid : Nat) (hspec : dlookup s.roles c = some Role.spectator) :
    ExcInv (specFind R s c gid) := by
  unfold specFind
  split
  · next sid hfind =>
    split
    · exact hE
    · next g hg =>
      refine ⟨hE.lobbyKeysNodup, hE.lobbyNotGames, ?_, ?_, hE.lobbyPlayer,
        hE.gamesPlayer, ?_, ?_, ?_⟩
      · show ∀ p ∈ s.lobby, dlookup (dinsert s.specMap c sid) p.1 = none
        intro p hp
        by_cases hpc : p.1 = c
        · have h2 := hE.lobbyPlayer p hp
          rw [hpc, hspec] at h2
          injection h2 with h2
          exact Role.noConfusion h2
        · rw [dlookup_dinsert_ne _ _ hpc]
          exact hE.lobbyNotSpecs p hp
      · show ∀ cc sid2, dlookup s.games cc = some sid2 →
          dlookup (dinsert s.specMap c sid) cc = none
        intro cc sid2 hl
        by_cases hcc : cc = c
        · have h2 := hE.gamesPlayer cc sid2 hl
          rw [hcc, hspec] at h2
          injection h2 with h2
          exact Role.noConfusion h2
        · rw [dlookup_dinsert_ne _ _ hcc]
          exact hE.gamesNotSpecs cc sid2 hl
      · show ∀ cc sid2, dlookup (dinsert s.specMap c sid) cc = some sid2 →
          dlookup s.roles cc = some Role.spectator
        intro cc sid2 hl
        by_cases hcc : cc = c
        · rw [hcc]
          exact hspec
        · rw [dlookup_dinsert_ne _ _ hcc] at hl
          exact hE.specsSpectator cc sid2 hl
      · show ∀ sid2 g3,
          dlookup (dinsert s.sessions sid { g with specs := g.specs ++ [c] }) sid2
            = some g3 → ∀ cc, g3.whiteConn = some cc ∨ g3.blackConn = some cc →
          dlookup s.roles cc = some Role.player
        intro sid2 g3 hl cc hseat
        by_cases hs : sid2 = sid
        · subst hs
          rw [dlookup_dinsert_self] at hl
          injection hl with hl
          subst hl
          exact hE.seatsPlayer sid2 g hg cc hseat
        · rw [dlookup_dinsert_ne _ _ hs] at hl
          exact hE.seatsPlayer sid2 g3 hl cc hseat
      · show ((dinsert s.specMap c sid).map Prod.fst).Nodup
        exact nodup_keys_dinsert c sid hE.specsKeysNodup
  · exact excInv_congr hE rfl rfl rfl rfl rfl

theorem excInv_roles_spectator {B : Type} {s : Srv B} (hE : ExcInv s) {c : Conn}
    (hnone : dlookup s.roles c = none) :
    ExcInv { s with roles := dinsert s.roles c Role.spectator } := by
  refine ⟨hE.lobbyKeysNodup, hE.lobbyNotGames, hE.lobbyNotSpecs, hE.gamesNotSpecs,
    ?_, ?_, ?_, ?_, hE.specsKeysNodup⟩
  · show ∀ p ∈ s.lobby,
      dlookup (dinsert s.roles c Role.spectator) p.1 = some Role.player
    intro p hp
    have hpc : p.1 ≠ c := by
      intro hpc
      exact roles_none_not_lobby hE hnone
        (hpc ▸ List.mem_map_of_mem Prod.fst hp)
    rw [dlookup_dinsert_ne _ _ hpc]
    exact hE.lobbyPlayer p hp
  · show ∀ cc sid, dlookup s.games cc = some sid →
      dlookup (dinsert s.roles c Role.spectator) cc = some Role.player
    intro cc sid hl
    have hcc : cc ≠ c := by
      intro hcc
      rw [hcc] at hl
      rw [roles_none_not_games hE hnone] at hl
      exact Option.noConfusion hl
    rw [dlookup_dinsert_ne _ _ hcc]
    exact hE.gamesPlayer cc sid hl
  · show ∀ cc sid, dlookup s.specMap cc = some sid →
      dlookup (dinsert s.roles c Role.spectator) cc = some Role.spectator
    intro cc sid hl
    by_cases hcc : cc = c
    · rw [hcc, dlookup_dinsert_self]
    · rw [dlookup_dinsert_ne _ _ hcc]
      exact hE.specsSpectator cc sid hl
  · show ∀ sid g, dlookup s.sessions sid = some g → ∀ cc,
      g.whiteConn = some cc ∨ g.blackConn = some cc →
      dlookup (dinsert s.roles c Role.spectator) cc = some Role.player
    intro sid g hgl cc hseat
    have hp := hE.seatsPlayer sid g hgl cc hseat
    have hcc : cc ≠ c := by
      intro hcc
      rw [hcc, hnone] at hp
      exact Option.noConfusion hp
    rw [dlookup_dinsert_ne _ _ hcc]
    exact hp

theorem excInv_joinSpectatorStep {B M : Type} (R : Rules B M) {s : Srv B}
    (hE : ExcInv s) (c : Conn) (gid : Nat) :
    ExcInv (joinSpectatorStep R s c gid) := by
  unfold joinSpectatorStep
  split
  · exact hE
  · next hrole =>
    have hnone : dlookup s.roles c = none := Option.not_isSome_iff_eq_none.mp hrole
    apply excInv_specFind
    · exact excInv_roles_spectator hE hnone
    · show dlookup (dinsert s.roles c Role.spectator) c = some Role.spectator
      exact dlookup_dinsert_self _ _ _

theorem excInv_createStep {B M : Type} (R : Rules B M) {s : Srv B} (hE : ExcInv s)
    (c : Conn) (a : Addr) (pw : Option String) (now : Int) :
    ExcInv (createStep R s c a pw now) := by
  unfold createStep
  split
  · next hguard =>
    obtain ⟨hrole, hlob, _⟩ := hguard
    apply excInv_broadcastLobby
    refine ⟨?_, ?_, ?_, ?_, ?_, ?_, hE.specsSpectator, ?_, hE.specsKeysNodup⟩
    · show ((s.lobby.erase (c, a)).map Prod.fst).Nodup
      exact ((List.erase_sublist (c, a) s.lobby).map Prod.fst).nodup hE.lobbyKeysNodup
    · show ∀ p ∈ s.lobby.erase (c, a),
        dlookup (dinsert s.games c s.nextId) p.1 = none
      intro p hp
      have hpc := lobby_erase_key_ne hE.lobbyKeysNodup hlob hp
      rw [dlookup_dinsert_ne _ _ hpc]
      exact hE.lobbyNotGames p (List.mem_of_mem_erase hp)
    · show ∀ p ∈ s.lobby.erase (c, a), dlookup s.specMap p.1 = none
      intro p hp
      exact hE.lobbyNotSpecs p (List.mem_of_mem_erase hp)
    · show ∀ cc sid, dlookup (dinsert s.games c s.nextId) cc = some sid →
        dlookup s.specMap cc = none
      intro cc sid hl
      by_cases hcc : cc = c
      · subst hcc
        exact hE.lobbyNotSpecs (cc, a) hlob
      · rw [dlookup_dinsert_ne _ _ hcc] at hl
        exact hE.gamesNotSpecs cc sid hl
    · show ∀ p ∈ s.lobby.erase (c, a), dlookup s.roles p.1 = some Role.player
      intro p hp
      exact hE.lobbyPlayer p (List.mem_of_mem_erase hp)
    · show ∀ cc sid, dlookup (dinsert s.games c s.nextId) cc = some sid →
        dlookup s.roles cc = some Role.player
      intro cc sid hl
      by_cases hcc : cc = c
      · rw [hcc]
        exact hrole
      · rw [dlookup_dinsert_ne _ _ hcc] at hl
        exact hE.gamesPlayer cc sid hl
    · show ∀ sid g,
        dlookup (dinsert s.sessions s.nextId (mkSession R c a pw s.nextId now)) sid
          = some g → ∀ cc, g.whiteConn = some cc ∨ g.blackConn = some cc →
        dlookup s.roles cc = some Role.player
      intro sid g hl cc hseat
      by_cases hs : sid = s.nextId
      · subst hs
        rw [dlookup_dinsert_self] at hl
        injection hl with hl
        subst hl
        rcases hseat with hseat | hseat
        · have h2 : some c = some cc := hseat
          injection h2 with h2
          rw [← h2]
          exact hrole
        · have h2 : (none : Option Conn) = some cc := hseat
          exact Option.noConfusion h2
      · rw [dlookup_dinsert_ne _ _ hs] at hl
        exact hE.seatsPlayer sid g hl cc hseat
  · exact hE

theorem excInv_joinCore {B M : Type} (R : Rules B M) {s : Srv B} (hE : ExcInv s)
    (c : Conn) (a : Addr) (gid : Nat) (g : Session B) (now : Int)
    (hrole : dlookup s.roles c = some Role.player) (hlob : (c, a) ∈ s.lobby)
    (hg : dlookup s.sessions gid = some g) :
    ExcInv (joinCore R s c a gid g now) := by
  unfold joinCore
  apply excInv_broadcastLobby
  refine ⟨?_, ?_, ?_, ?_, ?_, ?_, hE.specsSpectator, ?_, hE.specsKeysNodup⟩
  · show ((s.lobby.erase (c, a)).map Prod.fst).Nodup
    exact ((List.erase_sublist (c, a) s.lobby).map Prod.fst).nodup hE.lobbyKeysNodup
  · show ∀ p ∈ s.lobby.erase (c, a), dlookup (dinsert s.games c gid) p.1 = none
    intro p hp
    have hpc := lobby_erase_key_ne hE.lobbyKeysNodup hlob hp
    rw [dlookup_dinsert_ne _ _ hpc]
    exact hE.lobbyNotGames p (List.mem_of_mem_erase hp)
  · show ∀ p ∈ s.lobby.erase (c, a), dlookup s.specMap p.1 = none
    intro p hp
    exact hE.lobbyNotSpecs p (List.mem_of_mem_erase hp)
  · show ∀ cc sid, dlookup (dinsert s.games c gid) cc = some sid →
      dlookup s.specMap cc = none
    intro cc sid hl
    by_cases hcc : cc = c
    · subst hcc
      exact hE.lobbyNotSpecs (cc, a) hlob
    · rw [dlookup_dinsert_ne _ _ hcc] at hl
      exact hE.gamesNotSpecs cc sid hl
  · show ∀ p ∈ s.lobby.erase (c, a), dlookup s.roles p.1 = some Role.player
    intro p hp
    exact hE.lobbyPlayer p (List.mem_of_mem_erase hp)
  · show ∀ cc sid, dlookup (dinsert s.games c gid) cc = some sid →
      dlookup s.roles cc = some Role.player
    intro cc sid hl
    by_cases hcc : cc = c
    · rw [hcc]
      exact hrole
    · rw [dlookup_dinsert_ne _ _ hcc] at hl
      exact hE.gamesPlayer cc sid hl
  · show ∀ sid2 g2,
      dlookup (dinsert s.sessions gid { seatBlack g c a with lastMove := now }) sid2
        = some g2 → ∀ cc, g2.whiteConn = some cc ∨ g2.blackConn = some cc →
      dlookup s.roles cc = some Role.player
    intro sid2 g2 hl cc hseat
    by_cases hs : sid2 = gid
    · subst hs
      rw [dlookup_dinsert_self] at hl
      injection hl with hl
      subst hl
      rcases hseat with hseat | hseat
      · have h2 : g.whiteConn = some cc := hseat
        exact hE.seatsPlayer sid2 g hg cc (Or.inl h2)
      · have h2 : some c = some cc := hseat
        injection h2 with h2
        rw [← h2]
        exact hrole
    · rw [dlookup_dinsert_ne _ _ hs] at hl
      exact hE.seatsPlayer sid2 g2 hl cc hseat

theorem excInv_joinStep {B M : Type} (R : Rules B M) {s : Srv B} (hE : ExcInv s)
    (c : Conn) (a : Addr) (gid : Nat) (pw : Option String) (now : Int) :
    ExcInv (joinStep R s c a gid pw now) := by
  unfold joinStep
  split
  · next hguard =>
    obtain ⟨hrole, hlob, _⟩ := hguard
    split
    · split
      · exact hE
      · next g hg =>
        split
        · exact excInv_congr hE rfl rfl rfl rfl rfl
        · exact excInv_joinCore R hE c a gid g now hrole hlob hg
    · exact excInv_congr hE rfl rfl rfl rfl rfl
  · exact hE

theorem excInv_moveCleanup {B : Type} {s : Srv B} (hE : ExcInv s) (hR : RefInv s)
    (g : Session B)
    (hseat : ∀ cc, g.whiteConn = some cc ∨ g.blackConn = some cc →
      dlookup s.roles cc = some Role.player)
    (hsW : ∀ w, g.whiteConn = some w → g.creatorAddr.isSome = true →
      w ∉ s.lobby.map Prod.fst)
    (hsB : ∀ b, g.blackConn = some b → g.blackAddr.isSome = true →
      b ∉ s.lobby.map Prod.fst)
    (hsWB : ∀ w b, g.whiteConn = some w → g.blackConn = some b → w ≠ b) :
    ExcInv (moveCleanup s g) := by
  unfold moveCleanup
  apply excInv_broadcastLobby
  refine ⟨?_, ?_, ?_, ?_, ?_, ?_, hE.specsSpectator, hE.seatsPlayer,
    hE.specsKeysNodup⟩
  · show (((s.lobby ++ seatReadd g.whiteConn g.creatorAddr) ++
      seatReadd g.blackConn g.blackAddr).map Prod.fst).Nodup
    apply seatReadd_keys
    · exact seatReadd_keys hE.lobbyKeysNodup fun x hx ha => hsW x hx ha
    · intro x hx ha hmem
      rcases seatReadd_keys_mem hmem with h1 | h2
      · exact hsB x hx ha h1
      · exact hsWB x x h2 hx rfl
  · show ∀ p ∈ (s.lobby ++ seatReadd g.whiteConn g.creatorAddr) ++
      seatReadd g.blackConn g.blackAddr, dlookup (eraseSeats s.games g) p.1 = none
    intro p hp
    rcases List.mem_append.mp hp with hp1 | hpb
    · rcases List.mem_append.mp hp1 with hp0 | hpw
      · exact dlookup_eraseSeats_none g hR.gamesKeysNodup (hE.lobbyNotGames p hp0)
      · exact dlookup_eraseSeats_white hR.gamesKeysNodup (mem_seatReadd hpw).1
    · exact dlookup_eraseSeats_black hR.gamesKeysNodup (mem_seatReadd hpb).1
  · show ∀ p ∈ (s.lobby ++ seatReadd g.whiteConn g.creatorAddr) ++
      seatReadd g.blackConn g.blackAddr, dlookup s.specMap p.1 = none
    intro p hp
    rcases List.mem_append.mp hp with hp1 | hpb
    · rcases List.mem_append.mp hp1 with hp0 | hpw
      · exact hE.lobbyNotSpecs p hp0
      · exact player_not_spec hE (hseat p.1 (Or.inl (mem_seatReadd hpw).1))
    · exact player_not_spec hE (hseat p.1 (Or.inr (mem_seatReadd hpb).1))
  · show ∀ cc sid, dlookup (eraseSeats s.games g) cc = some sid →
      dlookup s.specMap cc = none
    intro cc sid hl
    exact hE.gamesNotSpecs cc sid (dlookup_eraseSeats_some hR.gamesKeysNodup hl)
  · show ∀ p ∈ (s.lobby ++ seatReadd g.whiteConn g.creatorAddr) ++
      seatReadd g.blackConn g.blackAddr, dlookup s.roles p.1 = some Role.player
    intro p hp
    rcases List.mem_append.mp hp with hp1 | hpb
    · rcases List.mem_append.mp hp1 with hp0 | hpw
      · exact hE.lobbyPlayer p hp0
      · exact hseat p.1 (Or.inl (mem_seatReadd hpw).1)
    · exact hseat p.1 (Or.inr (mem_seatReadd hpb).1)
  · show ∀ cc sid, dlookup (eraseSeats s.games g) cc = some sid →
      dlookup s.roles cc = some Role.player
    intro cc sid hl
    exact hE.gamesPlayer cc sid (dlookup_eraseSeats_some hR.gamesKeysNodup hl)

theorem excInv_moveStep {B M : Type} (R : Rules B M) {s : Srv B} (hE : ExcInv s)
    (hR : RefInv s) (c : Conn) (a : Addr) (mv : String) (now : Int)
    (hsafe : safeOp s (Op.moveOp c a mv now) = true) :
    ExcInv (moveStep R s c mv now) := by
  unfold moveStep
  split
  · split
    · exact hE
    · next sid hsid =>
      split
      · exact hE
      · next g hg =>
        simp only [safeOp] at hsafe
        simp only [hsid, hg, Bool.and_eq_true] at hsafe
        obtain ⟨⟨hA, hB⟩, hC⟩ := hsafe
        have hsW : ∀ w, g.whiteConn = some w → g.creatorAddr.isSome = true →
            w ∉ s.lobby.map Prod.fst := by
          intro w hw ha
          cases hca : g.creatorAddr with
          | none =>
            rw [hca] at ha
            exact absurd ha (by simp)
          | some wa =>
            simp only [hw, hca] at hA
            exact lobby_all_ne hA
        have hsB : ∀ b, g.blackConn = some b → g.blackAddr.isSome = true →
            b ∉ s.lobby.map Prod.fst := by
          intro b hb ha
          cases hba : g.blackAddr with
          | none =>
            rw [hba] at ha
            exact absurd ha (by simp)
          | some ba =>
            simp only [hb, hba] at hB
            exact lobby_all_ne hB
        have hsWB : ∀ w b, g.whiteConn = some w → g.blackConn = some b → w ≠ b := by
          intro w b hw hb
          simp only [hw, hb] at hC
          simpa using hC
        show ExcInv (if (handleMove R now g c mv).2.2.1 = "ended"
            then moveCleanup { s with
                sessions := dinsert s.sessions sid (handleMove R now g c mv).1
                out := s.out ++ (handleMove R now g c mv).2.1 } g
            else { s with
                sessions := dinsert s.sessions sid (handleMove R now g c mv).1
                out := s.out ++ (handleMove R now g c mv).2.1 })
        have hf := handleMove_fields R now g c mv
        have hs1E : ExcInv { s with
            sessions := dinsert s.sessions sid (handleMove R now g c mv).1
            out := s.out ++ (handleMove R now g c mv).2.1 } := by
          refine excInv_sessions_update hE sid hg ?_ ?_ rfl rfl rfl rfl rfl
          · exact hf.1
          · exact hf.2.1
        have hs1R : RefInv { s with
            sessions := dinsert s.sessions sid (handleMove R now g c mv).1
            out := s.out ++ (handleMove R now g c mv).2.1 } := by
          refine refInv_sessions_update hR sid hg ?_ ?_ ?_ rfl rfl rfl rfl
          · exact hf.1
          · exact hf.2.1
          · exact hf.2.2
        split
        · exact excInv_moveCleanup hs1E hs1R g (hE.seatsPlayer sid g hg) hsW hsB hsWB
        · exact hs1E
  · exact hE

theorem excInv_quit_state {B : Type} {s t : Srv B} (hE : ExcInv s) (hR : RefInv s)
    (c : Conn) (a : Addr) (g : Session B) (L : List (Conn × Addr))
    (hrole : dlookup s.roles c = some Role.player)
    (hclob : c ∉ s.lobby.map Prod.fst)
    (hspec : dlookup s.specMap c = none)
    (hseat : ∀ cc, g.whiteConn = some cc ∨ g.blackConn = some cc →
      dlookup s.roles cc = some Role.player)
    (hL : ∀ p ∈ L, g.opponent c = some p.1 ∧ p.1 ≠ c ∧ p.1 ∉ s.lobby.map Prod.fst)
    (hLn : L.length ≤ 1)
    (h1 : t.lobby = (s.lobby ++ [(c, a)]) ++ L)
    (h2 : t.games = eraseQuit s.games g c)
    (h3 : t.specMap = s.specMap) (h4 : t.roles = s.roles)
    (h5 : t.sessions = s.sessions) : ExcInv t := by
  refine ⟨?_, ?_, ?_, ?_, ?_, ?_, ?_, ?_, ?_⟩
  · rw [h1]
    have hn1 : ((s.lobby ++ [(c, a)]).map Prod.fst).Nodup :=
      keys_append_one hE.lobbyKeysNodup hclob
    cases L with
    | nil => simpa using hn1
    | cons p tl =>
      have htl : tl = [] := by
        cases tl with
        | nil => rfl
        | cons q tq => simp at hLn
      subst htl
      apply keys_append_one hn1
      intro hmem
      rw [List.map_append] at hmem
      rcases List.mem_append.mp hmem with h1m | h2m
      · exact (hL p (List.mem_cons_self p [])).2.2 h1m
      · simp at h2m
        exact (hL p (List.mem_cons_self p [])).2.1 h2m
  · rw [h1, h2]
    intro p hp
    rcases List.mem_append.mp hp with hp1 | hpL
    · rcases List.mem_append.mp hp1 with hp0 | hp2
      · exact dlookup_eraseQuit_none g c hR.gamesKeysNodup (hE.lobbyNotGames p hp0)
      · simp at hp2
        rw [hp2]
        exact dlookup_eraseQuit_self g hR.gamesKeysNodup
    · exact dlookup_eraseQuit_opp hR.gamesKeysNodup (hL p hpL).1
  · rw [h1, h3]
    intro p hp
    rcases List.mem_append.mp hp with hp1 | hpL
    · rcases List.mem_append.mp hp1 with hp0 | hp2
      · exact hE.lobbyNotSpecs p hp0
      · simp at hp2
        rw [hp2]
        exact hspec
    · exact player_not_spec hE (hseat p.1 (opponent_seat (hL p hpL).1))
  · rw [h2, h3]
    intro cc sid hl
    exact hE.gamesNotSpecs cc sid (dlookup_eraseQuit_some hR.gamesKeysNodup hl)
  · rw [h1, h4]
    intro p hp
    rcases List.mem_append.mp hp with hp1 | hpL
    · rcases List.mem_append.mp hp1 with hp0 | hp2
      · exact hE.lobbyPlayer p hp0
      · simp at hp2
        rw [hp2]
        exact hrole
    · exact hseat p.1 (opponent_seat (hL p hpL).1)
  · rw [h2, h4]
    intro cc sid hl
    exact hE.gamesPlayer cc sid (dlookup_eraseQuit_some hR.gamesKeysNodup hl)
  · rw [h3, h4]
    exact hE.specsSpectator
  · rw [h5, h4]
    exact hE.seatsPlayer
  · rw [h3]
    exact hE.specsKeysNodup

theorem excInv_quitStep {B : Type} {s : Srv B} (hE : ExcInv s) (hR : RefInv s)
    (c : Conn) (a : Addr) (hsafe : safeOp s (Op.quitOp c a) = true) :
    ExcInv (quitStep s c a) := by
  unfold quitStep
  split
  · next hguard =>
    split
    · exact hE
    · next sid hsid =>
      split
      · exact hE
      · next g hg =>
        simp only [safeOp] at hsafe
        simp only [hsid, hg] at hsafe
        refine excInv_quit_state hE hR c a g _ hguard.1
          (games_some_not_lobby hE hsid) (hE.gamesNotSpecs c sid hsid)
          (hE.seatsPlayer sid g hg) ?_ ?_ rfl rfl rfl rfl rfl
        · intro p hp
          cases hqr : quitReadd g c with
          | none =>
            rw [hqr] at hp
            simp at hp
          | some q =>
            rw [hqr] at hp
            simp at hp
            subst hp
            simp only [hqr, Bool.and_eq_true] at hsafe
            refine ⟨quitReadd_opp hqr, ?_, lobby_all_ne hsafe.2⟩
            simpa using hsafe.1
        · cases hqr : quitReadd g c <;> simp [hqr]
  · exact hE

theorem excInv_discLobby {B : Type} {s : Srv B} (hE : ExcInv s) (c : Conn)
    (a : Addr) : ExcInv (discLobby s c a) := by
  unfold discLobby
  split
  · apply excInv_broadcastLobby
    refine ⟨?_, ?_, ?_, hE.gamesNotSpecs, ?_, hE.gamesPlayer, hE.specsSpectator,
      hE.seatsPlayer, hE.specsKeysNodup⟩
    · show ((s.lobby.erase (c, a)).map Prod.fst).Nodup
      exact ((List.erase_sublist (c, a) s.lobby).map Prod.fst).nodup hE.lobbyKeysNodup
    · show ∀ p ∈ s.lobby.erase (c, a), dlookup s.games p.1 = none
      intro p hp
      exact hE.lobbyNotGames p (List.mem_of_mem_erase hp)
    · show ∀ p ∈ s.lobby.erase (c, a), dlookup s.specMap p.1 = none
      intro p hp
      exact hE.lobbyNotSpecs p (List.mem_of_mem_erase hp)
    · show ∀ p ∈ s.lobby.erase (c, a), dlookup s.roles p.1 = some Role.player
      intro p hp
      exact hE.lobbyPlayer p (List.mem_of_mem_erase hp)
  · exact hE

theorem excInv_discWaiting {B : Type} {s : Srv B} (hE : ExcInv s) (c : Conn) :
    ExcInv (discWaiting s c) := by
  unfold discWaiting
  split
  · exact excInv_broadcastLobby (excInv_congr hE rfl rfl rfl rfl rfl)
  · exact hE

theorem discLobby_regs {B : Type} (s : Srv B) (c : Conn) (a : Addr) :
    (discLobby s c a).games = s.games ∧ (discLobby s c a).sessions = s.sessions ∧
    (discLobby s c a).roles = s.roles ∧
    ∀ x, x ∉ s.lobby.map Prod.fst → x ∉ (discLobby s c a).lobby.map Prod.fst := by
  unfold discLobby
  split
  · refine ⟨rfl, rfl, rfl, ?_⟩
    intro x hx hmem
    exact hx (((List.erase_sublist (c, a) s.lobby).map Prod.fst).subset hmem)
  · exact ⟨rfl, rfl, rfl, fun x hx => hx⟩

theorem discWaiting_regs {B : Type} (s : Srv B) (c : Conn) :
    (discWaiting s c).games = s.games ∧ (discWaiting s c).sessions = s.sessions ∧
    (discWaiting s c).roles = s.roles ∧ (discWaiting s c).lobby = s.lobby := by
  unfold discWaiting
  split
  · exact ⟨rfl, rfl, rfl, rfl⟩
  · exact ⟨rfl, rfl, rfl, rfl⟩

theorem excInv_disc_state {B : Type} {s t : Srv B} (hE : ExcInv s) (hR : RefInv s)
    (c : Conn) (g : Session B) (L : List (Conn × Addr))
    (hseat : ∀ cc, g.whiteConn = some cc ∨ g.blackConn = some cc →
      dlookup s.roles cc = some Role.player)
    (hL : ∀ p ∈ L, g.opponent c = some p.1 ∧ p.1 ∉ s.lobby.map Prod.fst)
    (hLn : L.length ≤ 1)
    (h1 : t.lobby = s.lobby ++ L)
    (h2 : t.games = eraseQuit s.games g c)
    (h3 : t.specMap = g.specs.foldl (fun acc sp => derase acc sp) s.specMap)
    (h4 : t.roles = s.roles) (h5 : t.sessions = s.sessions) : ExcInv t := by
  refine ⟨?_, ?_, ?_, ?_, ?_, ?_, ?_, ?_, ?_⟩
  · rw [h1]
    cases L with
    | nil => simpa using hE.lobbyKeysNodup
    | cons p tl =>
      have htl : tl = [] := by
        cases tl with
        | nil => rfl
        | cons q tq => simp at hLn
      subst htl
      exact keys_append_one hE.lobbyKeysNodup (hL p (List.mem_cons_self p [])).2
  · rw [h1, h2]
    intro p hp
    rcases List.mem_append.mp hp with hp0 | hpL
    · exact dlookup_eraseQuit_none g c hR.gamesKeysNodup (hE.lobbyNotGames p hp0)
    · exact dlookup_eraseQuit_opp hR.gamesKeysNodup (hL p hpL).1
  · rw [h1, h3]
    intro p hp
    rcases List.mem_append.mp hp with hp0 | hpL
    · exact dlookup_foldl_derase_none _ _ _ hE.specsKeysNodup (hE.lobbyNotSpecs p hp0)
    · exact dlookup_foldl_derase_none _ _ _ hE.specsKeysNodup
        (player_not_spec hE (hseat p.1 (opponent_seat (hL p hpL).1)))
  · rw [h2, h3]
    intro cc sid hl
    exact dlookup_foldl_derase_none _ _ _ hE.specsKeysNodup
      (hE.gamesNotSpecs cc sid (dlookup_eraseQuit_some hR.gamesKeysNodup hl))
  · rw [h1, h4]
    intro p hp
    rcases List.mem_append.mp hp with hp0 | hpL
    · exact hE.lobbyPlayer p hp0
    · exact hseat p.1 (opponent_seat (hL p hpL).1)
  · rw [h2, h4]
    intro cc sid hl
    exact hE.gamesPlayer cc sid (dlookup_eraseQuit_some hR.gamesKeysNodup hl)
  · rw [h3, h4]
    intro cc sid hl
    exact hE.specsSpectator cc sid
      (dlookup_foldl_derase_some _ _ cc sid hE.specsKeysNodup hl)
  · rw [h5, h4]
    exact hE.seatsPlayer
  · rw [h3]
    exact nodup_foldl_derase _ _ hE.specsKeysNodup

theorem excInv_discGame {B : Type} {s : Srv B} (hE : ExcInv s) (hR : RefInv s)
    (c : Conn) (g : Session B)
    (hseat : ∀ cc, g.whiteConn = some cc ∨ g.blackConn = some cc →
      dlookup s.roles cc = some Role.player)
    (hsafe : ∀ p, quitReadd g c = some p → p.1 ∉ s.lobby.map Prod.fst) :
    ExcInv (discGame s c g) := by
  unfold discGame
  refine excInv_disc_state hE hR c g _ hseat ?_ ?_ rfl rfl rfl rfl rfl
  · intro p hp
    cases hqr : quitReadd g c with
    | none =>
      rw [hqr] at hp
      simp at hp
    | some q =>
      rw [hqr] at hp
      simp at hp
      subst hp
      exact ⟨quitReadd_opp hqr, hsafe p hqr⟩
  · cases hqr : quitReadd g c <;> simp [hqr]

theorem excInv_discPlayer {B : Type} {s : Srv B} (hE : ExcInv s) (hR : RefInv s)
    (c : Conn)
    (hsafe : ∀ sid g p, dlookup s.games c = some sid →
      dlookup s.sessions sid = some g → quitReadd g c = some p →
      p.1 ∉ s.lobby.map Prod.fst) :
    ExcInv (discPlayer s c) := by
  unfold discPlayer
  split
  · exact hE
  · next sid hgc =>
    split
    · exact hE
    · next g hg =>
      exact excInv_discGame hE hR c g (hE.seatsPlayer sid g hg)
        (fun p hp => hsafe sid g p hgc hg hp)

theorem excInv_disconnectStep {B : Type} {s : Srv B} (hE : ExcInv s) (hR : RefInv s)
    (c : Conn) (a : Addr) (hsafe : safeOp s (Op.disconnect c a) = true) :
    ExcInv (disconnectStep s c a) := by
  unfold disconnectStep
  split
  · exact hE
  · split
    · have hcore : ExcInv (discPlayer (discWaiting (discLobby s c a) c) c) := by
        apply excInv_discPlayer
          (excInv_discWaiting (excInv_discLobby hE c a) c)
          (refInv_discWaiting (refInv_discLobby hR c a) c)
        intro sid g p hgc hg hqp
        have hdl := discLobby_regs s c a
        have hdw := discWaiting_regs (discLobby s c a) c
        rw [hdw.1, hdl.1] at hgc
        rw [hdw.2.1, hdl.2.1] at hg
        simp only [safeOp] at hsafe
        simp only [hgc, hg, hqp] at hsafe
        have hnot := lobby_all_ne hsafe
        rw [hdw.2.2.2]
        exact hdl.2.2.2 p.1 hnot
      exact excInv_congr hcore rfl rfl rfl rfl rfl
    · refine ⟨hE.lobbyKeysNodup, hE.lobbyNotGames, ?_, ?_, hE.lobbyPlayer,
        hE.gamesPlayer, ?_, hE.seatsPlayer, ?_⟩
      · show ∀ p ∈ s.lobby, dlookup (derase s.specMap c) p.1 = none
        intro p hp
        exact dlookup_derase_none hE.specsKeysNodup (hE.lobbyNotSpecs p hp)
      · show ∀ cc sid, dlookup s.games cc = some sid →
          dlookup (derase s.specMap c) cc = none
        intro cc sid hl
        exact dlookup_derase_none hE.specsKeysNodup (hE.gamesNotSpecs cc sid hl)
      · show ∀ cc sid, dlookup (derase s.specMap c) cc = some sid →
          dlookup s.roles cc = some Role.spectator
        intro cc sid hl
        exact hE.specsSpectator cc sid (dlookup_derase_of_some hE.specsKeysNodup hl)
      · show ((derase s.specMap c).map Prod.fst).Nodup
        exact nodup_keys_derase c hE.specsKeysNodup
    · exact excInv_congr hE rfl rfl rfl rfl rfl

theorem excInv_watchdogBody {B M : Type} (R : Rules B M) (now : Int) {acc : Srv B}
    (h : ExcInv acc) (sid : Nat) : ExcInv (watchdogBody R now acc sid) := by
  unfold watchdogBody
  split
  · exact h
  · next g hg =>
    have hf := scanGame_fields R now g
    refine excInv_sessions_update h sid hg ?_ ?_ rfl rfl rfl rfl rfl
    · exact hf.1
    · exact hf.2.1

theorem excInv_watchdog_foldl {B M : Type} (R : Rules B M) (now : Int) :
    ∀ (l : List Nat) (acc : Srv B), ExcInv acc →
      ExcInv (l.foldl (watchdogBody R now) acc) := by
  intro l
  induction l with
  | nil =>
    intro acc h
    exact h
  | cons j t ih =>
    intro acc h
    exact ih _ (excInv_watchdogBody R now h j)

theorem excInv_watchdogStep {B M : Type} (R : Rules B M) {s : Srv B} (h : ExcInv s)
    (now : Int) : ExcInv (watchdogStep R s now) := by
  unfold watchdogStep
  exact excInv_watchdog_foldl R now _ s h

theorem excInv_initSrv {B : Type} : ExcInv (initSrv (B := B)) := by
  refine ⟨?_, ?_, ?_, ?_, ?_, ?_, ?_, ?_, ?_⟩ <;> simp [initSrv, dlookup]

theorem excInv_applyOp {B M : Type} (R : Rules B M) {s : Srv B} (hE : ExcInv s)
    (hR : RefInv s) : ∀ op, safeOp s op = true → ExcInv (applyOp R s op)
  | .joinPlayer c a, _ => excInv_joinPlayerStep hE c a
  | .joinSpectator c gid, _ => excInv_joinSpectatorStep R hE c gid
  | .createGame c a pw now, _ => excInv_createStep R hE c a pw now
  | .joinGame c a gid pw now, _ => excInv_joinStep R hE c a gid pw now
  | .moveOp c a mv now, hs => excInv_moveStep R hE hR c a mv now hs
  | .quitOp c a, hs => excInv_quitStep hE hR c a hs
  | .disconnect c a, hs => excInv_disconnectStep hE hR c a hs
  | .watchdog now, _ => excInv_watchdogStep R hE now

theorem excInv_runOps {B M : Type} (R : Rules B M) :
    ∀ (ops : List Op) (s : Srv B), ExcInv s → RefInv s →
      safeRun R s ops = true → ExcInv (runOps R s ops)
  | [], _, hE, _, _ => hE
  | op :: ops, s, hE, hR, hs => by
    simp only [safeRun, Bool.and_eq_true] at hs
    exact excInv_runOps R ops (applyOp R s op) (excInv_applyOp R hE hR op hs.1)
      (refInv_applyOp R hR op) hs.2

theorem discLobby_skip {B : Type} {s : Srv B} {c : Conn} {a : Addr}
    (h : (c, a) ∉ s.lobby) : discLobby s c a = s := by
  unfold discLobby
  rw [if_neg h]

theorem dlookup_foldl_derase {β : Type} :
    ∀ (l : List Nat) (m : List (Nat × β)), (m.map Prod.fst).Nodup →
      ∀ k ∈ l, dlookup (l.foldl (fun acc j => derase acc j) m) k = none := by
  intro l
  induction l with
  | nil => intro m _ k hk; simp at hk
  | cons j t ih =>
    intro m hn k hk
    simp only [List.foldl_cons]
    rcases List.mem_cons.mp hk with rfl | hkt
    · exact dlookup_foldl_derase_none t (derase m k) k (nodup_keys_derase k hn)
        (dlookup_derase_self k hn)
    · exact ih (derase m j) (nodup_keys_derase j hn) k hkt

/-- C9 (amended): ending a session removes both seat references from
activeGames and returns each seated side whose connection and address
are known to the lobby exactly once — but only the disconnect teardown
clears the spectator bindings of the session; the terminal-move
cleanup and the quit path leave the spectators dict (and quit leaves
any waiting_games entry) untouched. -/
theorem c9_cleanup_registries {B : Type} :
    (∀ (s : Srv B) (g : Session B) (w b : Conn) (wa ba : Addr),
      g.whiteConn = some w → g.blackConn = some b → g.creatorAddr = some wa →
      g.blackAddr = some ba → w ≠ b → (s.games.map Prod.fst).Nodup →
      (moveCleanup s g).specMap = s.specMap ∧
      (moveCleanup s g).waiting = s.waiting ∧
      dlookup (moveCleanup s g).games w = none ∧
      dlookup (moveCleanup s g).games b = none ∧
      (moveCleanup s g).lobby = (s.lobby ++ [(w, wa)]) ++ [(b, ba)]) ∧
    (∀ (s : Srv B) (c : Conn) (a : Addr) (sid : Nat) (g : Session B) (o : Conn)
      (oa : Addr),
      dlookup s.roles c = some Role.player → c ∉ s.closed →
      dlookup s.games c = some sid → dlookup s.sessions sid = some g →
      g.opponent c = some o → (dlookup (derase s.games c) o).isSome = true →
      quitReadd g c = some (o, oa) → o ≠ c → (s.games.map Prod.fst).Nodup →
      (quitStep s c a).specMap = s.specMap ∧
      (quitStep s c a).waiting = s.waiting ∧
      (quitStep s c a).sessions = s.sessions ∧
      dlookup (quitStep s c a).games c = none ∧
      dlookup (quitStep s c a).games o = none ∧
      (quitStep s c a).lobby = (s.lobby ++ [(c, a)]) ++ [(o, oa)]) ∧
    (∀ (s : Srv B) (c : Conn) (a : Addr) (sid : Nat) (g : Session B) (o : Conn)
      (oa : Addr),
      c ∉ s.closed → dlookup s.roles c = some Role.player → (c, a) ∉ s.lobby →
      (s.waiting.find? fun gid =>
        match dlookup s.sessions gid with
        | some g2 => g2.creatorConn = some c
        | none => false) = none →
      dlookup s.games c = some sid → dlookup s.sessions sid = some g →
      quitReadd g c = some (o, oa) → (s.specMap.map Prod.fst).Nodup →
      (∀ sp ∈ g.specs, dlookup (disconnectStep s c a).specMap sp = none) ∧
      (disconnectStep s c a).lobby = s.lobby ++ [(o, oa)] ∧
      (disconnectStep s c a).waiting = s.waiting) := by
  refine ⟨?_, ?_, ?_⟩
  · intro s g w b wa ba hw hb hwa hba hwb hn
    have hes : eraseSeats s.games g = derase (derase s.games w) b := by
      simp only [eraseSeats, hw, hb]
    refine ⟨rfl, rfl, ?_, ?_, ?_⟩
    · show dlookup (eraseSeats s.games g) w = none
      rw [hes, dlookup_derase_ne _ hwb]
      exact dlookup_derase_self w hn
    · show dlookup (eraseSeats s.games g) b = none
      rw [hes]
      exact dlookup_derase_self b (nodup_keys_derase w hn)
    · show (s.lobby ++ seatReadd g.whiteConn g.creatorAddr) ++
        seatReadd g.blackConn g.blackAddr = (s.lobby ++ [(w, wa)]) ++ [(b, ba)]
      rw [hw, hb, hwa, hba]
      rfl
  · intro s c a sid g o oa hrole hclosed hgames hsess hopp hoin hreadd hoc hn
    unfold quitStep
    rw [if_pos ⟨hrole, hclosed⟩]
    simp only [hgames, hsess]
    have heq : eraseQuit s.games g c = derase (derase s.games c) o := by
      simp only [eraseQuit, hopp, hoin, if_true]
    refine ⟨rfl, rfl, rfl, ?_, ?_, ?_⟩
    · show dlookup (eraseQuit s.games g c) c = none
      rw [heq, dlookup_derase_ne _ (fun hh => hoc hh.symm)]
      exact dlookup_derase_self c hn
    · show dlookup (eraseQuit s.games g c) o = none
      rw [heq]
      exact dlookup_derase_self o (nodup_keys_derase c hn)
    · show (s.lobby ++ [(c, a)]) ++
        (match quitReadd g c with
         | some p => [p]
         | none => []) = (s.lobby ++ [(c, a)]) ++ [(o, oa)]
      rw [hreadd]
  · intro s c a sid g o oa hclosed hrole hlob hwg hgames hsess hreadd hsn
    unfold disconnectStep
    rw [if_neg hclosed]
    simp only [hrole]
    rw [discLobby_skip hlob]
    have hdw : discWaiting s c = s := by
      unfold discWaiting
      rw [hwg]
    rw [hdw]
    have hdp : discPlayer s c = discGame s c g := by
      unfold discPlayer
      simp only [hgames, hsess]
    rw [hdp]
    refine ⟨?_, ?_, rfl⟩
    · intro sp hsp
      show dlookup (g.specs.foldl (fun acc j => derase acc j) s.specMap) sp = none
      exact dlookup_foldl_derase g.specs s.specMap hsn sp hsp
    · show s.lobby ++
        (match quitReadd g c with
         | some p => [p]
         | none => []) = s.lobby ++ [(o, oa)]
      rw [hreadd]

/-- Witness for c9_cleanup_registries: a two-seat session with one
spectator, torn down by the move cleanup, the quit path, and the
disconnect path from concrete states. -/
theorem c9_cleanup_registries_witness :
    ((moveCleanup (⟨[], [(0, 0), (1, 0)], [], [(5, 0)], [], [], [], 1, []⟩ : Srv Int)
        (seatBlack (mkSession (toyRules 99) 0 7 none 0 0) 1 8)).specMap = [(5, 0)] ∧
      dlookup (moveCleanup (⟨[], [(0, 0), (1, 0)], [], [(5, 0)], [], [], [], 1, []⟩ :
          Srv Int)
        (seatBlack (mkSession (toyRules 99) 0 7 none 0 0) 1 8)).games 0 = none) ∧
    ((quitStep (⟨[], [(0, 0), (1, 0)], [], [(5, 0)],
          [(0, seatBlack (mkSession (toyRules 99) 0 7 none 0 0) 1 8)],
          [(0, Role.player), (1, Role.player)], [], 1, []⟩ : Srv Int) 0 7).specMap =
        [(5, 0)] ∧
      dlookup (quitStep (⟨[], [(0, 0), (1, 0)], [], [(5, 0)],
          [(0, seatBlack (mkSession (toyRules 99) 0 7 none 0 0) 1 8)],
          [(0, Role.player), (1, Role.player)], [], 1, []⟩ : Srv Int) 0 7).games 1 =
        none) ∧
    (∀ sp ∈ (seatBlack (mkSession (toyRules 99) 0 7 none 0 0) 1 8).specs,
      dlookup (disconnectStep (⟨[], [(0, 0), (1, 0)], [], [(5, 0)],
          [(0, seatBlack (mkSession (toyRules 99) 0 7 none 0 0) 1 8)],
          [(0, Role.player), (1, Role.player)], [], 1, []⟩ : Srv Int) 0 7).specMap sp =
        none) := by
  have h := c9_cleanup_registries (B := Int)
  refine ⟨?_, ?_, ?_⟩
  · have h1 := h.1 (⟨[], [(0, 0), (1, 0)], [], [(5, 0)], [], [], [], 1, []⟩ : Srv Int)
      (seatBlack (mkSession (toyRules 99) 0 7 none 0 0) 1 8) 0 1 7 8
      (by decide) (by decide) (by decide) (by decide) (by decide) (by decide)
    exact ⟨h1.1, h1.2.2.1⟩
  · have h2 := h.2.1 (⟨[], [(0, 0), (1, 0)], [], [(5, 0)],
        [(0, seatBlack (mkSession (toyRules 99) 0 7 none 0 0) 1 8)],
        [(0, Role.player), (1, Role.player)], [], 1, []⟩ : Srv Int) 0 7 0
      (seatBlack (mkSession (toyRules 99) 0 7 none 0 0) 1 8) 1 8
      (by decide) (by decide) (by decide) (by decide) (by decide) (by decide)
      (by decide) (by decide) (by decide)
    exact ⟨h2.1, h2.2.2.2.2.1⟩
  · have h3 := h.2.2 (⟨[], [(0, 0), (1, 0)], [], [(5, 0)],
        [(0, seatBlack (mkSession (toyRules 99) 0 7 none 0 0) 1 8)],
        [(0, Role.player), (1, Role.player)], [], 1, []⟩ : Srv Int) 0 7 0
      (seatBlack (mkSession (toyRules 99) 0 7 none 0 0) 1 8) 1 8
      (by decide) (by decide) (by decide) (by decide) (by decide) (by decide)
      (by decide) (by decide)
    exact h3.1

/-- C7 (amended): at every reachable state, every activeGames reference
points to a stored session that seats the referencing connection (hence
a session is referenced at most twice, once per seat), and every
waitingGames id names a stored session with no Black seat that is
referenced from activeGames at most by its creator.  The unamended
exactly-one placement is refuted separately: create_game (server.py
220 and 222) puts the fresh Waiting session in both registries. -/
theorem c7_session_refs_inv {B M : Type} (R : Rules B M) {s : Srv B}
    (hre : Reachable R s) :
    (∀ c sid, dlookup s.games c = some sid →
      ∃ g, dlookup s.sessions sid = some g ∧
        (g.whiteConn = some c ∨ g.blackConn = some c)) ∧
    (∀ gid ∈ s.waiting,
      ∃ g, dlookup s.sessions gid = some g ∧ g.blackConn = none ∧
        ∀ c, dlookup s.games c = some gid → g.creatorConn = some c) := by
  obtain ⟨ops, rfl⟩ := hre
  have h := refInv_runOps R ops initSrv refInv_initSrv
  exact ⟨h.refsSeats, h.waitingSession⟩

/-- Witness for the amended C7 theorem at the concrete reachable state
reached by one player joining and creating a game: the creator's
activeGames reference resolves to a session seating it, and the waiting
id resolves to a Black-less session referenced only by its creator. -/
theorem c7_session_refs_inv_witness :
    (∃ g, dlookup waitingActiveState.sessions 0 = some g ∧
      (g.whiteConn = some 0 ∨ g.blackConn = some 0)) ∧
    (∃ g, dlookup waitingActiveState.sessions 0 = some g ∧ g.blackConn = none ∧
      ∀ c, dlookup waitingActiveState.games c = some 0 → g.creatorConn = some c) := by
  have h := c7_session_refs_inv (toyRules 99) ⟨waitingActiveTrace, rfl⟩
  exact ⟨h.1 0 0 (by decide), h.2 0 (by decide)⟩

/-- C8 (amended): over every operation trace whose quit, disconnect and
terminal-move steps re-add only connections not already in the lobby —
`safeRun`, the normal case — each connection is in at most one of the
lobby, the activeGames keys and the spectators keys at the end of the
trace.  In general the claim fails: the quit path re-adds the opponent
without a membership check (server.py 418-419), exhibited separately on
a reachable trace. -/
theorem c8_conn_exclusive {B M : Type} (R : Rules B M) (ops : List Op)
    (hsafe : safeRun R initSrv ops = true) :
    (∀ p ∈ (runOps R (initSrv (B := B)) ops).lobby,
       dlookup (runOps R initSrv ops).games p.1 = none ∧
       dlookup (runOps R initSrv ops).specMap p.1 = none) ∧
    ∀ c sid, dlookup (runOps R (initSrv (B := B)) ops).games c = some sid →
      dlookup (runOps R initSrv ops).specMap c = none := by
  have h := excInv_runOps R ops initSrv excInv_initSrv refInv_initSrv hsafe
  exact ⟨fun p hp => ⟨h.lobbyNotGames p hp, h.lobbyNotSpecs p hp⟩, h.gamesNotSpecs⟩

/-- Witness for the amended C8 theorem on a concrete safe trace (join,
join, create, join game, quit): the trace is safe and the final
registries are mutually exclusive. -/
theorem c8_conn_exclusive_witness :
    safeRun (toyRules 99) initSrv safeTrace = true ∧
    ((∀ p ∈ (runOps (toyRules 99) initSrv safeTrace).lobby,
        dlookup (runOps (toyRules 99) initSrv safeTrace).games p.1 = none ∧
        dlookup (runOps (toyRules 99) initSrv safeTrace).specMap p.1 = none) ∧
     ∀ c sid, dlookup (runOps (toyRules 99) initSrv safeTrace).games c = some sid →
       dlookup (runOps (toyRules 99) initSrv safeTrace).specMap c = none) :=
  ⟨by decide, c8_conn_exclusive (toyRules 99) safeTrace (by decide)⟩

/-! ### Counterexample theorems -/

/-- C1 counterexample: in the reachable state where a created and
joined game has undergone one watchdog timeout rotation, the stored
turn color is Black while the Rules Engine board still has White to
move — the watchdog flips the session turn without pushing a move
(server.py 614-616), so the two diverge. -/
theorem c1_turn_sync_cex :
    Reachable (toyRules 99) divergeState ∧ (toyRules 99).Flips ∧
    (dlookup divergeState.sessions 0).map
        (fun g => (g.turn, (toyRules 99).sideToMove g.board)) =
      some (Color.black, Color.white) ∧
    dlookup divergeState.games 0 = some 0 ∧ dlookup divergeState.games 1 = some 0 :=
  ⟨⟨divergeTrace, rfl⟩, toyRules_flips 99, by decide, by decide, by decide⟩

/-- C3 counterexample: the byte sequence of two complete framed
messages, split so that the second read begins inside the quoted
string of the second message right after its space, decodes to a
DIFFERENT message than the unsplit feed: the post-extraction `strip()`
of the remaining buffer (client_updated_fixed.py line 618) deletes the
trailing space, which belongs inside the string literal of the
still-incomplete second message, so `json.loads` receives the span
with value `ab` instead of `a b`. -/
theorem c3_rechunk_cex :
    cexChunkA ++ cexChunkB = cexMsgA ++ cexMsgB ∧
    Framed cexMsgA ∧ Framed cexMsgB ∧
    feedChunks okTrue [] [cexMsgA ++ cexMsgB] = ([cexMsgA, cexMsgB], []) ∧
    feedChunks okTrue [] [cexChunkA, cexChunkB] = ([cexMsgA, cexMangled], []) ∧
    cexMangled ≠ cexMsgB :=
  ⟨by decide, by decide, by decide, by decide, by decide, by decide⟩

/-- C4 counterexample: on the server an undecodable read is fatal to
the connection.  `jsonToy` models `json.loads` on a two-string
universe (the real decoder raises on the word `oops` and accepts the
empty object); after the malformed read the loop terminates
exceptionally and the following well-formed message is never
processed, whereas the same well-formed messages alone are processed
normally. -/
theorem c4_fatal_decode_cex :
    jsonToy "oops" = none ∧
    serverConsume jsonToy ["oops", "\x7b\x7d"] = ([], true) ∧
    serverConsume jsonToy ["\x7b\x7d", "\x7b\x7d"] = ([(), ()], false) := by
  decide

/-- C7 counterexample: immediately after create_game the new session
is in waiting_games AND referenced (once, by its creator) from the
activeGames dict — server.py line 220 and line 222 — so a Waiting
session is reachable through activeGames and appears in neither
exactly-one category of the claim. -/
theorem c7_session_placement_cex :
    Reachable (toyRules 99) waitingActiveState ∧
    0 ∈ waitingActiveState.waiting ∧
    gamesRefs waitingActiveState 0 = [0] ∧
    (dlookup waitingActiveState.sessions 0).map (fun g => g.blackConn) = some none :=
  ⟨⟨waitingActiveTrace, rfl⟩, by decide, by decide, by decide⟩

/-- C8 counterexample: after the quit-path anomaly (a quit re-adds the
opponent to the lobby without a membership check, server.py 418-419),
connection 10 is simultaneously a lobby member and a key of the
activeGames dict in a reachable state. -/
theorem c8_exclusivity_cex :
    Reachable (toyRules 99) lobbyGamesState ∧
    (10, 10) ∈ lobbyGamesState.lobby ∧ dlookup lobbyGamesState.games 10 = some 1 :=
  ⟨⟨lobbyGamesTrace, rfl⟩, by decide, by decide⟩

/-- C9 counterexample: a session that ends by a terminal move is
cleaned out of activeGames and its players are returned to the lobby,
but the spectators dict still binds the spectator to the dead session
(the cleanup of server.py 322-354 never touches `spectators`). -/
theorem c9_spectator_binding_cex :
    Reachable (toyRules 2) spectatorLeakState ∧
    spectatorLeakState.games = [] ∧
    (0, 0) ∈ spectatorLeakState.lobby ∧ (1, 1) ∈ spectatorLeakState.lobby ∧
    dlookup spectatorLeakState.specMap 5 = some 0 ∧
    (dlookup spectatorLeakState.sessions 0).map (fun g => g.board) = some 2 :=
  ⟨⟨spectatorLeakTrace, rfl⟩, by decide, by decide, by decide, by decide, by decide⟩

end ChessServer
